import Mathlib

/-!
Verification of the `hypertwobits` cardinality-sketch crate.

The Rust source is embedded shallowly: `u64`/`u128` words become `ℕ`
(bitwise operations act on the low 64/128 bits exactly as in the machine
words, with complement written as XOR against the all-ones mask), fixed
arrays of registers become `List`s, and the estimator structs become Lean
structures with explicit state passing.  Each definition is translated from
the corresponding item in `src/h2b.rs`, `src/h2b/sketch.rs`, `src/h3b.rs`
and `src/h3b/sketch.rs`.
-/

/-- Number of one bits of a natural number (`u64::count_ones` /
`u128::count_ones` on in-range values).  The first argument is fuel; `n`
itself is enough fuel because the value halves at every step. -/
def popCountAux : ℕ → ℕ → ℕ
  | 0, _ => 0
  | fuel + 1, n => if n = 0 then 0 else n % 2 + popCountAux fuel (n / 2)

/-- `count_ones` of a machine word embedded as `ℕ`. -/
def popCount (n : ℕ) : ℕ := popCountAux n n

/-- Number of trailing one bits (`u64::trailing_ones`).  Fuel-bounded at 64,
which is exact for every value below `2 ^ 64`. -/
def trailingOnesAux : ℕ → ℕ → ℕ
  | 0, _ => 0
  | fuel + 1, n => if n % 2 = 1 then trailingOnesAux fuel (n / 2) + 1 else 0

/-- `u64::trailing_ones` on a value below `2 ^ 64`. -/
def trailingOnes (n : ℕ) : ℕ := trailingOnesAux 64 n

/-- Bitwise complement of a `u64` value: `!x` in Rust. -/
def not64 (x : ℕ) : ℕ := x ^^^ (2 ^ 64 - 1)

/-- Bitwise complement of a `u128` value: `!x` in Rust. -/
def not128 (x : ℕ) : ℕ := x ^^^ (2 ^ 128 - 1)

theorem popCountAux_congr (f₁ f₂ n : ℕ) (h₁ : n ≤ f₁) (h₂ : n ≤ f₂) :
    popCountAux f₁ n = popCountAux f₂ n := by
  induction f₁ using Nat.strong_induction_on generalizing f₂ n with
  | _ f₁ ih =>
    match f₁, f₂ with
    | 0, 0 => rfl
    | 0, f₂ + 1 =>
      interval_cases n
      simp [popCountAux]
    | f₁ + 1, 0 =>
      interval_cases n
      simp [popCountAux]
    | f₁ + 1, f₂ + 1 =>
      simp only [popCountAux]
      rcases Nat.eq_zero_or_pos n with rfl | hn
      · simp
      · have hd : n / 2 < n := Nat.div_lt_self hn (by omega)
        rw [ih f₁ (by omega) f₂ (n / 2) (by omega) (by omega)]

theorem popCount_unfold (n : ℕ) : popCount n = n % 2 + popCount (n / 2) := by
  rcases Nat.eq_zero_or_pos n with rfl | hn
  · rfl
  · obtain ⟨m, rfl⟩ : ∃ m, n = m + 1 := ⟨n - 1, by omega⟩
    show popCountAux (m + 1) (m + 1) = _
    simp only [popCountAux, Nat.succ_ne_zero, if_false]
    rw [popCountAux_congr m ((m + 1) / 2) ((m + 1) / 2) (by omega) le_rfl]
    rfl

/-- `popCount` counts the set bits below any bound covering the value. -/
theorem popCount_eq_card (k : ℕ) : ∀ n : ℕ, n < 2 ^ k →
    popCount n = ((Finset.range k).filter (fun i => n.testBit i)).card := by
  induction k with
  | zero =>
    intro n hn
    interval_cases n
    simp [popCount, popCountAux]
  | succ k ih =>
    intro n hn
    have hhalf : n / 2 < 2 ^ k := by
      have : n < 2 ^ k * 2 := by rw [pow_succ] at hn; omega
      omega
    rw [popCount_unfold, ih (n / 2) hhalf]
    rw [Finset.card_filter, Finset.card_filter, Finset.sum_range_succ']
    have h0 : n.testBit 0 = decide (n % 2 = 1) := by
      simp [Nat.testBit_to_div_mod]
    have hstep : ∀ i, n.testBit (i + 1) = (n / 2).testBit i := by
      intro i
      rw [Nat.testBit_add_one]
    simp only [hstep, h0]
    have : (if decide (n % 2 = 1) = true then 1 else 0) = n % 2 := by
      rcases Nat.mod_two_eq_zero_or_one n with h | h <;> simp [h]
    omega

/-- Changing exactly one bit from clear to set increments the popcount. -/
theorem popCount_flip_set (a b i k : ℕ) (ha : a < 2 ^ k) (hb : b < 2 ^ k)
    (hik : i < k) (hdiff : ∀ j, j ≠ i → a.testBit j = b.testBit j)
    (hai : a.testBit i = false) (hbi : b.testBit i = true) :
    popCount b = popCount a + 1 := by
  rw [popCount_eq_card k a ha, popCount_eq_card k b hb]
  have hset : (Finset.range k).filter (fun j => b.testBit j) =
      insert i ((Finset.range k).filter (fun j => a.testBit j)) := by
    ext j
    by_cases hj : j = i
    · subst hj
      simp [hbi, hai, hik]
    · simp only [Finset.mem_insert, Finset.mem_filter, Finset.mem_range]
      rw [hdiff j hj]
      tauto
  rw [hset, Finset.card_insert_of_not_mem (by simp [hai])]

/-- Bits agreeing everywhere gives equal popcounts (via equality). -/
theorem popCount_congr (a b : ℕ) (h : ∀ j, a.testBit j = b.testBit j) :
    popCount a = popCount b := by
  rw [Nat.eq_of_testBit_eq h]

/-- A single extracted bit, `(x >> i) & 1`, as an `if` on `testBit`. -/
theorem shiftRight_and_one (x i : ℕ) :
    (x >>> i) &&& 1 = if x.testBit i then 1 else 0 := by
  rw [Nat.and_one_is_mod, Nat.shiftRight_eq_div_pow]
  have hchar : x.testBit i = decide (x / 2 ^ i % 2 = 1) := Nat.testBit_to_div_mod
  rcases h : x.testBit i <;> rw [h] at hchar <;>
    simp only [false_eq_decide_iff, true_eq_decide_iff] at hchar <;> simp <;> omega

theorem testBit_one_eq (k : ℕ) : Nat.testBit 1 k = decide (k = 0) := by
  rcases k with _ | k
  · rfl
  · rw [Nat.testBit_to_div_mod]
    have h1 : (1 : ℕ) / 2 ^ (k + 1) = 0 := by
      apply Nat.div_eq_of_lt
      have : 2 ^ 1 ≤ 2 ^ (k + 1) := Nat.pow_le_pow_right (by omega) (by omega)
      omega
    simp [h1]

theorem testBit_not64 (x i : ℕ) (hi : i < 64) :
    (not64 x).testBit i = !x.testBit i := by
  rw [not64, Nat.testBit_xor, Nat.testBit_two_pow_sub_one]
  simp [hi, Bool.xor_comm]

theorem testBit_not128 (x i : ℕ) (hi : i < 128) :
    (not128 x).testBit i = !x.testBit i := by
  rw [not128, Nat.testBit_xor, Nat.testBit_two_pow_sub_one]
  simp [hi, Bool.xor_comm]

namespace H2B

/-- `HASH_MASK` of the width-64 two-bit sketch: 58 one bits
(src/h2b/sketch.rs, `M64::HASH_MASK`). -/
def m64HashMask : ℕ := 2 ^ 58 - 1

/-- Two-bit sketch with 64 substreams stored in two 64-bit planes
(src/h2b/sketch.rs, `struct M64`). -/
structure M64 where
  low : ℕ
  high : ℕ
deriving DecidableEq, Repr

/-- `M64::default()`: both planes zero. -/
def M64.default : M64 := ⟨0, 0⟩

/-- `M64::val`: recombine the plane bits of one substream into its level. -/
def M64.val (s : M64) (stream : ℕ) : ℕ :=
  let high_bit := (s.high >>> stream) &&& 1
  let low_bit := (s.low >>> stream) &&& 1
  (high_bit <<< 1) ||| low_bit

/-- `M64::set`: clear then write both plane bits of one substream. -/
def M64.set (s : M64) (stream value : ℕ) : M64 :=
  let value_high_bit := (value >>> 1) &&& 1
  let value_low_bit := value &&& 1
  { high := (s.high &&& not64 (1 <<< stream)) ||| (value_high_bit <<< stream)
    low := (s.low &&& not64 (1 <<< stream)) ||| (value_low_bit <<< stream) }

/-- `M64::decrement`: closed-form aging of all 64 substreams, returning the
new active count. -/
def M64.decrement (s : M64) : M64 × ℕ :=
  let count := popCount s.high
  let low := s.high &&& not64 s.low
  let high := s.high &&& not64 low
  (⟨low, high⟩, count)

/-- `M64::count`: popcount of the OR of the planes. -/
def M64.count (s : M64) : ℕ := popCount (s.high ||| s.low)

/-- `M64::merge`: plane-wise OR. -/
def M64.merge (s other : M64) : M64 :=
  ⟨s.low ||| other.low, s.high ||| other.high⟩

/-- `M64::merge_high_into_lo`: `self.low |= other.high`. -/
def M64.mergeHighIntoLo (s other : M64) : M64 :=
  { s with low := s.low ||| other.high }

/-- Well-formedness of the embedding: both planes fit in a `u64`. -/
def M64.Wf (s : M64) : Prop := s.low < 2 ^ 64 ∧ s.high < 2 ^ 64

theorem M64.val_char_m64 (s : M64) (i : ℕ) :
    s.val i = (if s.high.testBit i then 2 else 0) + (if s.low.testBit i then 1 else 0) := by
  unfold M64.val
  rw [shiftRight_and_one, shiftRight_and_one]
  rcases s.high.testBit i <;> rcases s.low.testBit i <;> rfl

theorem M64.val_le_three_m64 (s : M64) (i : ℕ) : s.val i ≤ 3 := by
  rw [M64.val_char_m64]
  split <;> split <;> omega

theorem M64.testBit_set_high_m64 (s : M64) (i v j : ℕ) (hj : j < 64) :
    (s.set i v).high.testBit j =
      if j = i then v.testBit 1 else s.high.testBit j := by
  unfold M64.set
  simp only [Nat.testBit_or, Nat.testBit_and, testBit_not64 _ _ hj,
    Nat.testBit_shiftLeft, testBit_one_eq]
  by_cases h : j = i
  · subst h
    simp [Nat.testBit_shiftRight]
  · rcases Nat.lt_or_ge j i with hlt | hge
    · have h1 : ¬ j ≥ i := by omega
      simp [h1, h]
    · have h2 : j - i ≠ 0 := by omega
      simp [hge, h2, h]

theorem M64.testBit_set_low_m64 (s : M64) (i v j : ℕ) (hj : j < 64) :
    (s.set i v).low.testBit j =
      if j = i then v.testBit 0 else s.low.testBit j := by
  unfold M64.set
  simp only [Nat.testBit_or, Nat.testBit_and, testBit_not64 _ _ hj,
    Nat.testBit_shiftLeft, testBit_one_eq]
  by_cases h : j = i
  · subst h
    simp
  · rcases Nat.lt_or_ge j i with hlt | hge
    · have h1 : ¬ j ≥ i := by omega
      simp [h1, h]
    · have h2 : j - i ≠ 0 := by omega
      simp [hge, h2, h]

theorem M64.val_set_self_m64 (s : M64) (i v : ℕ) (hi : i < 64) (hv : v ≤ 3) :
    (s.set i v).val i = v := by
  have h1 := M64.testBit_set_high_m64 s i v i hi
  have h2 := M64.testBit_set_low_m64 s i v i hi
  rw [if_pos rfl] at h1 h2
  rw [M64.val_char_m64, h1, h2]
  interval_cases v <;> decide

theorem M64.val_set_other_m64 (s : M64) (i v j : ℕ) (hj : j < 64) (hne : j ≠ i) :
    (s.set i v).val j = s.val j := by
  rw [M64.val_char_m64, M64.testBit_set_high_m64 s i v j hj, M64.testBit_set_low_m64 s i v j hj,
    M64.val_char_m64]
  simp [hne]

theorem M64.val_eq_zero_iff_m64 (s : M64) (i : ℕ) :
    s.val i = 0 ↔ (s.high ||| s.low).testBit i = false := by
  rw [M64.val_char_m64, Nat.testBit_or]
  rcases s.high.testBit i <;> rcases s.low.testBit i <;> simp

theorem shiftLeft_bit_lt (b i k : ℕ) (hb : b ≤ 1) (hi : i < k) :
    b <<< i < 2 ^ k := by
  rw [Nat.shiftLeft_eq]
  calc b * 2 ^ i ≤ 1 * 2 ^ i := by
        exact Nat.mul_le_mul_right _ hb
    _ = 2 ^ i := by ring
    _ < 2 ^ k := Nat.pow_lt_pow_right (by omega) hi

theorem and_lt_two_pow_left (a b k : ℕ) (ha : a < 2 ^ k) : a &&& b < 2 ^ k :=
  lt_of_le_of_lt (Nat.and_le_left) ha

theorem M64.wf_set_m64 (s : M64) (i v : ℕ) (hs : s.Wf) (hi : i < 64) :
    (s.set i v).Wf := by
  obtain ⟨hl, hh⟩ := hs
  constructor
  · exact Nat.or_lt_two_pow (and_lt_two_pow_left _ _ _ hl)
      (shiftLeft_bit_lt _ _ _ (by rw [Nat.and_one_is_mod]; omega) hi)
  · exact Nat.or_lt_two_pow (and_lt_two_pow_left _ _ _ hh)
      (shiftLeft_bit_lt _ _ _ (by rw [Nat.and_one_is_mod]; omega) hi)

theorem M64.wf_decrement_m64 (s : M64) (hs : s.Wf) : (s.decrement).1.Wf := by
  obtain ⟨_, hh⟩ := hs
  exact ⟨and_lt_two_pow_left _ _ _ hh, and_lt_two_pow_left _ _ _ hh⟩

theorem M64.decrement_val_m64 (s : M64) (i : ℕ) (hi : i < 64) :
    (s.decrement).1.val i = s.val i - 1 := by
  show (M64.mk (s.high &&& not64 s.low)
      (s.high &&& not64 (s.high &&& not64 s.low))).val i = s.val i - 1
  rw [M64.val_char_m64, M64.val_char_m64]
  simp only [Nat.testBit_and, testBit_not64 _ _ hi]
  rcases s.high.testBit i <;> rcases s.low.testBit i <;> simp

theorem M64.decrement_planes_or_m64 (s : M64) (hs : s.Wf) :
    (s.decrement).1.high ||| (s.decrement).1.low = s.high := by
  obtain ⟨_, hh⟩ := hs
  apply Nat.eq_of_testBit_eq
  intro j
  by_cases hj : j < 64
  · show ((s.high &&& not64 (s.high &&& not64 s.low)) |||
        (s.high &&& not64 s.low)).testBit j = _
    simp only [Nat.testBit_or, Nat.testBit_and, testBit_not64 _ _ hj]
    rcases s.high.testBit j <;> rcases s.low.testBit j <;> simp
  · have hhj : s.high.testBit j = false :=
      Nat.testBit_lt_two_pow (lt_of_lt_of_le hh (Nat.pow_le_pow_right (by omega) (by omega)))
    show ((s.high &&& not64 (s.high &&& not64 s.low)) |||
        (s.high &&& not64 s.low)).testBit j = _
    simp only [Nat.testBit_or, Nat.testBit_and, hhj]
    simp

theorem M64.decrement_count_m64 (s : M64) (hs : s.Wf) :
    (s.decrement).2 = (s.decrement).1.count := by
  show popCount s.high = popCount ((s.decrement).1.high ||| (s.decrement).1.low)
  rw [M64.decrement_planes_or_m64 s hs]

theorem M64.count_set_activate_m64 (s : M64) (i v : ℕ) (hs : s.Wf) (hi : i < 64)
    (h0 : s.val i = 0) (hv : v ≠ 0) (hv3 : v ≤ 3) :
    (s.set i v).count = s.count + 1 := by
  obtain ⟨hl, hh⟩ := hs
  have hwf' := M64.wf_set_m64 s i v ⟨hl, hh⟩ hi
  obtain ⟨hl', hh'⟩ := hwf'
  apply popCount_flip_set (s.high ||| s.low) ((s.set i v).high ||| (s.set i v).low) i 64
    (Nat.or_lt_two_pow hh hl) (Nat.or_lt_two_pow hh' hl') hi
  · intro j hj
    by_cases hj64 : j < 64
    · simp only [Nat.testBit_or, M64.testBit_set_high_m64 s i v j hj64,
        M64.testBit_set_low_m64 s i v j hj64, if_neg hj]
    · have b1 : s.high.testBit j = false :=
        Nat.testBit_lt_two_pow (lt_of_lt_of_le hh (Nat.pow_le_pow_right (by omega) (by omega)))
      have b2 : s.low.testBit j = false :=
        Nat.testBit_lt_two_pow (lt_of_lt_of_le hl (Nat.pow_le_pow_right (by omega) (by omega)))
      have b3 : (s.set i v).high.testBit j = false :=
        Nat.testBit_lt_two_pow (lt_of_lt_of_le hh' (Nat.pow_le_pow_right (by omega) (by omega)))
      have b4 : (s.set i v).low.testBit j = false :=
        Nat.testBit_lt_two_pow (lt_of_lt_of_le hl' (Nat.pow_le_pow_right (by omega) (by omega)))
      simp [Nat.testBit_or, b1, b2, b3, b4]
  · exact (M64.val_eq_zero_iff_m64 s i).mp h0
  · have h1 := M64.testBit_set_high_m64 s i v i hi
    have h2 := M64.testBit_set_low_m64 s i v i hi
    rw [if_pos rfl] at h1 h2
    simp only [Nat.testBit_or, h1, h2]
    interval_cases v
    · exact absurd rfl hv
    all_goals decide

theorem M64.count_set_keep_m64 (s : M64) (i v : ℕ) (hs : s.Wf) (hi : i < 64)
    (h0 : s.val i ≠ 0) (hv : v ≠ 0) (hv3 : v ≤ 3) :
    (s.set i v).count = s.count := by
  unfold M64.count
  apply popCount_congr
  intro j
  by_cases hj64 : j < 64
  · by_cases hj : j = i
    · have h1 := M64.testBit_set_high_m64 s i v j hj64
      have h2 := M64.testBit_set_low_m64 s i v j hj64
      rw [if_pos hj] at h1 h2
      have hbit : (s.high.testBit j || s.low.testBit j) = true := by
        rcases hb : (s.high ||| s.low).testBit j
        · subst hj
          exact absurd ((M64.val_eq_zero_iff_m64 s j).mpr hb) h0
        · rw [Nat.testBit_or] at hb
          exact hb
      simp only [Nat.testBit_or, h1, h2]
      rw [hbit]
      interval_cases v
      · exact absurd rfl hv
      all_goals decide
    · have h1 := M64.testBit_set_high_m64 s i v j hj64
      have h2 := M64.testBit_set_low_m64 s i v j hj64
      rw [if_neg hj] at h1 h2
      simp [Nat.testBit_or, h1, h2]
  · have hwf' := M64.wf_set_m64 s i v hs hi
    obtain ⟨hl', hh'⟩ := hwf'
    obtain ⟨hl, hh⟩ := hs
    have b1 : s.high.testBit j = false :=
      Nat.testBit_lt_two_pow (lt_of_lt_of_le hh (Nat.pow_le_pow_right (by omega) (by omega)))
    have b2 : s.low.testBit j = false :=
      Nat.testBit_lt_two_pow (lt_of_lt_of_le hl (Nat.pow_le_pow_right (by omega) (by omega)))
    have b3 : (s.set i v).high.testBit j = false :=
      Nat.testBit_lt_two_pow (lt_of_lt_of_le hh' (Nat.pow_le_pow_right (by omega) (by omega)))
    have b4 : (s.set i v).low.testBit j = false :=
      Nat.testBit_lt_two_pow (lt_of_lt_of_le hl' (Nat.pow_le_pow_right (by omega) (by omega)))
    simp [Nat.testBit_or, b1, b2, b3, b4]

/-- `HiLoRegister` (src/h2b/sketch.rs): two 128-bit planes covering 128
consecutive substreams. -/
structure HiLoRegister where
  high : ℕ
  low : ℕ
deriving DecidableEq, Repr

/-- An all-zero register, the `Default` value. -/
def HiLoRegister.zero : HiLoRegister := ⟨0, 0⟩

/-- Level of one substream inside a register: body of `M128Reg::val` after
the register has been selected. -/
def HiLoRegister.valBits (r : HiLoRegister) (bit_index : ℕ) : ℕ :=
  let high_bit := (r.high >>> bit_index) &&& 1
  let low_bit := (r.low >>> bit_index) &&& 1
  (high_bit <<< 1) ||| low_bit

/-- Write one substream's level inside a register: body of `M128Reg::set`
after the register has been selected. -/
def HiLoRegister.setBits (r : HiLoRegister) (bit_index value : ℕ) : HiLoRegister :=
  let value_high_bit := (value >>> 1) &&& 1
  let value_low_bit := value &&& 1
  { high := (r.high &&& not128 (1 <<< bit_index)) ||| (value_high_bit <<< bit_index)
    low := (r.low &&& not128 (1 <<< bit_index)) ||| (value_low_bit <<< bit_index) }

/-- One register's aging step: loop body of `M128Reg::decrement`. -/
def HiLoRegister.dec (r : HiLoRegister) : HiLoRegister :=
  let low := r.high &&& not128 r.low
  let high := r.high &&& not128 low
  ⟨high, low⟩

/-- Both planes fit in a `u128`. -/
def HiLoRegister.Wf (r : HiLoRegister) : Prop := r.high < 2 ^ 128 ∧ r.low < 2 ^ 128

/-- `M128Reg<REGISTERS>` (src/h2b/sketch.rs): the vectored two-bit sketch,
an array of `HiLoRegister`s embedded as a list. -/
structure M128Reg where
  registers : List HiLoRegister
deriving DecidableEq, Repr

/-- `M128Reg::REG_SIZE`. -/
def REG_SIZE : ℕ := 128

/-- `M128Reg::default()` with `REGISTERS = r`. -/
def M128Reg.defaultR (r : ℕ) : M128Reg := ⟨List.replicate r HiLoRegister.zero⟩

/-- `M128Reg::val`. -/
def M128Reg.val (s : M128Reg) (stream : ℕ) : ℕ :=
  let register_index := stream / REG_SIZE
  let bit_index := stream % REG_SIZE
  (s.registers.getD register_index HiLoRegister.zero).valBits bit_index

/-- `M128Reg::set`. -/
def M128Reg.set (s : M128Reg) (stream value : ℕ) : M128Reg :=
  let register_index := stream / REG_SIZE
  let bit_index := stream % REG_SIZE
  ⟨s.registers.set register_index
    ((s.registers.getD register_index HiLoRegister.zero).setBits bit_index value)⟩

/-- `M128Reg::decrement`: age every register, returning the popcount of the
old high planes (the new active count). -/
def M128Reg.decrement (s : M128Reg) : M128Reg × ℕ :=
  (⟨s.registers.map HiLoRegister.dec⟩,
    (s.registers.map (fun r => popCount r.high)).sum)

/-- `M128Reg::count`: per-register popcount of the OR of the planes, summed. -/
def M128Reg.count (s : M128Reg) : ℕ :=
  (s.registers.map (fun r => popCount (r.high ||| r.low))).sum

/-- `M128Reg::merge`: register-wise plane OR. -/
def M128Reg.merge (s other : M128Reg) : M128Reg :=
  ⟨List.zipWith (fun a b => ⟨a.high ||| b.high, a.low ||| b.low⟩)
    s.registers other.registers⟩

/-- `M128Reg::merge_high_into_lo`: register-wise `low |= other.high`. -/
def M128Reg.mergeHighIntoLo (s other : M128Reg) : M128Reg :=
  ⟨List.zipWith (fun a b => ⟨a.high, a.low ||| b.high⟩)
    s.registers other.registers⟩

/-- Well-formedness: exactly `r` registers, all of them in `u128` range. -/
def M128Reg.Wf (r : ℕ) (s : M128Reg) : Prop :=
  s.registers.length = r ∧ ∀ reg ∈ s.registers, reg.Wf

theorem HiLoRegister.valBits_char_hl (r : HiLoRegister) (b : ℕ) :
    r.valBits b = (if r.high.testBit b then 2 else 0) + (if r.low.testBit b then 1 else 0) := by
  unfold HiLoRegister.valBits
  rw [shiftRight_and_one, shiftRight_and_one]
  rcases r.high.testBit b <;> rcases r.low.testBit b <;> rfl

theorem HiLoRegister.testBit_setBits_high_hl (r : HiLoRegister) (b v j : ℕ) (hj : j < 128) :
    (r.setBits b v).high.testBit j =
      if j = b then v.testBit 1 else r.high.testBit j := by
  unfold HiLoRegister.setBits
  simp only [Nat.testBit_or, Nat.testBit_and, testBit_not128 _ _ hj,
    Nat.testBit_shiftLeft, testBit_one_eq]
  by_cases h : j = b
  · subst h
    simp [Nat.testBit_shiftRight]
  · rcases Nat.lt_or_ge j b with hlt | hge
    · have h1 : ¬ j ≥ b := by omega
      simp [h1, h]
    · have h2 : j - b ≠ 0 := by omega
      simp [hge, h2, h]

theorem HiLoRegister.testBit_setBits_low_hl (r : HiLoRegister) (b v j : ℕ) (hj : j < 128) :
    (r.setBits b v).low.testBit j =
      if j = b then v.testBit 0 else r.low.testBit j := by
  unfold HiLoRegister.setBits
  simp only [Nat.testBit_or, Nat.testBit_and, testBit_not128 _ _ hj,
    Nat.testBit_shiftLeft, testBit_one_eq]
  by_cases h : j = b
  · subst h
    simp
  · rcases Nat.lt_or_ge j b with hlt | hge
    · have h1 : ¬ j ≥ b := by omega
      simp [h1, h]
    · have h2 : j - b ≠ 0 := by omega
      simp [hge, h2, h]

theorem HiLoRegister.valBits_setBits_self_hl (r : HiLoRegister) (b v : ℕ) (hb : b < 128)
    (hv : v ≤ 3) : (r.setBits b v).valBits b = v := by
  have h1 := HiLoRegister.testBit_setBits_high_hl r b v b hb
  have h2 := HiLoRegister.testBit_setBits_low_hl r b v b hb
  rw [if_pos rfl] at h1 h2
  rw [HiLoRegister.valBits_char_hl, h1, h2]
  interval_cases v <;> decide

theorem HiLoRegister.valBits_setBits_other_hl (r : HiLoRegister) (b v j : ℕ) (hj : j < 128)
    (hne : j ≠ b) : (r.setBits b v).valBits j = r.valBits j := by
  have h1 := HiLoRegister.testBit_setBits_high_hl r b v j hj
  have h2 := HiLoRegister.testBit_setBits_low_hl r b v j hj
  rw [if_neg hne] at h1 h2
  rw [HiLoRegister.valBits_char_hl, h1, h2, HiLoRegister.valBits_char_hl]

theorem HiLoRegister.valBits_eq_zero_iff_hl (r : HiLoRegister) (b : ℕ) :
    r.valBits b = 0 ↔ (r.high ||| r.low).testBit b = false := by
  rw [HiLoRegister.valBits_char_hl, Nat.testBit_or]
  rcases r.high.testBit b <;> rcases r.low.testBit b <;> simp

theorem HiLoRegister.wf_setBits_hl (r : HiLoRegister) (b v : ℕ) (hr : r.Wf) (hb : b < 128) :
    (r.setBits b v).Wf := by
  obtain ⟨hh, hl⟩ := hr
  constructor
  · exact Nat.or_lt_two_pow (and_lt_two_pow_left _ _ _ hh)
      (shiftLeft_bit_lt _ _ _ (by rw [Nat.and_one_is_mod]; omega) hb)
  · exact Nat.or_lt_two_pow (and_lt_two_pow_left _ _ _ hl)
      (shiftLeft_bit_lt _ _ _ (by rw [Nat.and_one_is_mod]; omega) hb)

theorem HiLoRegister.wf_dec_hl (r : HiLoRegister) (hr : r.Wf) : r.dec.Wf := by
  obtain ⟨hh, _⟩ := hr
  exact ⟨and_lt_two_pow_left _ _ _ hh, and_lt_two_pow_left _ _ _ hh⟩

theorem HiLoRegister.dec_valBits_hl (r : HiLoRegister) (b : ℕ) (hb : b < 128) :
    r.dec.valBits b = r.valBits b - 1 := by
  show (HiLoRegister.mk (r.high &&& not128 (r.high &&& not128 r.low))
      (r.high &&& not128 r.low)).valBits b = r.valBits b - 1
  rw [HiLoRegister.valBits_char_hl, HiLoRegister.valBits_char_hl]
  simp only [Nat.testBit_and, testBit_not128 _ _ hb]
  rcases r.high.testBit b <;> rcases r.low.testBit b <;> simp

theorem HiLoRegister.dec_planes_or_hl (r : HiLoRegister) (hr : r.Wf) :
    r.dec.high ||| r.dec.low = r.high := by
  obtain ⟨hh, _⟩ := hr
  apply Nat.eq_of_testBit_eq
  intro j
  by_cases hj : j < 128
  · show ((r.high &&& not128 (r.high &&& not128 r.low)) |||
        (r.high &&& not128 r.low)).testBit j = _
    simp only [Nat.testBit_or, Nat.testBit_and, testBit_not128 _ _ hj]
    rcases r.high.testBit j <;> rcases r.low.testBit j <;> simp
  · have hhj : r.high.testBit j = false :=
      Nat.testBit_lt_two_pow (lt_of_lt_of_le hh (Nat.pow_le_pow_right (by omega) (by omega)))
    show ((r.high &&& not128 (r.high &&& not128 r.low)) |||
        (r.high &&& not128 r.low)).testBit j = _
    simp only [Nat.testBit_or, Nat.testBit_and, hhj]
    simp

theorem sum_map_set {α : Type} (f : α → ℕ) (l : List α) (i : ℕ) (x : α)
    (h : i < l.length) :
    ((l.set i x).map f).sum + f (l[i]) = (l.map f).sum + f x := by
  induction l generalizing i with
  | nil => simp at h
  | cons a tl ih =>
    rcases i with _ | i
    · simp [List.set]
      omega
    · have hi : i < tl.length := by simpa using h
      have := ih i hi
      simp only [List.set, List.map_cons, List.sum_cons, List.getElem_cons_succ]
      omega

theorem M128Reg.getD_set_self_reg (s : M128Reg) (r : ℕ) (x : HiLoRegister)
    (hr : r < s.registers.length) :
    (s.registers.set r x).getD r HiLoRegister.zero = x := by
  rw [List.getD_eq_getElem _ _ (by simpa using hr)]
  exact List.getElem_set_self _

theorem M128Reg.getD_set_other_reg (s : M128Reg) (r r' : ℕ) (x : HiLoRegister)
    (hr' : r' < s.registers.length) (hne : r ≠ r') :
    (s.registers.set r x).getD r' HiLoRegister.zero =
      s.registers.getD r' HiLoRegister.zero := by
  rw [List.getD_eq_getElem _ _ (by simpa using hr'),
    List.getD_eq_getElem _ _ hr']
  exact List.getElem_set_ne hne _

theorem M128Reg.val_le_three_reg (s : M128Reg) (i : ℕ) : s.val i ≤ 3 := by
  unfold M128Reg.val
  rw [HiLoRegister.valBits_char_hl]
  split <;> split <;> omega

theorem M128Reg.reg_lt_reg (R i : ℕ) (len : ℕ) (hlen : len = R) (hi : i < 128 * R) :
    i / REG_SIZE < len := by
  rw [hlen]
  apply Nat.div_lt_of_lt_mul
  simp only [REG_SIZE]
  omega

theorem M128Reg.bit_lt_reg (i : ℕ) : i % REG_SIZE < 128 :=
  Nat.mod_lt _ (by norm_num [REG_SIZE])

theorem M128Reg.val_set_self_reg (R : ℕ) (s : M128Reg) (i v : ℕ) (hs : s.Wf R)
    (hi : i < 128 * R) (hv : v ≤ 3) : (s.set i v).val i = v := by
  obtain ⟨hlen, _⟩ := hs
  have hr : i / REG_SIZE < s.registers.length := M128Reg.reg_lt_reg R i _ hlen hi
  show ((s.registers.set (i / REG_SIZE)
      ((s.registers.getD (i / REG_SIZE) HiLoRegister.zero).setBits (i % REG_SIZE) v)).getD
      (i / REG_SIZE) HiLoRegister.zero).valBits (i % REG_SIZE) = v
  rw [M128Reg.getD_set_self_reg s _ _ hr]
  exact HiLoRegister.valBits_setBits_self_hl _ _ _ (M128Reg.bit_lt_reg i) hv

theorem M128Reg.val_set_other_reg (R : ℕ) (s : M128Reg) (i v j : ℕ) (hs : s.Wf R)
    (hi : i < 128 * R) (hj : j < 128 * R) (hne : j ≠ i) :
    (s.set i v).val j = s.val j := by
  obtain ⟨hlen, _⟩ := hs
  have hr : i / REG_SIZE < s.registers.length := M128Reg.reg_lt_reg R i _ hlen hi
  have hr' : j / REG_SIZE < s.registers.length := M128Reg.reg_lt_reg R j _ hlen hj
  show ((s.registers.set (i / REG_SIZE)
      ((s.registers.getD (i / REG_SIZE) HiLoRegister.zero).setBits (i % REG_SIZE) v)).getD
      (j / REG_SIZE) HiLoRegister.zero).valBits (j % REG_SIZE) =
    (s.registers.getD (j / REG_SIZE) HiLoRegister.zero).valBits (j % REG_SIZE)
  by_cases hreg : j / REG_SIZE = i / REG_SIZE
  · rw [hreg, M128Reg.getD_set_self_reg s _ _ hr]
    have hbits : j % REG_SIZE ≠ i % REG_SIZE := by
      intro hmod
      apply hne
      have e1 : REG_SIZE * (j / REG_SIZE) + j % REG_SIZE = j := Nat.div_add_mod j REG_SIZE
      have e2 : REG_SIZE * (i / REG_SIZE) + i % REG_SIZE = i := Nat.div_add_mod i REG_SIZE
      rw [hreg] at e1
      omega
    rw [HiLoRegister.valBits_setBits_other_hl _ _ _ _ (M128Reg.bit_lt_reg j) hbits]
  · rw [M128Reg.getD_set_other_reg s _ _ _ hr' (fun h => hreg h.symm)]

theorem M128Reg.wf_set_reg (R : ℕ) (s : M128Reg) (i v : ℕ) (hs : s.Wf R)
    (hi : i < 128 * R) : (s.set i v).Wf R := by
  obtain ⟨hlen, hmem⟩ := hs
  refine ⟨by simpa [M128Reg.set] using hlen, ?_⟩
  intro reg hreg
  simp only [M128Reg.set] at hreg
  rcases List.mem_or_eq_of_mem_set hreg with hold | hnew
  · exact hmem reg hold
  · subst hnew
    have hr : i / REG_SIZE < s.registers.length := M128Reg.reg_lt_reg R i _ hlen hi
    apply HiLoRegister.wf_setBits_hl
    · rw [List.getD_eq_getElem _ _ hr]
      exact hmem _ (List.getElem_mem hr)
    · exact M128Reg.bit_lt_reg i

theorem M128Reg.wf_decrement_reg (R : ℕ) (s : M128Reg) (hs : s.Wf R) :
    (s.decrement).1.Wf R := by
  obtain ⟨hlen, hmem⟩ := hs
  refine ⟨by simpa [M128Reg.decrement] using hlen, ?_⟩
  intro reg hreg
  simp only [M128Reg.decrement, List.mem_map] at hreg
  obtain ⟨a, ha, rfl⟩ := hreg
  exact HiLoRegister.wf_dec_hl a (hmem a ha)

theorem M128Reg.decrement_val_reg (R : ℕ) (s : M128Reg) (i : ℕ) (hs : s.Wf R)
    (hi : i < 128 * R) : (s.decrement).1.val i = s.val i - 1 := by
  obtain ⟨hlen, _⟩ := hs
  have hr : i / REG_SIZE < s.registers.length := M128Reg.reg_lt_reg R i _ hlen hi
  show ((s.registers.map HiLoRegister.dec).getD (i / REG_SIZE) HiLoRegister.zero).valBits
      (i % REG_SIZE) =
    (s.registers.getD (i / REG_SIZE) HiLoRegister.zero).valBits (i % REG_SIZE) - 1
  rw [List.getD_eq_getElem _ _ (by simpa using hr), List.getD_eq_getElem _ _ hr,
    List.getElem_map]
  exact HiLoRegister.dec_valBits_hl _ _ (M128Reg.bit_lt_reg i)

theorem M128Reg.decrement_count_reg (R : ℕ) (s : M128Reg) (hs : s.Wf R) :
    (s.decrement).2 = (s.decrement).1.count := by
  obtain ⟨_, hmem⟩ := hs
  show (s.registers.map (fun r => popCount r.high)).sum =
    ((s.registers.map HiLoRegister.dec).map (fun r => popCount (r.high ||| r.low))).sum
  rw [List.map_map]
  apply congrArg
  apply List.map_congr_left
  intro a ha
  show popCount a.high = popCount (a.dec.high ||| a.dec.low)
  rw [HiLoRegister.dec_planes_or_hl a (hmem a ha)]

theorem M128Reg.count_set_activate_reg (R : ℕ) (s : M128Reg) (i v : ℕ) (hs : s.Wf R)
    (hi : i < 128 * R) (h0 : s.val i = 0) (hv : v ≠ 0) (hv3 : v ≤ 3) :
    (s.set i v).count = s.count + 1 := by
  obtain ⟨hlen, hmem⟩ := hs
  have hr : i / REG_SIZE < s.registers.length := M128Reg.reg_lt_reg R i _ hlen hi
  have hb : i % REG_SIZE < 128 := M128Reg.bit_lt_reg i
  have holdwf : (s.registers[i / REG_SIZE]).Wf := hmem _ (List.getElem_mem hr)
  have holdD : s.registers.getD (i / REG_SIZE) HiLoRegister.zero =
      s.registers[i / REG_SIZE] := List.getD_eq_getElem _ _ hr
  have h0' : (s.registers[i / REG_SIZE]).valBits (i % REG_SIZE) = 0 := by
    have hval : (s.registers.getD (i / REG_SIZE) HiLoRegister.zero).valBits
        (i % REG_SIZE) = 0 := h0
    rwa [holdD] at hval
  have hnewwf : ((s.registers[i / REG_SIZE]).setBits (i % REG_SIZE) v).Wf :=
    HiLoRegister.wf_setBits_hl _ _ _ holdwf hb
  have hflip : popCount (((s.registers[i / REG_SIZE]).setBits (i % REG_SIZE) v).high |||
      ((s.registers[i / REG_SIZE]).setBits (i % REG_SIZE) v).low) =
      popCount ((s.registers[i / REG_SIZE]).high ||| (s.registers[i / REG_SIZE]).low) + 1 := by
    apply popCount_flip_set _ _ (i % REG_SIZE) 128
      (Nat.or_lt_two_pow holdwf.1 holdwf.2) (Nat.or_lt_two_pow hnewwf.1 hnewwf.2) hb
    · intro j hj
      by_cases hj128 : j < 128
      · simp only [Nat.testBit_or, HiLoRegister.testBit_setBits_high_hl _ _ _ j hj128,
          HiLoRegister.testBit_setBits_low_hl _ _ _ j hj128, if_neg hj]
      · have b1 : (s.registers[i / REG_SIZE]).high.testBit j = false :=
          Nat.testBit_lt_two_pow
            (lt_of_lt_of_le holdwf.1 (Nat.pow_le_pow_right (by omega) (by omega)))
        have b2 : (s.registers[i / REG_SIZE]).low.testBit j = false :=
          Nat.testBit_lt_two_pow
            (lt_of_lt_of_le holdwf.2 (Nat.pow_le_pow_right (by omega) (by omega)))
        have b3 : ((s.registers[i / REG_SIZE]).setBits (i % REG_SIZE) v).high.testBit j = false :=
          Nat.testBit_lt_two_pow
            (lt_of_lt_of_le hnewwf.1 (Nat.pow_le_pow_right (by omega) (by omega)))
        have b4 : ((s.registers[i / REG_SIZE]).setBits (i % REG_SIZE) v).low.testBit j = false :=
          Nat.testBit_lt_two_pow
            (lt_of_lt_of_le hnewwf.2 (Nat.pow_le_pow_right (by omega) (by omega)))
        simp [Nat.testBit_or, b1, b2, b3, b4]
    · exact (HiLoRegister.valBits_eq_zero_iff_hl _ _).mp h0'
    · have h1 := HiLoRegister.testBit_setBits_high_hl (s.registers[i / REG_SIZE])
        (i % REG_SIZE) v (i % REG_SIZE) hb
      have h2 := HiLoRegister.testBit_setBits_low_hl (s.registers[i / REG_SIZE])
        (i % REG_SIZE) v (i % REG_SIZE) hb
      rw [if_pos rfl] at h1 h2
      rw [Nat.testBit_or, h1, h2]
      interval_cases v
      · exact absurd rfl hv
      all_goals decide
  have hsum := sum_map_set (fun r => popCount (r.high ||| r.low)) s.registers
    (i / REG_SIZE) ((s.registers[i / REG_SIZE]).setBits (i % REG_SIZE) v) hr
  show ((s.registers.set (i / REG_SIZE)
    ((s.registers.getD (i / REG_SIZE) HiLoRegister.zero).setBits (i % REG_SIZE) v)).map
      (fun r => popCount (r.high ||| r.low))).sum =
    (s.registers.map (fun r => popCount (r.high ||| r.low))).sum + 1
  rw [holdD]
  simp only at hsum hflip
  omega

theorem M128Reg.count_set_keep_reg (R : ℕ) (s : M128Reg) (i v : ℕ) (hs : s.Wf R)
    (hi : i < 128 * R) (h0 : s.val i ≠ 0) (hv : v ≠ 0) (hv3 : v ≤ 3) :
    (s.set i v).count = s.count := by
  obtain ⟨hlen, hmem⟩ := hs
  have hr : i / REG_SIZE < s.registers.length := M128Reg.reg_lt_reg R i _ hlen hi
  have hb : i % REG_SIZE < 128 := M128Reg.bit_lt_reg i
  have holdwf : (s.registers[i / REG_SIZE]).Wf := hmem _ (List.getElem_mem hr)
  have holdD : s.registers.getD (i / REG_SIZE) HiLoRegister.zero =
      s.registers[i / REG_SIZE] := List.getD_eq_getElem _ _ hr
  have h0' : (s.registers[i / REG_SIZE]).valBits (i % REG_SIZE) ≠ 0 := by
    intro hzero
    apply h0
    show (s.registers.getD (i / REG_SIZE) HiLoRegister.zero).valBits (i % REG_SIZE) = 0
    rwa [holdD]
  have hnewwf : ((s.registers[i / REG_SIZE]).setBits (i % REG_SIZE) v).Wf :=
    HiLoRegister.wf_setBits_hl _ _ _ holdwf hb
  have hsame : popCount (((s.registers[i / REG_SIZE]).setBits (i % REG_SIZE) v).high |||
      ((s.registers[i / REG_SIZE]).setBits (i % REG_SIZE) v).low) =
      popCount ((s.registers[i / REG_SIZE]).high ||| (s.registers[i / REG_SIZE]).low) := by
    apply popCount_congr
    intro j
    by_cases hj128 : j < 128
    · by_cases hj : j = i % REG_SIZE
      · have h1 := HiLoRegister.testBit_setBits_high_hl (s.registers[i / REG_SIZE])
          (i % REG_SIZE) v j hj128
        have h2 := HiLoRegister.testBit_setBits_low_hl (s.registers[i / REG_SIZE])
          (i % REG_SIZE) v j hj128
        rw [if_pos hj] at h1 h2
        have hbit : ((s.registers[i / REG_SIZE]).high.testBit j ||
            (s.registers[i / REG_SIZE]).low.testBit j) = true := by
          rcases hbt : ((s.registers[i / REG_SIZE]).high |||
              (s.registers[i / REG_SIZE]).low).testBit j
          · exfalso
            apply h0'
            subst hj
            exact (HiLoRegister.valBits_eq_zero_iff_hl _ _).mpr hbt
          · rw [Nat.testBit_or] at hbt
            exact hbt
        simp only [Nat.testBit_or, h1, h2]
        rw [hbit]
        interval_cases v
        · exact absurd rfl hv
        all_goals decide
      · have h1 := HiLoRegister.testBit_setBits_high_hl (s.registers[i / REG_SIZE])
          (i % REG_SIZE) v j hj128
        have h2 := HiLoRegister.testBit_setBits_low_hl (s.registers[i / REG_SIZE])
          (i % REG_SIZE) v j hj128
        rw [if_neg hj] at h1 h2
        simp [Nat.testBit_or, h1, h2]
    · have b1 : (s.registers[i / REG_SIZE]).high.testBit j = false :=
        Nat.testBit_lt_two_pow
          (lt_of_lt_of_le holdwf.1 (Nat.pow_le_pow_right (by omega) (by omega)))
      have b2 : (s.registers[i / REG_SIZE]).low.testBit j = false :=
        Nat.testBit_lt_two_pow
          (lt_of_lt_of_le holdwf.2 (Nat.pow_le_pow_right (by omega) (by omega)))
      have b3 : ((s.registers[i / REG_SIZE]).setBits (i % REG_SIZE) v).high.testBit j = false :=
        Nat.testBit_lt_two_pow
          (lt_of_lt_of_le hnewwf.1 (Nat.pow_le_pow_right (by omega) (by omega)))
      have b4 : ((s.registers[i / REG_SIZE]).setBits (i % REG_SIZE) v).low.testBit j = false :=
        Nat.testBit_lt_two_pow
          (lt_of_lt_of_le hnewwf.2 (Nat.pow_le_pow_right (by omega) (by omega)))
      simp [Nat.testBit_or, b1, b2, b3, b4]
  have hsum := sum_map_set (fun r => popCount (r.high ||| r.low)) s.registers
    (i / REG_SIZE) ((s.registers[i / REG_SIZE]).setBits (i % REG_SIZE) v) hr
  show ((s.registers.set (i / REG_SIZE)
    ((s.registers.getD (i / REG_SIZE) HiLoRegister.zero).setBits (i % REG_SIZE) v)).map
      (fun r => popCount (r.high ||| r.low))).sum =
    (s.registers.map (fun r => popCount (r.high ||| r.low))).sum
  rw [holdD]
  simp only at hsum hsame
  omega

theorem M128Reg.count_default_reg (r : ℕ) : (M128Reg.defaultR r).count = 0 := by
  unfold M128Reg.count M128Reg.defaultR
  rw [List.map_replicate]
  simp [HiLoRegister.zero, popCount, popCountAux]

theorem M128Reg.wf_default_reg (r : ℕ) : (M128Reg.defaultR r).Wf r := by
  refine ⟨by simp [M128Reg.defaultR], ?_⟩
  intro reg hreg
  rw [List.eq_of_mem_replicate hreg]
  exact ⟨by norm_num [HiLoRegister.zero], by norm_num [HiLoRegister.zero]⟩

end H2B

namespace H3B

/-- `MAX_VALUE` of the three-bit sketch (src/h3b/sketch.rs). -/
def MAX_VALUE : ℕ := 7

/-- Default `Sketch::decrement` of the three-bit trait (src/h3b/sketch.rs):
walk every substream, decrementing the non-zero ones in place.  `val`/`set`
are the store's own accessors; the loop runs over `0..STREAMS` in ascending
order. -/
def decLoop {σ : Type} (val : σ → ℕ → ℕ) (set : σ → ℕ → ℕ → σ) : ℕ → σ → σ
  | 0, s => s
  | n + 1, s =>
    let s := decLoop val set n s
    let value := val s n
    if value > 0 then set s n (value - 1) else s

theorem decLoop_spec {σ : Type} (val : σ → ℕ → ℕ) (set : σ → ℕ → ℕ → σ)
    (Wf : σ → Prop) (W L : ℕ)
    (hwfset : ∀ s i v, Wf s → i < W → v ≤ L → Wf (set s i v))
    (hself : ∀ s i v, Wf s → i < W → v ≤ L → val (set s i v) i = v)
    (hother : ∀ s i v j, Wf s → i < W → j < W → j ≠ i → val (set s i v) j = val s j)
    (hle : ∀ s i, val s i ≤ L) :
    ∀ n s, Wf s → n ≤ W → Wf (decLoop val set n s) ∧
      ∀ j, j < W → val (decLoop val set n s) j =
        if j < n then val s j - 1 else val s j := by
  intro n
  induction n with
  | zero =>
    intro s hs _
    exact ⟨hs, fun j _ => by simp [decLoop]⟩
  | succ n ih =>
    intro s hs hn
    obtain ⟨hwf', hval'⟩ := ih s hs (by omega)
    constructor
    · show Wf (let s' := decLoop val set n s
        let value := val s' n
        if value > 0 then set s' n (value - 1) else s')
      simp only
      split
      · exact hwfset _ _ _ hwf' (by omega) (by have := hle (decLoop val set n s) n; omega)
      · exact hwf'
    · intro j hj
      show val (let s' := decLoop val set n s
        let value := val s' n
        if value > 0 then set s' n (value - 1) else s') j = _
      simp only
      by_cases hpos : val (decLoop val set n s) n > 0
      · rw [if_pos hpos]
        by_cases hjn : j = n
        · subst hjn
          rw [hself _ _ _ hwf' (by omega)
            (by have := hle (decLoop val set j s) j; omega)]
          have hju : val (decLoop val set j s) j = val s j := by
            rw [hval' j hj, if_neg (by omega)]
          rw [hju, if_pos (by omega)]
        · rw [hother _ _ _ _ hwf' (by omega) hj hjn, hval' j hj]
          by_cases hjlt : j < n
          · rw [if_pos hjlt, if_pos (by omega)]
          · rw [if_neg hjlt, if_neg (by omega)]
      · rw [if_neg hpos, hval' j hj]
        by_cases hjn : j = n
        · have hsn : val s j = 0 := by
            have hvn := hval' n (by omega)
            rw [if_neg (by omega)] at hvn
            rw [hjn]
            omega
          rw [if_neg (show ¬ j < n by omega), if_pos (show j < n + 1 by omega)]
          omega
        · by_cases hjlt : j < n
          · rw [if_pos hjlt, if_pos (by omega)]
          · rw [if_neg hjlt, if_neg (by omega)]

/-- Three-bit sketch with 64 substreams in three 64-bit planes
(src/h3b/sketch.rs, `struct M64`). -/
structure M64 where
  high : ℕ
  middle : ℕ
  low : ℕ
deriving DecidableEq, Repr

/-- `M64::default()`. -/
def M64.default : M64 := ⟨0, 0, 0⟩

/-- `M64::val` (three planes). -/
def M64.val (s : M64) (stream : ℕ) : ℕ :=
  let high_bit := (s.high >>> stream) &&& 1
  let middle_bit := (s.middle >>> stream) &&& 1
  let low_bit := (s.low >>> stream) &&& 1
  (high_bit <<< 2) ||| (middle_bit <<< 1) ||| low_bit

/-- `M64::set` (three planes). -/
def M64.set (s : M64) (stream value : ℕ) : M64 :=
  let value_high_bit := (value >>> 2) &&& 1
  let value_middle_bit := (value >>> 1) &&& 1
  let value_low_bit := value &&& 1
  { high := (s.high &&& not64 (1 <<< stream)) ||| (value_high_bit <<< stream)
    middle := (s.middle &&& not64 (1 <<< stream)) ||| (value_middle_bit <<< stream)
    low := (s.low &&& not64 (1 <<< stream)) ||| (value_low_bit <<< stream) }

/-- `M64::count`: popcount of the OR of all three planes. -/
def M64.count (s : M64) : ℕ := popCount (s.middle ||| s.low ||| s.high)

/-- The trait-default `decrement` instantiated at this store
(the closed form is commented out in the source). -/
def M64.decrement (s : M64) : M64 × ℕ :=
  let s' := decLoop M64.val M64.set 64 s
  (s', s'.count)

/-- `M64::merge`: plane-wise OR. -/
def M64.merge (s other : M64) : M64 :=
  ⟨s.high ||| other.high, s.middle ||| other.middle, s.low ||| other.low⟩

/-- `M64::merge_high_into_lo`: `low |= other.middle; middle |= other.high`. -/
def M64.mergeHighIntoLo (s other : M64) : M64 :=
  { s with low := s.low ||| other.middle, middle := s.middle ||| other.high }

/-- All three planes fit in a `u64`. -/
def M64.Wf (s : M64) : Prop := s.high < 2 ^ 64 ∧ s.middle < 2 ^ 64 ∧ s.low < 2 ^ 64

theorem M64.val_char_m64h3 (s : M64) (i : ℕ) :
    s.val i = (if s.high.testBit i then 4 else 0) + (if s.middle.testBit i then 2 else 0) +
      (if s.low.testBit i then 1 else 0) := by
  unfold M64.val
  rw [shiftRight_and_one, shiftRight_and_one, shiftRight_and_one]
  rcases s.high.testBit i <;> rcases s.middle.testBit i <;> rcases s.low.testBit i <;> rfl

theorem M64.val_le_seven_m64h3 (s : M64) (i : ℕ) : s.val i ≤ 7 := by
  rw [M64.val_char_m64h3]
  split <;> split <;> split <;> omega

theorem M64.testBit_set_high_m64h3 (s : M64) (i v j : ℕ) (hj : j < 64) :
    (s.set i v).high.testBit j =
      if j = i then v.testBit 2 else s.high.testBit j := by
  unfold M64.set
  simp only [Nat.testBit_or, Nat.testBit_and, testBit_not64 _ _ hj,
    Nat.testBit_shiftLeft, testBit_one_eq]
  by_cases h : j = i
  · subst h
    simp [Nat.testBit_shiftRight]
  · rcases Nat.lt_or_ge j i with hlt | hge
    · have h1 : ¬ j ≥ i := by omega
      simp [h1, h]
    · have h2 : j - i ≠ 0 := by omega
      simp [hge, h2, h]

theorem M64.testBit_set_middle_m64h3 (s : M64) (i v j : ℕ) (hj : j < 64) :
    (s.set i v).middle.testBit j =
      if j = i then v.testBit 1 else s.middle.testBit j := by
  unfold M64.set
  simp only [Nat.testBit_or, Nat.testBit_and, testBit_not64 _ _ hj,
    Nat.testBit_shiftLeft, testBit_one_eq]
  by_cases h : j = i
  · subst h
    simp [Nat.testBit_shiftRight]
  · rcases Nat.lt_or_ge j i with hlt | hge
    · have h1 : ¬ j ≥ i := by omega
      simp [h1, h]
    · have h2 : j - i ≠ 0 := by omega
      simp [hge, h2, h]

theorem M64.testBit_set_low_m64h3 (s : M64) (i v j : ℕ) (hj : j < 64) :
    (s.set i v).low.testBit j =
      if j = i then v.testBit 0 else s.low.testBit j := by
  unfold M64.set
  simp only [Nat.testBit_or, Nat.testBit_and, testBit_not64 _ _ hj,
    Nat.testBit_shiftLeft, testBit_one_eq]
  by_cases h : j = i
  · subst h
    simp
  · rcases Nat.lt_or_ge j i with hlt | hge
    · have h1 : ¬ j ≥ i := by omega
      simp [h1, h]
    · have h2 : j - i ≠ 0 := by omega
      simp [hge, h2, h]

theorem M64.val_set_self_m64h3 (s : M64) (i v : ℕ) (hi : i < 64) (hv : v ≤ 7) :
    (s.set i v).val i = v := by
  have h1 := M64.testBit_set_high_m64h3 s i v i hi
  have h2 := M64.testBit_set_middle_m64h3 s i v i hi
  have h3 := M64.testBit_set_low_m64h3 s i v i hi
  rw [if_pos rfl] at h1 h2 h3
  rw [M64.val_char_m64h3, h1, h2, h3]
  interval_cases v <;> decide

theorem M64.val_set_other_m64h3 (s : M64) (i v j : ℕ) (hj : j < 64) (hne : j ≠ i) :
    (s.set i v).val j = s.val j := by
  have h1 := M64.testBit_set_high_m64h3 s i v j hj
  have h2 := M64.testBit_set_middle_m64h3 s i v j hj
  have h3 := M64.testBit_set_low_m64h3 s i v j hj
  rw [if_neg hne] at h1 h2 h3
  rw [M64.val_char_m64h3, h1, h2, h3, M64.val_char_m64h3]

theorem M64.val_eq_zero_iff_m64h3 (s : M64) (i : ℕ) :
    s.val i = 0 ↔ (s.middle ||| s.low ||| s.high).testBit i = false := by
  rw [M64.val_char_m64h3, Nat.testBit_or, Nat.testBit_or]
  rcases s.high.testBit i <;> rcases s.middle.testBit i <;> rcases s.low.testBit i <;> simp

theorem M64.wf_set_m64h3 (s : M64) (i v : ℕ) (hs : s.Wf) (hi : i < 64) :
    (s.set i v).Wf := by
  obtain ⟨hh, hm, hl⟩ := hs
  refine ⟨?_, ?_, ?_⟩
  · exact Nat.or_lt_two_pow (H2B.and_lt_two_pow_left _ _ _ hh)
      (H2B.shiftLeft_bit_lt _ _ _ (by rw [Nat.and_one_is_mod]; omega) hi)
  · exact Nat.or_lt_two_pow (H2B.and_lt_two_pow_left _ _ _ hm)
      (H2B.shiftLeft_bit_lt _ _ _ (by rw [Nat.and_one_is_mod]; omega) hi)
  · exact Nat.or_lt_two_pow (H2B.and_lt_two_pow_left _ _ _ hl)
      (H2B.shiftLeft_bit_lt _ _ _ (by rw [Nat.and_one_is_mod]; omega) hi)

theorem M64.wf_decrement_m64h3 (s : M64) (hs : s.Wf) : (s.decrement).1.Wf :=
  (decLoop_spec M64.val M64.set M64.Wf 64 7
    (fun s i v hsw hi _ => M64.wf_set_m64h3 s i v hsw hi)
    (fun s i v _ hi hv => M64.val_set_self_m64h3 s i v hi hv)
    (fun s i v j _ _ hj hne => M64.val_set_other_m64h3 s i v j hj hne)
    M64.val_le_seven_m64h3 64 s hs le_rfl).1

theorem M64.decrement_val_m64h3 (s : M64) (i : ℕ) (hs : s.Wf) (hi : i < 64) :
    (s.decrement).1.val i = s.val i - 1 := by
  have h := (decLoop_spec M64.val M64.set M64.Wf 64 7
    (fun s i v hsw hi _ => M64.wf_set_m64h3 s i v hsw hi)
    (fun s i v _ hi hv => M64.val_set_self_m64h3 s i v hi hv)
    (fun s i v j _ _ hj hne => M64.val_set_other_m64h3 s i v j hj hne)
    M64.val_le_seven_m64h3 64 s hs le_rfl).2 i hi
  rwa [if_pos hi] at h

theorem M64.decrement_count_m64h3 (s : M64) : (s.decrement).2 = (s.decrement).1.count := rfl

theorem M64.count_set_activate_m64h3 (s : M64) (i v : ℕ) (hs : s.Wf) (hi : i < 64)
    (h0 : s.val i = 0) (hv : v ≠ 0) (hv7 : v ≤ 7) :
    (s.set i v).count = s.count + 1 := by
  obtain ⟨hh, hm, hl⟩ := hs
  have hwf' := M64.wf_set_m64h3 s i v ⟨hh, hm, hl⟩ hi
  obtain ⟨hh', hm', hl'⟩ := hwf'
  apply popCount_flip_set (s.middle ||| s.low ||| s.high)
    ((s.set i v).middle ||| (s.set i v).low ||| (s.set i v).high) i 64
    (Nat.or_lt_two_pow (Nat.or_lt_two_pow hm hl) hh)
    (Nat.or_lt_two_pow (Nat.or_lt_two_pow hm' hl') hh') hi
  · intro j hj
    by_cases hj64 : j < 64
    · simp only [Nat.testBit_or, M64.testBit_set_high_m64h3 s i v j hj64,
        M64.testBit_set_middle_m64h3 s i v j hj64, M64.testBit_set_low_m64h3 s i v j hj64, if_neg hj]
    · have hbig : (64 : ℕ) ≤ j := by omega
      have pow_le : (2 : ℕ) ^ 64 ≤ 2 ^ j := Nat.pow_le_pow_right (by omega) hbig
      have b1 : s.high.testBit j = false := Nat.testBit_lt_two_pow (lt_of_lt_of_le hh pow_le)
      have b2 : s.middle.testBit j = false := Nat.testBit_lt_two_pow (lt_of_lt_of_le hm pow_le)
      have b3 : s.low.testBit j = false := Nat.testBit_lt_two_pow (lt_of_lt_of_le hl pow_le)
      have b4 : (s.set i v).high.testBit j = false :=
        Nat.testBit_lt_two_pow (lt_of_lt_of_le hh' pow_le)
      have b5 : (s.set i v).middle.testBit j = false :=
        Nat.testBit_lt_two_pow (lt_of_lt_of_le hm' pow_le)
      have b6 : (s.set i v).low.testBit j = false :=
        Nat.testBit_lt_two_pow (lt_of_lt_of_le hl' pow_le)
      simp [Nat.testBit_or, b1, b2, b3, b4, b5, b6]
  · exact (M64.val_eq_zero_iff_m64h3 s i).mp h0
  · have h1 := M64.testBit_set_high_m64h3 s i v i hi
    have h2 := M64.testBit_set_middle_m64h3 s i v i hi
    have h3 := M64.testBit_set_low_m64h3 s i v i hi
    rw [if_pos rfl] at h1 h2 h3
    rw [Nat.testBit_or, Nat.testBit_or, h1, h2, h3]
    interval_cases v
    · exact absurd rfl hv
    all_goals decide

theorem M64.count_set_keep_m64h3 (s : M64) (i v : ℕ) (hs : s.Wf) (hi : i < 64)
    (h0 : s.val i ≠ 0) (hv : v ≠ 0) (hv7 : v ≤ 7) :
    (s.set i v).count = s.count := by
  unfold M64.count
  apply popCount_congr
  intro j
  by_cases hj64 : j < 64
  · by_cases hj : j = i
    · have h1 := M64.testBit_set_high_m64h3 s i v j hj64
      have h2 := M64.testBit_set_middle_m64h3 s i v j hj64
      have h3 := M64.testBit_set_low_m64h3 s i v j hj64
      rw [if_pos hj] at h1 h2 h3
      have hbit : (s.middle.testBit j || s.low.testBit j || s.high.testBit j) = true := by
        rcases hbt : (s.middle ||| s.low ||| s.high).testBit j
        · subst hj
          exact absurd ((M64.val_eq_zero_iff_m64h3 s j).mpr hbt) h0
        · rw [Nat.testBit_or, Nat.testBit_or] at hbt
          exact hbt
      simp only [Nat.testBit_or, h1, h2, h3]
      rw [hbit]
      interval_cases v
      · exact absurd rfl hv
      all_goals decide
    · have h1 := M64.testBit_set_high_m64h3 s i v j hj64
      have h2 := M64.testBit_set_middle_m64h3 s i v j hj64
      have h3 := M64.testBit_set_low_m64h3 s i v j hj64
      rw [if_neg hj] at h1 h2 h3
      simp [Nat.testBit_or, h1, h2, h3]
  · obtain ⟨hh, hm, hl⟩ := hs
    obtain ⟨hh', hm', hl'⟩ := M64.wf_set_m64h3 s i v ⟨hh, hm, hl⟩ hi
    have hbig : (64 : ℕ) ≤ j := by omega
    have pow_le : (2 : ℕ) ^ 64 ≤ 2 ^ j := Nat.pow_le_pow_right (by omega) hbig
    have b1 : s.high.testBit j = false := Nat.testBit_lt_two_pow (lt_of_lt_of_le hh pow_le)
    have b2 : s.middle.testBit j = false := Nat.testBit_lt_two_pow (lt_of_lt_of_le hm pow_le)
    have b3 : s.low.testBit j = false := Nat.testBit_lt_two_pow (lt_of_lt_of_le hl pow_le)
    have b4 : (s.set i v).high.testBit j = false :=
      Nat.testBit_lt_two_pow (lt_of_lt_of_le hh' pow_le)
    have b5 : (s.set i v).middle.testBit j = false :=
      Nat.testBit_lt_two_pow (lt_of_lt_of_le hm' pow_le)
    have b6 : (s.set i v).low.testBit j = false :=
      Nat.testBit_lt_two_pow (lt_of_lt_of_le hl' pow_le)
    simp [Nat.testBit_or, b1, b2, b3, b4, b5, b6]

/-- `BitRegister` (src/h3b/sketch.rs): three 128-bit planes covering 128
consecutive substreams. -/
structure BitRegister where
  high : ℕ
  middle : ℕ
  low : ℕ
deriving DecidableEq, Repr

/-- The all-zero register. -/
def BitRegister.zero : BitRegister := ⟨0, 0, 0⟩

/-- Level of one substream inside a register: body of the three-bit
`M128Reg::val` after the register has been selected. -/
def BitRegister.valBits (r : BitRegister) (bit_index : ℕ) : ℕ :=
  let high_bit := (r.high >>> bit_index) &&& 1
  let middle_bit := (r.middle >>> bit_index) &&& 1
  let low_bit := (r.low >>> bit_index) &&& 1
  (high_bit <<< 2) ||| (middle_bit <<< 1) ||| low_bit

/-- Write one substream's level inside a register: body of the three-bit
`M128Reg::set` after the register has been selected. -/
def BitRegister.setBits (r : BitRegister) (bit_index value : ℕ) : BitRegister :=
  let value_high_bit := (value >>> 2) &&& 1
  let value_middle_bit := (value >>> 1) &&& 1
  let value_low_bit := value &&& 1
  { high := (r.high &&& not128 (1 <<< bit_index)) ||| (value_high_bit <<< bit_index)
    middle := (r.middle &&& not128 (1 <<< bit_index)) ||| (value_middle_bit <<< bit_index)
    low := (r.low &&& not128 (1 <<< bit_index)) ||| (value_low_bit <<< bit_index) }

/-- All three planes fit in a `u128`. -/
def BitRegister.Wf (r : BitRegister) : Prop :=
  r.high < 2 ^ 128 ∧ r.middle < 2 ^ 128 ∧ r.low < 2 ^ 128

/-- Three-bit `M128Reg<REGISTERS>` (src/h3b/sketch.rs). -/
structure M128Reg where
  registers : List BitRegister
deriving DecidableEq, Repr

/-- `M128Reg::default()` with `REGISTERS = r`. -/
def M128Reg.defaultR (r : ℕ) : M128Reg := ⟨List.replicate r BitRegister.zero⟩

/-- `M128Reg::val`. -/
def M128Reg.val (s : M128Reg) (stream : ℕ) : ℕ :=
  let register_index := stream / H2B.REG_SIZE
  let bit_index := stream % H2B.REG_SIZE
  (s.registers.getD register_index BitRegister.zero).valBits bit_index

/-- `M128Reg::set`. -/
def M128Reg.set (s : M128Reg) (stream value : ℕ) : M128Reg :=
  let register_index := stream / H2B.REG_SIZE
  let bit_index := stream % H2B.REG_SIZE
  ⟨s.registers.set register_index
    ((s.registers.getD register_index BitRegister.zero).setBits bit_index value)⟩

/-- `M128Reg::count`. -/
def M128Reg.count (s : M128Reg) : ℕ :=
  (s.registers.map (fun r => popCount (r.middle ||| r.low ||| r.high))).sum

/-- The trait-default `decrement`, looping over `0..STREAMS`
(the vectored closed form is commented out in the source). -/
def M128Reg.decrementW (streams : ℕ) (s : M128Reg) : M128Reg × ℕ :=
  let s' := decLoop M128Reg.val M128Reg.set streams s
  (s', s'.count)

/-- `M128Reg::merge`: register-wise plane OR. -/
def M128Reg.merge (s other : M128Reg) : M128Reg :=
  ⟨List.zipWith (fun a b => ⟨a.high ||| b.high, a.middle ||| b.middle, a.low ||| b.low⟩)
    s.registers other.registers⟩

/-- `M128Reg::merge_high_into_lo`: register-wise
`low |= other.middle; middle |= other.high`. -/
def M128Reg.mergeHighIntoLo (s other : M128Reg) : M128Reg :=
  ⟨List.zipWith (fun a b => ⟨a.high, a.middle ||| b.high, a.low ||| b.middle⟩)
    s.registers other.registers⟩

/-- Well-formedness: exactly `r` registers, all in `u128` range. -/
def M128Reg.Wf (r : ℕ) (s : M128Reg) : Prop :=
  s.registers.length = r ∧ ∀ reg ∈ s.registers, reg.Wf

theorem BitRegister.valBits_char_br (r : BitRegister) (b : ℕ) :
    r.valBits b = (if r.high.testBit b then 4 else 0) +
      (if r.middle.testBit b then 2 else 0) + (if r.low.testBit b then 1 else 0) := by
  unfold BitRegister.valBits
  rw [shiftRight_and_one, shiftRight_and_one, shiftRight_and_one]
  rcases r.high.testBit b <;> rcases r.middle.testBit b <;> rcases r.low.testBit b <;> rfl

theorem BitRegister.testBit_setBits_high_br (r : BitRegister) (b v j : ℕ) (hj : j < 128) :
    (r.setBits b v).high.testBit j =
      if j = b then v.testBit 2 else r.high.testBit j := by
  unfold BitRegister.setBits
  simp only [Nat.testBit_or, Nat.testBit_and, testBit_not128 _ _ hj,
    Nat.testBit_shiftLeft, testBit_one_eq]
  by_cases h : j = b
  · subst h
    simp [Nat.testBit_shiftRight]
  · rcases Nat.lt_or_ge j b with hlt | hge
    · have h1 : ¬ j ≥ b := by omega
      simp [h1, h]
    · have h2 : j - b ≠ 0 := by omega
      simp [hge, h2, h]

theorem BitRegister.testBit_setBits_middle_br (r : BitRegister) (b v j : ℕ) (hj : j < 128) :
    (r.setBits b v).middle.testBit j =
      if j = b then v.testBit 1 else r.middle.testBit j := by
  unfold BitRegister.setBits
  simp only [Nat.testBit_or, Nat.testBit_and, testBit_not128 _ _ hj,
    Nat.testBit_shiftLeft, testBit_one_eq]
  by_cases h : j = b
  · subst h
    simp [Nat.testBit_shiftRight]
  · rcases Nat.lt_or_ge j b with hlt | hge
    · have h1 : ¬ j ≥ b := by omega
      simp [h1, h]
    · have h2 : j - b ≠ 0 := by omega
      simp [hge, h2, h]

theorem BitRegister.testBit_setBits_low_br (r : BitRegister) (b v j : ℕ) (hj : j < 128) :
    (r.setBits b v).low.testBit j =
      if j = b then v.testBit 0 else r.low.testBit j := by
  unfold BitRegister.setBits
  simp only [Nat.testBit_or, Nat.testBit_and, testBit_not128 _ _ hj,
    Nat.testBit_shiftLeft, testBit_one_eq]
  by_cases h : j = b
  · subst h
    simp
  · rcases Nat.lt_or_ge j b with hlt | hge
    · have h1 : ¬ j ≥ b := by omega
      simp [h1, h]
    · have h2 : j - b ≠ 0 := by omega
      simp [hge, h2, h]

theorem BitRegister.valBits_setBits_self_br (r : BitRegister) (b v : ℕ) (hb : b < 128)
    (hv : v ≤ 7) : (r.setBits b v).valBits b = v := by
  have h1 := BitRegister.testBit_setBits_high_br r b v b hb
  have h2 := BitRegister.testBit_setBits_middle_br r b v b hb
  have h3 := BitRegister.testBit_setBits_low_br r b v b hb
  rw [if_pos rfl] at h1 h2 h3
  rw [BitRegister.valBits_char_br, h1, h2, h3]
  interval_cases v <;> decide

theorem BitRegister.valBits_setBits_other_br (r : BitRegister) (b v j : ℕ) (hj : j < 128)
    (hne : j ≠ b) : (r.setBits b v).valBits j = r.valBits j := by
  have h1 := BitRegister.testBit_setBits_high_br r b v j hj
  have h2 := BitRegister.testBit_setBits_middle_br r b v j hj
  have h3 := BitRegister.testBit_setBits_low_br r b v j hj
  rw [if_neg hne] at h1 h2 h3
  rw [BitRegister.valBits_char_br, h1, h2, h3, BitRegister.valBits_char_br]

theorem BitRegister.valBits_eq_zero_iff_br (r : BitRegister) (b : ℕ) :
    r.valBits b = 0 ↔ (r.middle ||| r.low ||| r.high).testBit b = false := by
  rw [BitRegister.valBits_char_br, Nat.testBit_or, Nat.testBit_or]
  rcases r.high.testBit b <;> rcases r.middle.testBit b <;> rcases r.low.testBit b <;> simp

theorem BitRegister.wf_setBits_br (r : BitRegister) (b v : ℕ) (hr : r.Wf) (hb : b < 128) :
    (r.setBits b v).Wf := by
  obtain ⟨hh, hm, hl⟩ := hr
  refine ⟨?_, ?_, ?_⟩
  · exact Nat.or_lt_two_pow (H2B.and_lt_two_pow_left _ _ _ hh)
      (H2B.shiftLeft_bit_lt _ _ _ (by rw [Nat.and_one_is_mod]; omega) hb)
  · exact Nat.or_lt_two_pow (H2B.and_lt_two_pow_left _ _ _ hm)
      (H2B.shiftLeft_bit_lt _ _ _ (by rw [Nat.and_one_is_mod]; omega) hb)
  · exact Nat.or_lt_two_pow (H2B.and_lt_two_pow_left _ _ _ hl)
      (H2B.shiftLeft_bit_lt _ _ _ (by rw [Nat.and_one_is_mod]; omega) hb)

theorem M128Reg.getD_set_self_regh3 (s : M128Reg) (r : ℕ) (x : BitRegister)
    (hr : r < s.registers.length) :
    (s.registers.set r x).getD r BitRegister.zero = x := by
  rw [List.getD_eq_getElem _ _ (by simpa using hr)]
  exact List.getElem_set_self _

theorem M128Reg.getD_set_other_regh3 (s : M128Reg) (r r' : ℕ) (x : BitRegister)
    (hr' : r' < s.registers.length) (hne : r ≠ r') :
    (s.registers.set r x).getD r' BitRegister.zero =
      s.registers.getD r' BitRegister.zero := by
  rw [List.getD_eq_getElem _ _ (by simpa using hr'),
    List.getD_eq_getElem _ _ hr']
  exact List.getElem_set_ne hne _

theorem M128Reg.val_le_seven_regh3 (s : M128Reg) (i : ℕ) : s.val i ≤ 7 := by
  unfold M128Reg.val
  rw [BitRegister.valBits_char_br]
  split <;> split <;> split <;> omega

theorem M128Reg.val_set_self_regh3 (R : ℕ) (s : M128Reg) (i v : ℕ) (hs : s.Wf R)
    (hi : i < 128 * R) (hv : v ≤ 7) : (s.set i v).val i = v := by
  obtain ⟨hlen, _⟩ := hs
  have hr : i / H2B.REG_SIZE < s.registers.length := H2B.M128Reg.reg_lt_reg R i _ hlen hi
  show ((s.registers.set (i / H2B.REG_SIZE)
      ((s.registers.getD (i / H2B.REG_SIZE) BitRegister.zero).setBits
        (i % H2B.REG_SIZE) v)).getD
      (i / H2B.REG_SIZE) BitRegister.zero).valBits (i % H2B.REG_SIZE) = v
  rw [M128Reg.getD_set_self_regh3 s _ _ hr]
  exact BitRegister.valBits_setBits_self_br _ _ _ (H2B.M128Reg.bit_lt_reg i) hv

theorem M128Reg.val_set_other_regh3 (R : ℕ) (s : M128Reg) (i v j : ℕ) (hs : s.Wf R)
    (hi : i < 128 * R) (hj : j < 128 * R) (hne : j ≠ i) :
    (s.set i v).val j = s.val j := by
  obtain ⟨hlen, _⟩ := hs
  have hr : i / H2B.REG_SIZE < s.registers.length := H2B.M128Reg.reg_lt_reg R i _ hlen hi
  have hr' : j / H2B.REG_SIZE < s.registers.length := H2B.M128Reg.reg_lt_reg R j _ hlen hj
  show ((s.registers.set (i / H2B.REG_SIZE)
      ((s.registers.getD (i / H2B.REG_SIZE) BitRegister.zero).setBits
        (i % H2B.REG_SIZE) v)).getD
      (j / H2B.REG_SIZE) BitRegister.zero).valBits (j % H2B.REG_SIZE) =
    (s.registers.getD (j / H2B.REG_SIZE) BitRegister.zero).valBits (j % H2B.REG_SIZE)
  by_cases hreg : j / H2B.REG_SIZE = i / H2B.REG_SIZE
  · rw [hreg, M128Reg.getD_set_self_regh3 s _ _ hr]
    have hbits : j % H2B.REG_SIZE ≠ i % H2B.REG_SIZE := by
      intro hmod
      apply hne
      have e1 : H2B.REG_SIZE * (j / H2B.REG_SIZE) + j % H2B.REG_SIZE = j :=
        Nat.div_add_mod j H2B.REG_SIZE
      have e2 : H2B.REG_SIZE * (i / H2B.REG_SIZE) + i % H2B.REG_SIZE = i :=
        Nat.div_add_mod i H2B.REG_SIZE
      rw [hreg] at e1
      omega
    rw [BitRegister.valBits_setBits_other_br _ _ _ _ (H2B.M128Reg.bit_lt_reg j) hbits]
  · rw [M128Reg.getD_set_other_regh3 s _ _ _ hr' (fun h => hreg h.symm)]

theorem M128Reg.wf_set_regh3 (R : ℕ) (s : M128Reg) (i v : ℕ) (hs : s.Wf R)
    (hi : i < 128 * R) : (s.set i v).Wf R := by
  obtain ⟨hlen, hmem⟩ := hs
  refine ⟨by simpa [M128Reg.set] using hlen, ?_⟩
  intro reg hreg
  simp only [M128Reg.set] at hreg
  rcases List.mem_or_eq_of_mem_set hreg with hold | hnew
  · exact hmem reg hold
  · subst hnew
    have hr : i / H2B.REG_SIZE < s.registers.length := H2B.M128Reg.reg_lt_reg R i _ hlen hi
    apply BitRegister.wf_setBits_br
    · rw [List.getD_eq_getElem _ _ hr]
      exact hmem _ (List.getElem_mem hr)
    · exact H2B.M128Reg.bit_lt_reg i

theorem M128Reg.wf_decrementW_regh3 (R W : ℕ) (s : M128Reg) (hs : s.Wf R)
    (hW : W ≤ 128 * R) : (s.decrementW W).1.Wf R :=
  (decLoop_spec M128Reg.val M128Reg.set (M128Reg.Wf R) (128 * R) 7
    (fun s i v hsw hi _ => M128Reg.wf_set_regh3 R s i v hsw hi)
    (fun s i v hsw hi hv => M128Reg.val_set_self_regh3 R s i v hsw hi hv)
    (fun s i v j hsw hi hj hne => M128Reg.val_set_other_regh3 R s i v j hsw hi hj hne)
    M128Reg.val_le_seven_regh3 W s hs hW).1

theorem M128Reg.decrementW_val_regh3 (R W : ℕ) (s : M128Reg) (i : ℕ) (hs : s.Wf R)
    (hW : W ≤ 128 * R) (hi : i < W) : (s.decrementW W).1.val i = s.val i - 1 := by
  have h := (decLoop_spec M128Reg.val M128Reg.set (M128Reg.Wf R) (128 * R) 7
    (fun s i v hsw hi _ => M128Reg.wf_set_regh3 R s i v hsw hi)
    (fun s i v hsw hi hv => M128Reg.val_set_self_regh3 R s i v hsw hi hv)
    (fun s i v j hsw hi hj hne => M128Reg.val_set_other_regh3 R s i v j hsw hi hj hne)
    M128Reg.val_le_seven_regh3 W s hs hW).2 i (by omega)
  rwa [if_pos hi] at h

theorem M128Reg.decrementW_count_regh3 (W : ℕ) (s : M128Reg) :
    (s.decrementW W).2 = (s.decrementW W).1.count := rfl

theorem M128Reg.count_set_activate_regh3 (R : ℕ) (s : M128Reg) (i v : ℕ) (hs : s.Wf R)
    (hi : i < 128 * R) (h0 : s.val i = 0) (hv : v ≠ 0) (hv7 : v ≤ 7) :
    (s.set i v).count = s.count + 1 := by
  obtain ⟨hlen, hmem⟩ := hs
  have hr : i / H2B.REG_SIZE < s.registers.length := H2B.M128Reg.reg_lt_reg R i _ hlen hi
  have hb : i % H2B.REG_SIZE < 128 := H2B.M128Reg.bit_lt_reg i
  have holdwf : (s.registers[i / H2B.REG_SIZE]).Wf := hmem _ (List.getElem_mem hr)
  have holdD : s.registers.getD (i / H2B.REG_SIZE) BitRegister.zero =
      s.registers[i / H2B.REG_SIZE] := List.getD_eq_getElem _ _ hr
  have h0' : (s.registers[i / H2B.REG_SIZE]).valBits (i % H2B.REG_SIZE) = 0 := by
    have hval : (s.registers.getD (i / H2B.REG_SIZE) BitRegister.zero).valBits
        (i % H2B.REG_SIZE) = 0 := h0
    rwa [holdD] at hval
  have hnewwf : ((s.registers[i / H2B.REG_SIZE]).setBits (i % H2B.REG_SIZE) v).Wf :=
    BitRegister.wf_setBits_br _ _ _ holdwf hb
  have hflip : popCount ((((s.registers[i / H2B.REG_SIZE]).setBits
        (i % H2B.REG_SIZE) v).middle |||
      ((s.registers[i / H2B.REG_SIZE]).setBits (i % H2B.REG_SIZE) v).low) |||
      ((s.registers[i / H2B.REG_SIZE]).setBits (i % H2B.REG_SIZE) v).high) =
      popCount ((s.registers[i / H2B.REG_SIZE]).middle |||
        (s.registers[i / H2B.REG_SIZE]).low ||| (s.registers[i / H2B.REG_SIZE]).high) + 1 := by
    obtain ⟨whh, whm, whl⟩ := holdwf
    obtain ⟨whh', whm', whl'⟩ := hnewwf
    apply popCount_flip_set _ _ (i % H2B.REG_SIZE) 128
      (Nat.or_lt_two_pow (Nat.or_lt_two_pow whm whl) whh)
      (Nat.or_lt_two_pow (Nat.or_lt_two_pow whm' whl') whh') hb
    · intro j hj
      by_cases hj128 : j < 128
      · simp only [Nat.testBit_or,
          BitRegister.testBit_setBits_high_br _ _ _ j hj128,
          BitRegister.testBit_setBits_middle_br _ _ _ j hj128,
          BitRegister.testBit_setBits_low_br _ _ _ j hj128, if_neg hj]
      · have pow_le : (2 : ℕ) ^ 128 ≤ 2 ^ j := Nat.pow_le_pow_right (by omega) (by omega)
        have b1 := Nat.testBit_lt_two_pow (lt_of_lt_of_le whh pow_le)
        have b2 := Nat.testBit_lt_two_pow (lt_of_lt_of_le whm pow_le)
        have b3 := Nat.testBit_lt_two_pow (lt_of_lt_of_le whl pow_le)
        have b4 := Nat.testBit_lt_two_pow (lt_of_lt_of_le whh' pow_le)
        have b5 := Nat.testBit_lt_two_pow (lt_of_lt_of_le whm' pow_le)
        have b6 := Nat.testBit_lt_two_pow (lt_of_lt_of_le whl' pow_le)
        simp [Nat.testBit_or, b1, b2, b3, b4, b5, b6]
    · exact (BitRegister.valBits_eq_zero_iff_br _ _).mp h0'
    · have h1 := BitRegister.testBit_setBits_high_br (s.registers[i / H2B.REG_SIZE])
        (i % H2B.REG_SIZE) v (i % H2B.REG_SIZE) hb
      have h2 := BitRegister.testBit_setBits_middle_br (s.registers[i / H2B.REG_SIZE])
        (i % H2B.REG_SIZE) v (i % H2B.REG_SIZE) hb
      have h3 := BitRegister.testBit_setBits_low_br (s.registers[i / H2B.REG_SIZE])
        (i % H2B.REG_SIZE) v (i % H2B.REG_SIZE) hb
      rw [if_pos rfl] at h1 h2 h3
      rw [Nat.testBit_or, Nat.testBit_or, h1, h2, h3]
      interval_cases v
      · exact absurd rfl hv
      all_goals decide
  have hsum := H2B.sum_map_set (fun r => popCount (r.middle ||| r.low ||| r.high))
    s.registers (i / H2B.REG_SIZE)
    ((s.registers[i / H2B.REG_SIZE]).setBits (i % H2B.REG_SIZE) v) hr
  show ((s.registers.set (i / H2B.REG_SIZE)
    ((s.registers.getD (i / H2B.REG_SIZE) BitRegister.zero).setBits (i % H2B.REG_SIZE) v)).map
      (fun r => popCount (r.middle ||| r.low ||| r.high))).sum =
    (s.registers.map (fun r => popCount (r.middle ||| r.low ||| r.high))).sum + 1
  rw [holdD]
  simp only at hsum hflip
  omega

theorem M128Reg.count_set_keep_regh3 (R : ℕ) (s : M128Reg) (i v : ℕ) (hs : s.Wf R)
    (hi : i < 128 * R) (h0 : s.val i ≠ 0) (hv : v ≠ 0) (hv7 : v ≤ 7) :
    (s.set i v).count = s.count := by
  obtain ⟨hlen, hmem⟩ := hs
  have hr : i / H2B.REG_SIZE < s.registers.length := H2B.M128Reg.reg_lt_reg R i _ hlen hi
  have hb : i % H2B.REG_SIZE < 128 := H2B.M128Reg.bit_lt_reg i
  have holdwf : (s.registers[i / H2B.REG_SIZE]).Wf := hmem _ (List.getElem_mem hr)
  have holdD : s.registers.getD (i / H2B.REG_SIZE) BitRegister.zero =
      s.registers[i / H2B.REG_SIZE] := List.getD_eq_getElem _ _ hr
  have h0' : (s.registers[i / H2B.REG_SIZE]).valBits (i % H2B.REG_SIZE) ≠ 0 := by
    intro hzero
    apply h0
    show (s.registers.getD (i / H2B.REG_SIZE) BitRegister.zero).valBits
      (i % H2B.REG_SIZE) = 0
    rwa [holdD]
  have hnewwf : ((s.registers[i / H2B.REG_SIZE]).setBits (i % H2B.REG_SIZE) v).Wf :=
    BitRegister.wf_setBits_br _ _ _ holdwf hb
  have hsame : popCount ((((s.registers[i / H2B.REG_SIZE]).setBits
        (i % H2B.REG_SIZE) v).middle |||
      ((s.registers[i / H2B.REG_SIZE]).setBits (i % H2B.REG_SIZE) v).low) |||
      ((s.registers[i / H2B.REG_SIZE]).setBits (i % H2B.REG_SIZE) v).high) =
      popCount ((s.registers[i / H2B.REG_SIZE]).middle |||
        (s.registers[i / H2B.REG_SIZE]).low ||| (s.registers[i / H2B.REG_SIZE]).high) := by
    obtain ⟨whh, whm, whl⟩ := holdwf
    obtain ⟨whh', whm', whl'⟩ := hnewwf
    apply popCount_congr
    intro j
    by_cases hj128 : j < 128
    · by_cases hj : j = i % H2B.REG_SIZE
      · have h1 := BitRegister.testBit_setBits_high_br (s.registers[i / H2B.REG_SIZE])
          (i % H2B.REG_SIZE) v j hj128
        have h2 := BitRegister.testBit_setBits_middle_br (s.registers[i / H2B.REG_SIZE])
          (i % H2B.REG_SIZE) v j hj128
        have h3 := BitRegister.testBit_setBits_low_br (s.registers[i / H2B.REG_SIZE])
          (i % H2B.REG_SIZE) v j hj128
        rw [if_pos hj] at h1 h2 h3
        have hbit : ((s.registers[i / H2B.REG_SIZE]).middle.testBit j ||
            (s.registers[i / H2B.REG_SIZE]).low.testBit j ||
            (s.registers[i / H2B.REG_SIZE]).high.testBit j) = true := by
          rcases hbt : ((s.registers[i / H2B.REG_SIZE]).middle |||
              (s.registers[i / H2B.REG_SIZE]).low |||
              (s.registers[i / H2B.REG_SIZE]).high).testBit j
          · exfalso
            apply h0'
            subst hj
            exact (BitRegister.valBits_eq_zero_iff_br _ _).mpr hbt
          · rw [Nat.testBit_or, Nat.testBit_or] at hbt
            exact hbt
        simp only [Nat.testBit_or, h1, h2, h3]
        rw [hbit]
        interval_cases v
        · exact absurd rfl hv
        all_goals decide
      · have h1 := BitRegister.testBit_setBits_high_br (s.registers[i / H2B.REG_SIZE])
          (i % H2B.REG_SIZE) v j hj128
        have h2 := BitRegister.testBit_setBits_middle_br (s.registers[i / H2B.REG_SIZE])
          (i % H2B.REG_SIZE) v j hj128
        have h3 := BitRegister.testBit_setBits_low_br (s.registers[i / H2B.REG_SIZE])
          (i % H2B.REG_SIZE) v j hj128
        rw [if_neg hj] at h1 h2 h3
        simp [Nat.testBit_or, h1, h2, h3]
    · have pow_le : (2 : ℕ) ^ 128 ≤ 2 ^ j := Nat.pow_le_pow_right (by omega) (by omega)
      have b1 := Nat.testBit_lt_two_pow (lt_of_lt_of_le whh pow_le)
      have b2 := Nat.testBit_lt_two_pow (lt_of_lt_of_le whm pow_le)
      have b3 := Nat.testBit_lt_two_pow (lt_of_lt_of_le whl pow_le)
      have b4 := Nat.testBit_lt_two_pow (lt_of_lt_of_le whh' pow_le)
      have b5 := Nat.testBit_lt_two_pow (lt_of_lt_of_le whm' pow_le)
      have b6 := Nat.testBit_lt_two_pow (lt_of_lt_of_le whl' pow_le)
      simp [Nat.testBit_or, b1, b2, b3, b4, b5, b6]
  have hsum := H2B.sum_map_set (fun r => popCount (r.middle ||| r.low ||| r.high))
    s.registers (i / H2B.REG_SIZE)
    ((s.registers[i / H2B.REG_SIZE]).setBits (i % H2B.REG_SIZE) v) hr
  show ((s.registers.set (i / H2B.REG_SIZE)
    ((s.registers.getD (i / H2B.REG_SIZE) BitRegister.zero).setBits (i % H2B.REG_SIZE) v)).map
      (fun r => popCount (r.middle ||| r.low ||| r.high))).sum =
    (s.registers.map (fun r => popCount (r.middle ||| r.low ||| r.high))).sum
  rw [holdD]
  simp only at hsum hsame
  omega

theorem M128Reg.count_default_regh3 (r : ℕ) : (M128Reg.defaultR r).count = 0 := by
  unfold M128Reg.count M128Reg.defaultR
  rw [List.map_replicate]
  simp [BitRegister.zero, popCount, popCountAux]

theorem M128Reg.wf_default_regh3 (r : ℕ) : (M128Reg.defaultR r).Wf r := by
  refine ⟨by simp [M128Reg.defaultR], ?_⟩
  intro reg hreg
  rw [List.eq_of_mem_replicate hreg]
  exact ⟨by norm_num [BitRegister.zero], by norm_num [BitRegister.zero],
    by norm_num [BitRegister.zero]⟩

end H3B

/-- The `Sketch` trait (src/h2b/sketch.rs and src/h3b/sketch.rs) as a record
of operations: associated constants plus the store operations the estimators
call.  `decrement` returns the updated store together with the returned
count, mirroring `fn decrement(&mut self) -> u32`. -/
structure SketchOps (σ : Type) where
  STREAMS : ℕ
  HASH_MASK : ℕ
  IDX_SHIFT : ℕ
  val : σ → ℕ → ℕ
  set : σ → ℕ → ℕ → σ
  decrement : σ → σ × ℕ
  count : σ → ℕ
  merge : σ → σ → σ
  mergeHighIntoLo : σ → σ → σ
  dflt : σ

/-- `HyperTwoBits` (src/h2b.rs); `HyperThreeBits` (src/h3b.rs) has the very
same four fields, so one structure serves both variants.  The hash strategy
is embedded as the function `hash_one` computes: a map from (encoded)
inputs to 64-bit digests. -/
structure HyperTwoBits (σ : Type) where
  hash : ℕ → ℕ
  sketch : σ
  count : ℕ
  t : ℕ

/-- `HyperTwoBits::new`/`default` and `HyperThreeBits::new`/`default`:
zero count, generation 1, default sketch. -/
def newEstimator {σ : Type} (O : SketchOps σ) (hash : ℕ → ℕ) : HyperTwoBits σ :=
  { hash := hash, sketch := O.dflt, count := 0, t := 1 }

/-- The saturation threshold used by the insert paths:
`const { (Self::ALPHA * BITS::STREAMS as f64) as u32 }` with
`ALPHA = 0.988`.  For every `STREAMS` value in the crate
(64, 128, 256, 512, 1024, 2048, 4096) the f64 computation yields exactly
`⌊988·m/1000⌋`, which is how it is embedded. -/
def thresholdInsert (m : ℕ) : ℕ := 988 * m / 1000

/-- The (different) saturation threshold used by `merge`:
`const { (0.99 * (BITS::STREAMS as f64)) as u32 }`.  For every `STREAMS`
value in the crate this equals `⌊99·m/100⌋`. -/
def thresholdMerge (m : ℕ) : ℕ := 99 * m / 100

/-- The promotion block of `HyperTwoBits::insert_hash` (src/h2b.rs,
lines 108-124), the same block the batched `insert2`/`insert4` repeat for
each value: split the digest, then run the three threshold checks in
increasing order, each against the current stored level. -/
def insertValue2 {σ : Type} (O : SketchOps σ) (e : HyperTwoBits σ) (hash : ℕ) : HyperTwoBits σ :=
  let stream := hash >>> O.IDX_SHIFT
  let hash := hash &&& O.HASH_MASK
  let e := if trailingOnes hash ≥ e.t ∧ O.val e.sketch stream < 1 then
      { e with count := e.count + 1, sketch := O.set e.sketch stream 1 }
    else e
  let e := if trailingOnes hash ≥ e.t + 4 ∧ O.val e.sketch stream < 2 then
      { e with sketch := O.set e.sketch stream 2 }
    else e
  let e := if trailingOnes hash ≥ e.t + 8 ∧ O.val e.sketch stream < 3 then
      { e with sketch := O.set e.sketch stream 3 }
    else e
  e

/-- The saturation check closing every insert path (src/h2b.rs lines
126-129 and the identical blocks in `insert2`/`insert4` and in h3b):
when the cached count reaches the threshold, age the sketch, adopt the
returned count and advance the generation by 4. -/
def satCheck {σ : Type} (O : SketchOps σ) (e : HyperTwoBits σ) : HyperTwoBits σ :=
  if e.count ≥ thresholdInsert O.STREAMS then
    { e with
      sketch := (O.decrement e.sketch).1
      count := (O.decrement e.sketch).2
      t := e.t + 4 }
  else e

/-- `HyperTwoBits::insert_hash`. -/
def insertHash2 {σ : Type} (O : SketchOps σ) (e : HyperTwoBits σ) (hash : ℕ) : HyperTwoBits σ :=
  satCheck O (insertValue2 O e hash)

/-- `HyperTwoBits::insert`: hash the value, then `insert_hash`. -/
def insert2b {σ : Type} (O : SketchOps σ) (e : HyperTwoBits σ) (v : ℕ) : HyperTwoBits σ :=
  insertHash2 O e (e.hash v)

/-- `HyperTwoBits::insert2`: both values run the promotion block, the
saturation check runs once at the end. -/
def insertTwo {σ : Type} (O : SketchOps σ) (e : HyperTwoBits σ) (v1 v2 : ℕ) : HyperTwoBits σ :=
  satCheck O (insertValue2 O (insertValue2 O e (e.hash v1)) (e.hash v2))

/-- `HyperTwoBits::insert4`: four promotion blocks, one saturation check. -/
def insertFour {σ : Type} (O : SketchOps σ) (e : HyperTwoBits σ) (v1 v2 v3 v4 : ℕ) :
    HyperTwoBits σ :=
  satCheck O (insertValue2 O (insertValue2 O (insertValue2 O
    (insertValue2 O e (e.hash v1)) (e.hash v2)) (e.hash v3)) (e.hash v4))

/-- The promotion block of `HyperThreeBits::insert_hash` (src/h3b.rs,
lines 108-142): seven threshold checks at `t, t+4, t+8, t+16, t+32, t+64,
t+128` for levels 1..7. -/
def insertValue3 {σ : Type} (O : SketchOps σ) (e : HyperTwoBits σ) (hash : ℕ) : HyperTwoBits σ :=
  let stream_index := hash >>> O.IDX_SHIFT
  let hash := hash &&& O.HASH_MASK
  let e := if trailingOnes hash ≥ e.t ∧ O.val e.sketch stream_index < 1 then
      { e with count := e.count + 1, sketch := O.set e.sketch stream_index 1 }
    else e
  let e := if trailingOnes hash ≥ e.t + 4 ∧ O.val e.sketch stream_index < 2 then
      { e with sketch := O.set e.sketch stream_index 2 }
    else e
  let e := if trailingOnes hash ≥ e.t + 8 ∧ O.val e.sketch stream_index < 3 then
      { e with sketch := O.set e.sketch stream_index 3 }
    else e
  let e := if trailingOnes hash ≥ e.t + 16 ∧ O.val e.sketch stream_index < 4 then
      { e with sketch := O.set e.sketch stream_index 4 }
    else e
  let e := if trailingOnes hash ≥ e.t + 32 ∧ O.val e.sketch stream_index < 5 then
      { e with sketch := O.set e.sketch stream_index 5 }
    else e
  let e := if trailingOnes hash ≥ e.t + 64 ∧ O.val e.sketch stream_index < 6 then
      { e with sketch := O.set e.sketch stream_index 6 }
    else e
  let e := if trailingOnes hash ≥ e.t + 128 ∧ O.val e.sketch stream_index < 7 then
      { e with sketch := O.set e.sketch stream_index 7 }
    else e
  e

/-- `HyperThreeBits::insert_hash`. -/
def insertHash3 {σ : Type} (O : SketchOps σ) (e : HyperTwoBits σ) (hash : ℕ) : HyperTwoBits σ :=
  satCheck O (insertValue3 O e hash)

/-- `HyperThreeBits::insert`. -/
def insert3b {σ : Type} (O : SketchOps σ) (e : HyperTwoBits σ) (v : ℕ) : HyperTwoBits σ :=
  insertHash3 O e (e.hash v)

/-- `HyperTwoBits::merge` (src/h2b.rs lines 52-93; `HyperThreeBits::merge`
is textually identical).  `none` models the `assert_eq!` panic on hash
strategies that disagree on the probe value 42; otherwise the swap, the
generation-gap cutoff, the pre-merge aging at the 0.99 threshold, and the
(plane-OR or high-into-lo) sketch combination, finishing with a count
recomputation. -/
def mergeEst {σ : Type} (O : SketchOps σ) (self other : HyperTwoBits σ) :
    Option (HyperTwoBits σ) :=
  if self.hash 42 ≠ other.hash 42 then none
  else
    let threshold := thresholdMerge O.STREAMS
    let p := if other.t > self.t then (other, self) else (self, other)
    let s := p.1
    let o := p.2
    if s.t - o.t > 8 then some s
    else
      let same := s.t == o.t
      let s := if s.count ≥ threshold then
          { s with
            sketch := (O.decrement s.sketch).1
            count := (O.decrement s.sketch).2
            t := s.t + 4 }
        else s
      let sk := if same then O.merge s.sketch o.sketch
        else O.mergeHighIntoLo s.sketch o.sketch
      some { s with sketch := sk, count := O.count sk }

/-- `count()` (src/h2b.rs lines 276-280, identical in h3b): the f64
computation `(2.0.powf(t) * STREAMS * ln(1/(1 - count/STREAMS))) as u64`,
modelled over the reals with truncation as the integer floor (the value is
non-negative whenever `count < STREAMS`). -/
noncomputable def countEstimate {σ : Type} (O : SketchOps σ) (e : HyperTwoBits σ) : ℤ :=
  ⌊(2 : ℝ) ^ e.t * (O.STREAMS : ℝ) *
    Real.log (1 / (1 - (e.count : ℝ) / (O.STREAMS : ℝ)))⌋

/-- The store-level facts the estimator proofs rely on, stated for an
operation record `O` with a representation invariant `Wf` and maximum
level `L`; they are proved below for each concrete store of the crate. -/
structure SketchLaws (σ : Type) (L : ℕ) (O : SketchOps σ) (Wf : σ → Prop) : Prop where
  streams_pos : 0 < O.STREAMS
  stream_lt : ∀ h : ℕ, h < 2 ^ 64 → h >>> O.IDX_SHIFT < O.STREAMS
  wf_default : Wf O.dflt
  count_default : O.count O.dflt = 0
  wf_set : ∀ s i v, Wf s → i < O.STREAMS → v ≤ L → Wf (O.set s i v)
  wf_decrement : ∀ s, Wf s → Wf (O.decrement s).1
  val_le : ∀ s i, O.val s i ≤ L
  val_set_self : ∀ s i v, Wf s → i < O.STREAMS → v ≤ L → O.val (O.set s i v) i = v
  val_set_other : ∀ s i v j, Wf s → i < O.STREAMS → j < O.STREAMS → j ≠ i →
    O.val (O.set s i v) j = O.val s j
  count_set_activate : ∀ s i v, Wf s → i < O.STREAMS → O.val s i = 0 → v ≠ 0 → v ≤ L →
    O.count (O.set s i v) = O.count s + 1
  count_set_keep : ∀ s i v, Wf s → i < O.STREAMS → O.val s i ≠ 0 → v ≠ 0 → v ≤ L →
    O.count (O.set s i v) = O.count s
  decrement_count : ∀ s, Wf s → (O.decrement s).2 = O.count (O.decrement s).1
  decrement_val : ∀ s i, Wf s → i < O.STREAMS → O.val (O.decrement s).1 i = O.val s i - 1

/-- The `Sketch` implementation of the two-bit `M64`
(src/h2b/sketch.rs, `impl Sketch for M64`). -/
def h2bM64Ops : SketchOps H2B.M64 :=
  { STREAMS := 64
    HASH_MASK := 2 ^ 58 - 1
    IDX_SHIFT := 58
    val := H2B.M64.val
    set := H2B.M64.set
    decrement := H2B.M64.decrement
    count := H2B.M64.count
    merge := H2B.M64.merge
    mergeHighIntoLo := H2B.M64.mergeHighIntoLo
    dflt := H2B.M64.default }

theorem h2bM64Laws : SketchLaws H2B.M64 3 h2bM64Ops H2B.M64.Wf :=
  { streams_pos := by norm_num [h2bM64Ops]
    stream_lt := by
      intro h hh
      show h >>> 58 < 64
      rw [Nat.shiftRight_eq_div_pow]
      apply Nat.div_lt_of_lt_mul
      norm_num at hh ⊢
      omega
    wf_default := ⟨by norm_num [h2bM64Ops, H2B.M64.default],
      by norm_num [h2bM64Ops, H2B.M64.default]⟩
    count_default := by decide
    wf_set := fun s i v hw hi _ => H2B.M64.wf_set_m64 s i v hw hi
    wf_decrement := fun s hw => H2B.M64.wf_decrement_m64 s hw
    val_le := fun s i => H2B.M64.val_le_three_m64 s i
    val_set_self := fun s i v _ hi hv => H2B.M64.val_set_self_m64 s i v hi hv
    val_set_other := fun s i v j _ _ hj hne => H2B.M64.val_set_other_m64 s i v j hj hne
    count_set_activate := fun s i v hw hi h0 hv hvL =>
      H2B.M64.count_set_activate_m64 s i v hw hi h0 hv hvL
    count_set_keep := fun s i v hw hi h0 hv hvL =>
      H2B.M64.count_set_keep_m64 s i v hw hi h0 hv hvL
    decrement_count := fun s hw => H2B.M64.decrement_count_m64 s hw
    decrement_val := fun s i _ hi => H2B.M64.decrement_val_m64 s i hi }

/-- The `Sketch` implementations of the vectored two-bit stores
(`M256` … `M8192` in src/h2b/sketch.rs): the shared `M128Reg` code plus the
per-width constants.  In each impl `HASH_MASK` equals `2 ^ IDX_SHIFT - 1`. -/
def h2bRegOps (streams shift : ℕ) : SketchOps H2B.M128Reg :=
  { STREAMS := streams
    HASH_MASK := 2 ^ shift - 1
    IDX_SHIFT := shift
    val := H2B.M128Reg.val
    set := H2B.M128Reg.set
    decrement := H2B.M128Reg.decrement
    count := H2B.M128Reg.count
    merge := H2B.M128Reg.merge
    mergeHighIntoLo := H2B.M128Reg.mergeHighIntoLo
    dflt := H2B.M128Reg.defaultR (streams / 128) }

theorem h2bRegLaws (R streams shift : ℕ) (hstreams : streams = 128 * R)
    (hR : 0 < R) (hshift : shift ≤ 64) (hpow : 2 ^ (64 - shift) ≤ streams) :
    SketchLaws H2B.M128Reg 3 (h2bRegOps streams shift) (H2B.M128Reg.Wf R) :=
  { streams_pos := by
      show 0 < streams
      omega
    stream_lt := by
      intro h hh
      show h >>> shift < streams
      rw [Nat.shiftRight_eq_div_pow]
      apply lt_of_lt_of_le _ hpow
      apply Nat.div_lt_of_lt_mul
      have hpe : 2 ^ shift * 2 ^ (64 - shift) = 2 ^ 64 := by
        rw [← pow_add]
        congr 1
        omega
      omega
    wf_default := by
      show (H2B.M128Reg.defaultR (streams / 128)).Wf R
      have : streams / 128 = R := by omega
      rw [this]
      exact H2B.M128Reg.wf_default_reg R
    count_default := by
      show (H2B.M128Reg.defaultR (streams / 128)).count = 0
      exact H2B.M128Reg.count_default_reg _
    wf_set := fun s i v hw hi _ =>
      H2B.M128Reg.wf_set_reg R s i v hw (by have h9 : i < streams := hi; omega)
    wf_decrement := fun s hw => H2B.M128Reg.wf_decrement_reg R s hw
    val_le := fun s i => H2B.M128Reg.val_le_three_reg s i
    val_set_self := fun s i v hw hi hv =>
      H2B.M128Reg.val_set_self_reg R s i v hw (by have h9 : i < streams := hi; omega) hv
    val_set_other := fun s i v j hw hi hj hne =>
      H2B.M128Reg.val_set_other_reg R s i v j hw (by have h9 : i < streams := hi; omega)
        (by have h9 : j < streams := hj; omega) hne
    count_set_activate := fun s i v hw hi h0 hv hvL =>
      H2B.M128Reg.count_set_activate_reg R s i v hw
        (by have h9 : i < streams := hi; omega) h0 hv hvL
    count_set_keep := fun s i v hw hi h0 hv hvL =>
      H2B.M128Reg.count_set_keep_reg R s i v hw
        (by have h9 : i < streams := hi; omega) h0 hv hvL
    decrement_count := fun s hw => H2B.M128Reg.decrement_count_reg R s hw
    decrement_val := fun s i hw hi =>
      H2B.M128Reg.decrement_val_reg R s i hw (by have h9 : i < streams := hi; omega) }

/-- The `Sketch` implementation of the three-bit `M64`
(src/h3b/sketch.rs, `impl Sketch for M64`, trait-default `decrement`). -/
def h3bM64Ops : SketchOps H3B.M64 :=
  { STREAMS := 64
    HASH_MASK := 2 ^ 58 - 1
    IDX_SHIFT := 58
    val := H3B.M64.val
    set := H3B.M64.set
    decrement := H3B.M64.decrement
    count := H3B.M64.count
    merge := H3B.M64.merge
    mergeHighIntoLo := H3B.M64.mergeHighIntoLo
    dflt := H3B.M64.default }

theorem h3bM64Laws : SketchLaws H3B.M64 7 h3bM64Ops H3B.M64.Wf :=
  { streams_pos := by norm_num [h3bM64Ops]
    stream_lt := by
      intro h hh
      show h >>> 58 < 64
      rw [Nat.shiftRight_eq_div_pow]
      apply Nat.div_lt_of_lt_mul
      norm_num at hh ⊢
      omega
    wf_default := ⟨by norm_num [h3bM64Ops, H3B.M64.default],
      by norm_num [h3bM64Ops, H3B.M64.default],
      by norm_num [h3bM64Ops, H3B.M64.default]⟩
    count_default := by decide
    wf_set := fun s i v hw hi _ => H3B.M64.wf_set_m64h3 s i v hw hi
    wf_decrement := fun s hw => H3B.M64.wf_decrement_m64h3 s hw
    val_le := fun s i => H3B.M64.val_le_seven_m64h3 s i
    val_set_self := fun s i v _ hi hv => H3B.M64.val_set_self_m64h3 s i v hi hv
    val_set_other := fun s i v j _ _ hj hne => H3B.M64.val_set_other_m64h3 s i v j hj hne
    count_set_activate := fun s i v hw hi h0 hv hvL =>
      H3B.M64.count_set_activate_m64h3 s i v hw hi h0 hv hvL
    count_set_keep := fun s i v hw hi h0 hv hvL =>
      H3B.M64.count_set_keep_m64h3 s i v hw hi h0 hv hvL
    decrement_count := fun s _ => H3B.M64.decrement_count_m64h3 s
    decrement_val := fun s i hw hi => H3B.M64.decrement_val_m64h3 s i hw hi }

/-- The `Sketch` implementations of the vectored three-bit stores
(src/h3b/sketch.rs): shared `M128Reg` code, per-width constants,
trait-default `decrement` looping over `0..STREAMS`. -/
def h3bRegOps (streams shift : ℕ) : SketchOps H3B.M128Reg :=
  { STREAMS := streams
    HASH_MASK := 2 ^ shift - 1
    IDX_SHIFT := shift
    val := H3B.M128Reg.val
    set := H3B.M128Reg.set
    decrement := H3B.M128Reg.decrementW streams
    count := H3B.M128Reg.count
    merge := H3B.M128Reg.merge
    mergeHighIntoLo := H3B.M128Reg.mergeHighIntoLo
    dflt := H3B.M128Reg.defaultR (streams / 128) }

theorem h3bRegLaws (R streams shift : ℕ) (hstreams : streams = 128 * R)
    (hR : 0 < R) (hshift : shift ≤ 64) (hpow : 2 ^ (64 - shift) ≤ streams) :
    SketchLaws H3B.M128Reg 7 (h3bRegOps streams shift) (H3B.M128Reg.Wf R) :=
  { streams_pos := by
      show 0 < streams
      omega
    stream_lt := by
      intro h hh
      show h >>> shift < streams
      rw [Nat.shiftRight_eq_div_pow]
      apply lt_of_lt_of_le _ hpow
      apply Nat.div_lt_of_lt_mul
      have hpe : 2 ^ shift * 2 ^ (64 - shift) = 2 ^ 64 := by
        rw [← pow_add]
        congr 1
        omega
      omega
    wf_default := by
      show (H3B.M128Reg.defaultR (streams / 128)).Wf R
      have : streams / 128 = R := by omega
      rw [this]
      exact H3B.M128Reg.wf_default_regh3 R
    count_default := by
      show (H3B.M128Reg.defaultR (streams / 128)).count = 0
      exact H3B.M128Reg.count_default_regh3 _
    wf_set := fun s i v hw hi _ =>
      H3B.M128Reg.wf_set_regh3 R s i v hw (by have h9 : i < streams := hi; omega)
    wf_decrement := fun s hw =>
      H3B.M128Reg.wf_decrementW_regh3 R streams s hw (by omega)
    val_le := fun s i => H3B.M128Reg.val_le_seven_regh3 s i
    val_set_self := fun s i v hw hi hv =>
      H3B.M128Reg.val_set_self_regh3 R s i v hw (by have h9 : i < streams := hi; omega) hv
    val_set_other := fun s i v j hw hi hj hne =>
      H3B.M128Reg.val_set_other_regh3 R s i v j hw (by have h9 : i < streams := hi; omega)
        (by have h9 : j < streams := hj; omega) hne
    count_set_activate := fun s i v hw hi h0 hv hvL =>
      H3B.M128Reg.count_set_activate_regh3 R s i v hw
        (by have h9 : i < streams := hi; omega) h0 hv hvL
    count_set_keep := fun s i v hw hi h0 hv hvL =>
      H3B.M128Reg.count_set_keep_regh3 R s i v hw
        (by have h9 : i < streams := hi; omega) h0 hv hvL
    decrement_count := fun s _ => H3B.M128Reg.decrementW_count_regh3 streams s
    decrement_val := fun s i hw hi =>
      H3B.M128Reg.decrementW_val_regh3 R streams s i hw (by omega)
        (by have h9 : i < streams := hi; omega) }

/-- The level that the two-bit promotion chain targets for a residual with
`w` trailing ones at generation `t`: the largest level among 1..3 whose
threshold (`t`, `t+4`, `t+8`) is met, 0 if none is. -/
def levelFor2 (t w : ℕ) : ℕ :=
  if w ≥ t + 8 then 3 else if w ≥ t + 4 then 2 else if w ≥ t then 1 else 0

/-- The analogous target level of the three-bit chain: thresholds
`t, t+4, t+8, t+16, t+32, t+64, t+128` for levels 1..7. -/
def levelFor3 (t w : ℕ) : ℕ :=
  if w ≥ t + 128 then 7 else if w ≥ t + 64 then 6 else if w ≥ t + 32 then 5 else
    if w ≥ t + 16 then 4 else if w ≥ t + 8 then 3 else if w ≥ t + 4 then 2 else
      if w ≥ t then 1 else 0

/-- One promotion step beyond the first: `if c ∧ val < v { set(stream, v) }`
raises the running maximum, leaves the rest of the store and its active
count unchanged. -/
theorem promote_step {σ : Type} {L : ℕ} (O : SketchOps σ) (Wf : σ → Prop)
    (hL : SketchLaws σ L O Wf) (s : σ) (hwf : Wf s) (stream : ℕ)
    (hstream : stream < O.STREAMS) (x v prev : ℕ) (hv : 1 ≤ v)
    (hvL : v ≤ L) (hprev : prev < v) (hval : O.val s stream = max x prev)
    (c : Prop) [Decidable c] (hc1 : c → 1 ≤ max x prev) :
    Wf (if c ∧ O.val s stream < v then O.set s stream v else s) ∧
    O.val (if c ∧ O.val s stream < v then O.set s stream v else s) stream =
      max x (if c then v else prev) ∧
    (∀ j, j < O.STREAMS → j ≠ stream →
      O.val (if c ∧ O.val s stream < v then O.set s stream v else s) j = O.val s j) ∧
    O.count (if c ∧ O.val s stream < v then O.set s stream v else s) = O.count s := by
  by_cases hcond : c ∧ O.val s stream < v
  · rw [if_pos hcond, if_pos hcond.1]
    obtain ⟨hc, hlt⟩ := hcond
    have hne : O.val s stream ≠ 0 := by
      have := hc1 hc
      omega
    refine ⟨hL.wf_set s stream v hwf hstream hvL, ?_, ?_, ?_⟩
    · rw [hL.val_set_self s stream v hwf hstream hvL]
      rw [hval] at hlt
      omega
    · intro j hj hjne
      exact hL.val_set_other s stream v j hwf hstream hj hjne
    · exact hL.count_set_keep s stream v hwf hstream hne (by omega) hvL
  · rw [if_neg hcond]
    refine ⟨hwf, ?_, fun j _ _ => rfl, rfl⟩
    rw [hval]
    by_cases hc : c
    · rw [if_pos hc]
      have : ¬ O.val s stream < v := fun hlt => hcond ⟨hc, hlt⟩
      rw [hval] at this
      omega
    · rw [if_neg hc]

/-- The first promotion step: `if c ∧ val < 1 { count += 1; set(stream, 1) }`.
It alone touches the cached count, and preserves the count invariant. -/
theorem promote_step1 {σ : Type} {L : ℕ} (O : SketchOps σ) (Wf : σ → Prop)
    (hL : SketchLaws σ L O Wf) (hL1 : 1 ≤ L) (e : HyperTwoBits σ) (stream : ℕ)
    (hstream : stream < O.STREAMS) (hwf : Wf e.sketch) (c : Prop) [Decidable c] :
    Wf (if c ∧ O.val e.sketch stream < 1 then
        { e with count := e.count + 1, sketch := O.set e.sketch stream 1 }
      else e).sketch ∧
    (if c ∧ O.val e.sketch stream < 1 then
        { e with count := e.count + 1, sketch := O.set e.sketch stream 1 }
      else e).t = e.t ∧
    (if c ∧ O.val e.sketch stream < 1 then
        { e with count := e.count + 1, sketch := O.set e.sketch stream 1 }
      else e).hash = e.hash ∧
    O.val (if c ∧ O.val e.sketch stream < 1 then
        { e with count := e.count + 1, sketch := O.set e.sketch stream 1 }
      else e).sketch stream = max (O.val e.sketch stream) (if c then 1 else 0) ∧
    (∀ j, j < O.STREAMS → j ≠ stream →
      O.val (if c ∧ O.val e.sketch stream < 1 then
          { e with count := e.count + 1, sketch := O.set e.sketch stream 1 }
        else e).sketch j = O.val e.sketch j) ∧
    (e.count = O.count e.sketch →
      (if c ∧ O.val e.sketch stream < 1 then
          { e with count := e.count + 1, sketch := O.set e.sketch stream 1 }
        else e).count =
        O.count (if c ∧ O.val e.sketch stream < 1 then
            { e with count := e.count + 1, sketch := O.set e.sketch stream 1 }
          else e).sketch) := by
  by_cases hcond : c ∧ O.val e.sketch stream < 1
  · rw [if_pos hcond, if_pos hcond.1]
    obtain ⟨hc, hlt⟩ := hcond
    have h0 : O.val e.sketch stream = 0 := by omega
    refine ⟨hL.wf_set e.sketch stream 1 hwf hstream hL1, rfl, rfl, ?_, ?_, ?_⟩
    · rw [hL.val_set_self e.sketch stream 1 hwf hstream hL1]
      omega
    · intro j hj hjne
      exact hL.val_set_other e.sketch stream 1 j hwf hstream hj hjne
    · intro hinv
      show e.count + 1 = O.count (O.set e.sketch stream 1)
      rw [hL.count_set_activate e.sketch stream 1 hwf hstream h0 (by omega) hL1, hinv]
  · rw [if_neg hcond]
    refine ⟨hwf, rfl, rfl, ?_, fun j _ _ => rfl, fun hinv => hinv⟩
    by_cases hc : c
    · rw [if_pos hc]
      have : ¬ O.val e.sketch stream < 1 := fun hlt => hcond ⟨hc, hlt⟩
      omega
    · rw [if_neg hc]
      omega

theorem insertValue2_spec {σ : Type} {L : ℕ} (O : SketchOps σ) (Wf : σ → Prop)
    (hL : SketchLaws σ L O Wf) (hL3 : 3 ≤ L) (e : HyperTwoBits σ) (hash : ℕ)
    (hh : hash < 2 ^ 64) (hwf : Wf e.sketch) :
    Wf (insertValue2 O e hash).sketch ∧
    (insertValue2 O e hash).t = e.t ∧
    (insertValue2 O e hash).hash = e.hash ∧
    O.val (insertValue2 O e hash).sketch (hash >>> O.IDX_SHIFT) =
      max (O.val e.sketch (hash >>> O.IDX_SHIFT))
        (levelFor2 e.t (trailingOnes (hash &&& O.HASH_MASK))) ∧
    (∀ j, j < O.STREAMS → j ≠ hash >>> O.IDX_SHIFT →
      O.val (insertValue2 O e hash).sketch j = O.val e.sketch j) ∧
    (e.count = O.count e.sketch →
      (insertValue2 O e hash).count = O.count (insertValue2 O e hash).sketch) := by
  have hstream : hash >>> O.IDX_SHIFT < O.STREAMS := hL.stream_lt hash hh
  have hxL : O.val e.sketch (hash >>> O.IDX_SHIFT) ≤ L := hL.val_le _ _
  simp only [insertValue2]
  obtain ⟨w1, t1, hh1, v1, o1, c1⟩ := promote_step1 O Wf hL (by omega) e
    (hash >>> O.IDX_SHIFT) hstream hwf
    (trailingOnes (hash &&& O.HASH_MASK) ≥ e.t)
  generalize hE1 : (if trailingOnes (hash &&& O.HASH_MASK) ≥ e.t ∧
      O.val e.sketch (hash >>> O.IDX_SHIFT) < 1 then
      { e with count := e.count + 1, sketch := O.set e.sketch (hash >>> O.IDX_SHIFT) 1 }
    else e) = E1 at w1 t1 hh1 v1 o1 c1 ⊢
  obtain ⟨w2, v2, o2, n2⟩ := promote_step O Wf hL E1.sketch w1 (hash >>> O.IDX_SHIFT)
    hstream (O.val e.sketch (hash >>> O.IDX_SHIFT)) 2
    (if trailingOnes (hash &&& O.HASH_MASK) ≥ e.t then 1 else 0) (by omega)
    (by omega) (by split <;> omega) v1
    (trailingOnes (hash &&& O.HASH_MASK) ≥ E1.t + 4)
    (by
      intro hc
      rw [t1] at hc
      rw [if_pos (by omega : trailingOnes (hash &&& O.HASH_MASK) ≥ e.t)]
      omega)
  have hsk2 : (if trailingOnes (hash &&& O.HASH_MASK) ≥ E1.t + 4 ∧
      O.val E1.sketch (hash >>> O.IDX_SHIFT) < 2 then
      { E1 with sketch := O.set E1.sketch (hash >>> O.IDX_SHIFT) 2 } else E1).sketch =
      (if trailingOnes (hash &&& O.HASH_MASK) ≥ E1.t + 4 ∧
        O.val E1.sketch (hash >>> O.IDX_SHIFT) < 2 then
        O.set E1.sketch (hash >>> O.IDX_SHIFT) 2 else E1.sketch) := by
    split <;> rfl
  have hcnt2 : (if trailingOnes (hash &&& O.HASH_MASK) ≥ E1.t + 4 ∧
      O.val E1.sketch (hash >>> O.IDX_SHIFT) < 2 then
      { E1 with sketch := O.set E1.sketch (hash >>> O.IDX_SHIFT) 2 } else E1).count =
      E1.count := by
    split <;> rfl
  have ht2 : (if trailingOnes (hash &&& O.HASH_MASK) ≥ E1.t + 4 ∧
      O.val E1.sketch (hash >>> O.IDX_SHIFT) < 2 then
      { E1 with sketch := O.set E1.sketch (hash >>> O.IDX_SHIFT) 2 } else E1).t =
      E1.t := by
    split <;> rfl
  have hhash2 : (if trailingOnes (hash &&& O.HASH_MASK) ≥ E1.t + 4 ∧
      O.val E1.sketch (hash >>> O.IDX_SHIFT) < 2 then
      { E1 with sketch := O.set E1.sketch (hash >>> O.IDX_SHIFT) 2 } else E1).hash =
      E1.hash := by
    split <;> rfl
  generalize hE2 : (if trailingOnes (hash &&& O.HASH_MASK) ≥ E1.t + 4 ∧
      O.val E1.sketch (hash >>> O.IDX_SHIFT) < 2 then
      { E1 with sketch := O.set E1.sketch (hash >>> O.IDX_SHIFT) 2 } else E1) = E2
    at hsk2 hcnt2 ht2 hhash2 ⊢
  obtain ⟨w3, v3, o3, n3⟩ := promote_step O Wf hL E2.sketch (by rw [hsk2]; exact w2)
    (hash >>> O.IDX_SHIFT) hstream (O.val e.sketch (hash >>> O.IDX_SHIFT)) 3
    (if trailingOnes (hash &&& O.HASH_MASK) ≥ E1.t + 4 then 2
      else if trailingOnes (hash &&& O.HASH_MASK) ≥ e.t then 1 else 0)
    (by omega) (by omega) (by split <;> [omega; split <;> omega])
    (by rw [hsk2]; exact v2)
    (trailingOnes (hash &&& O.HASH_MASK) ≥ E2.t + 8)
    (by
      intro hc
      rw [ht2, t1] at hc
      rw [if_pos (by rw [t1]; omega : trailingOnes (hash &&& O.HASH_MASK) ≥ E1.t + 4)]
      omega)
  have hsk3 : (if trailingOnes (hash &&& O.HASH_MASK) ≥ E2.t + 8 ∧
      O.val E2.sketch (hash >>> O.IDX_SHIFT) < 3 then
      { E2 with sketch := O.set E2.sketch (hash >>> O.IDX_SHIFT) 3 } else E2).sketch =
      (if trailingOnes (hash &&& O.HASH_MASK) ≥ E2.t + 8 ∧
        O.val E2.sketch (hash >>> O.IDX_SHIFT) < 3 then
        O.set E2.sketch (hash >>> O.IDX_SHIFT) 3 else E2.sketch) := by
    split <;> rfl
  have hcnt3 : (if trailingOnes (hash &&& O.HASH_MASK) ≥ E2.t + 8 ∧
      O.val E2.sketch (hash >>> O.IDX_SHIFT) < 3 then
      { E2 with sketch := O.set E2.sketch (hash >>> O.IDX_SHIFT) 3 } else E2).count =
      E2.count := by
    split <;> rfl
  have ht3 : (if trailingOnes (hash &&& O.HASH_MASK) ≥ E2.t + 8 ∧
      O.val E2.sketch (hash >>> O.IDX_SHIFT) < 3 then
      { E2 with sketch := O.set E2.sketch (hash >>> O.IDX_SHIFT) 3 } else E2).t =
      E2.t := by
    split <;> rfl
  have hhash3 : (if trailingOnes (hash &&& O.HASH_MASK) ≥ E2.t + 8 ∧
      O.val E2.sketch (hash >>> O.IDX_SHIFT) < 3 then
      { E2 with sketch := O.set E2.sketch (hash >>> O.IDX_SHIFT) 3 } else E2).hash =
      E2.hash := by
    split <;> rfl
  generalize hE3 : (if trailingOnes (hash &&& O.HASH_MASK) ≥ E2.t + 8 ∧
      O.val E2.sketch (hash >>> O.IDX_SHIFT) < 3 then
      { E2 with sketch := O.set E2.sketch (hash >>> O.IDX_SHIFT) 3 } else E2) = E3
    at hsk3 hcnt3 ht3 hhash3 ⊢
  refine ⟨by rw [hsk3]; exact w3, by rw [ht3, ht2, t1], by rw [hhash3, hhash2, hh1],
    ?_, ?_, ?_⟩
  · rw [hsk3, v3, ht2, t1, levelFor2]
  · intro j hj hjne
    rw [hsk3, o3 j hj hjne, hsk2, o2 j hj hjne]
    exact o1 j hj hjne
  · intro hinv
    rw [hcnt3, hcnt2, hsk3, n3, hsk2, n2]
    exact c1 hinv


theorem insertValue3_spec {σ : Type} {L : ℕ} (O : SketchOps σ) (Wf : σ → Prop)
    (hL : SketchLaws σ L O Wf) (hL7 : 7 ≤ L) (e : HyperTwoBits σ) (hash : ℕ)
    (hh : hash < 2 ^ 64) (hwf : Wf e.sketch) :
    Wf (insertValue3 O e hash).sketch ∧
    (insertValue3 O e hash).t = e.t ∧
    (insertValue3 O e hash).hash = e.hash ∧
    O.val (insertValue3 O e hash).sketch (hash >>> O.IDX_SHIFT) =
      max (O.val e.sketch (hash >>> O.IDX_SHIFT))
        (levelFor3 e.t (trailingOnes (hash &&& O.HASH_MASK))) ∧
    (∀ j, j < O.STREAMS → j ≠ hash >>> O.IDX_SHIFT →
      O.val (insertValue3 O e hash).sketch j = O.val e.sketch j) ∧
    (e.count = O.count e.sketch →
      (insertValue3 O e hash).count = O.count (insertValue3 O e hash).sketch) := by
  have hstream : hash >>> O.IDX_SHIFT < O.STREAMS := hL.stream_lt hash hh
  have hxL : O.val e.sketch (hash >>> O.IDX_SHIFT) ≤ L := hL.val_le _ _
  obtain ⟨efin, he'⟩ : ∃ efin, insertValue3 O e hash = efin := ⟨_, rfl⟩
  rw [he']
  delta insertValue3 at he'
  lift_lets at he'
  extract_lets strm hsh E1 E2 E3 E4 E5 E6 E7 at he'
  have hstrm : strm < O.STREAMS := hstream
  have hxL2 : O.val e.sketch strm ≤ L := hxL
  obtain ⟨w1, t1, hh1, v1, o1, c1⟩ :
      Wf E1.sketch ∧ E1.t = e.t ∧ E1.hash = e.hash ∧
      O.val E1.sketch strm =
        max (O.val e.sketch strm) (if trailingOnes hsh ≥ e.t then 1 else 0) ∧
      (∀ j, j < O.STREAMS → j ≠ strm → O.val E1.sketch j = O.val e.sketch j) ∧
      (e.count = O.count e.sketch → E1.count = O.count E1.sketch) :=
    promote_step1 O Wf hL (by omega) e strm hstrm hwf (trailingOnes hsh ≥ e.t)
  obtain ⟨w2, v2, o2, n2⟩ := promote_step O Wf hL E1.sketch w1
    strm hstrm (O.val e.sketch strm) 2
    (if trailingOnes hsh ≥ e.t then 1 else 0)
    (by omega) (by omega)
    (by split_ifs <;> omega)
    v1
    (trailingOnes hsh ≥ E1.t + 4)
    (by
      intro hc
      simp only [t1] at hc ⊢
      split_ifs <;> omega)
  have hsk2 : E2.sketch = (if trailingOnes hsh ≥ E1.t + 4 ∧ O.val E1.sketch strm < 2 then O.set E1.sketch strm 2 else E1.sketch) := by
    show (if trailingOnes hsh ≥ E1.t + 4 ∧ O.val E1.sketch strm < 2 then
        { E1 with sketch := O.set E1.sketch strm 2 } else E1).sketch = _
    split <;> rfl
  have hcnt2 : E2.count = E1.count := by
    show (if trailingOnes hsh ≥ E1.t + 4 ∧ O.val E1.sketch strm < 2 then
        { E1 with sketch := O.set E1.sketch strm 2 } else E1).count = _
    split <;> rfl
  have ht2 : E2.t = E1.t := by
    show (if trailingOnes hsh ≥ E1.t + 4 ∧ O.val E1.sketch strm < 2 then
        { E1 with sketch := O.set E1.sketch strm 2 } else E1).t = _
    split <;> rfl
  have hhash2 : E2.hash = E1.hash := by
    show (if trailingOnes hsh ≥ E1.t + 4 ∧ O.val E1.sketch strm < 2 then
        { E1 with sketch := O.set E1.sketch strm 2 } else E1).hash = _
    split <;> rfl
  obtain ⟨w3, v3, o3, n3⟩ := promote_step O Wf hL E2.sketch (by rw [hsk2]; exact w2)
    strm hstrm (O.val e.sketch strm) 3
    (if trailingOnes hsh ≥ E1.t + 4 then 2 else (if trailingOnes hsh ≥ e.t then 1 else 0))
    (by omega) (by omega)
    (by simp only [ht2, t1]; split_ifs <;> omega)
    (by rw [hsk2]; exact v2)
    (trailingOnes hsh ≥ E2.t + 8)
    (by
      intro hc
      simp only [ht2, t1] at hc ⊢
      split_ifs <;> omega)
  have hsk3 : E3.sketch = (if trailingOnes hsh ≥ E2.t + 8 ∧ O.val E2.sketch strm < 3 then O.set E2.sketch strm 3 else E2.sketch) := by
    show (if trailingOnes hsh ≥ E2.t + 8 ∧ O.val E2.sketch strm < 3 then
        { E2 with sketch := O.set E2.sketch strm 3 } else E2).sketch = _
    split <;> rfl
  have hcnt3 : E3.count = E2.count := by
    show (if trailingOnes hsh ≥ E2.t + 8 ∧ O.val E2.sketch strm < 3 then
        { E2 with sketch := O.set E2.sketch strm 3 } else E2).count = _
    split <;> rfl
  have ht3 : E3.t = E2.t := by
    show (if trailingOnes hsh ≥ E2.t + 8 ∧ O.val E2.sketch strm < 3 then
        { E2 with sketch := O.set E2.sketch strm 3 } else E2).t = _
    split <;> rfl
  have hhash3 : E3.hash = E2.hash := by
    show (if trailingOnes hsh ≥ E2.t + 8 ∧ O.val E2.sketch strm < 3 then
        { E2 with sketch := O.set E2.sketch strm 3 } else E2).hash = _
    split <;> rfl
  obtain ⟨w4, v4, o4, n4⟩ := promote_step O Wf hL E3.sketch (by rw [hsk3]; exact w3)
    strm hstrm (O.val e.sketch strm) 4
    (if trailingOnes hsh ≥ E2.t + 8 then 3 else (if trailingOnes hsh ≥ E1.t + 4 then 2 else (if trailingOnes hsh ≥ e.t then 1 else 0)))
    (by omega) (by omega)
    (by simp only [ht3, ht2, t1]; split_ifs <;> omega)
    (by rw [hsk3]; exact v3)
    (trailingOnes hsh ≥ E3.t + 16)
    (by
      intro hc
      simp only [ht3, ht2, t1] at hc ⊢
      split_ifs <;> omega)
  have hsk4 : E4.sketch = (if trailingOnes hsh ≥ E3.t + 16 ∧ O.val E3.sketch strm < 4 then O.set E3.sketch strm 4 else E3.sketch) := by
    show (if trailingOnes hsh ≥ E3.t + 16 ∧ O.val E3.sketch strm < 4 then
        { E3 with sketch := O.set E3.sketch strm 4 } else E3).sketch = _
    split <;> rfl
  have hcnt4 : E4.count = E3.count := by
    show (if trailingOnes hsh ≥ E3.t + 16 ∧ O.val E3.sketch strm < 4 then
        { E3 with sketch := O.set E3.sketch strm 4 } else E3).count = _
    split <;> rfl
  have ht4 : E4.t = E3.t := by
    show (if trailingOnes hsh ≥ E3.t + 16 ∧ O.val E3.sketch strm < 4 then
        { E3 with sketch := O.set E3.sketch strm 4 } else E3).t = _
    split <;> rfl
  have hhash4 : E4.hash = E3.hash := by
    show (if trailingOnes hsh ≥ E3.t + 16 ∧ O.val E3.sketch strm < 4 then
        { E3 with sketch := O.set E3.sketch strm 4 } else E3).hash = _
    split <;> rfl
  obtain ⟨w5, v5, o5, n5⟩ := promote_step O Wf hL E4.sketch (by rw [hsk4]; exact w4)
    strm hstrm (O.val e.sketch strm) 5
    (if trailingOnes hsh ≥ E3.t + 16 then 4 else (if trailingOnes hsh ≥ E2.t + 8 then 3 else (if trailingOnes hsh ≥ E1.t + 4 then 2 else (if trailingOnes hsh ≥ e.t then 1 else 0))))
    (by omega) (by omega)
    (by simp only [ht4, ht3, ht2, t1]; split_ifs <;> omega)
    (by rw [hsk4]; exact v4)
    (trailingOnes hsh ≥ E4.t + 32)
    (by
      intro hc
      simp only [ht4, ht3, ht2, t1] at hc ⊢
      split_ifs <;> omega)
  have hsk5 : E5.sketch = (if trailingOnes hsh ≥ E4.t + 32 ∧ O.val E4.sketch strm < 5 then O.set E4.sketch strm 5 else E4.sketch) := by
    show (if trailingOnes hsh ≥ E4.t + 32 ∧ O.val E4.sketch strm < 5 then
        { E4 with sketch := O.set E4.sketch strm 5 } else E4).sketch = _
    split <;> rfl
  have hcnt5 : E5.count = E4.count := by
    show (if trailingOnes hsh ≥ E4.t + 32 ∧ O.val E4.sketch strm < 5 then
        { E4 with sketch := O.set E4.sketch strm 5 } else E4).count = _
    split <;> rfl
  have ht5 : E5.t = E4.t := by
    show (if trailingOnes hsh ≥ E4.t + 32 ∧ O.val E4.sketch strm < 5 then
        { E4 with sketch := O.set E4.sketch strm 5 } else E4).t = _
    split <;> rfl
  have hhash5 : E5.hash = E4.hash := by
    show (if trailingOnes hsh ≥ E4.t + 32 ∧ O.val E4.sketch strm < 5 then
        { E4 with sketch := O.set E4.sketch strm 5 } else E4).hash = _
    split <;> rfl
  obtain ⟨w6, v6, o6, n6⟩ := promote_step O Wf hL E5.sketch (by rw [hsk5]; exact w5)
    strm hstrm (O.val e.sketch strm) 6
    (if trailingOnes hsh ≥ E4.t + 32 then 5 else (if trailingOnes hsh ≥ E3.t + 16 then 4 else (if trailingOnes hsh ≥ E2.t + 8 then 3 else (if trailingOnes hsh ≥ E1.t + 4 then 2 else (if trailingOnes hsh ≥ e.t then 1 else 0)))))
    (by omega) (by omega)
    (by simp only [ht5, ht4, ht3, ht2, t1]; split_ifs <;> omega)
    (by rw [hsk5]; exact v5)
    (trailingOnes hsh ≥ E5.t + 64)
    (by
      intro hc
      simp only [ht5, ht4, ht3, ht2, t1] at hc ⊢
      split_ifs <;> omega)
  have hsk6 : E6.sketch = (if trailingOnes hsh ≥ E5.t + 64 ∧ O.val E5.sketch strm < 6 then O.set E5.sketch strm 6 else E5.sketch) := by
    show (if trailingOnes hsh ≥ E5.t + 64 ∧ O.val E5.sketch strm < 6 then
        { E5 with sketch := O.set E5.sketch strm 6 } else E5).sketch = _
    split <;> rfl
  have hcnt6 : E6.count = E5.count := by
    show (if trailingOnes hsh ≥ E5.t + 64 ∧ O.val E5.sketch strm < 6 then
        { E5 with sketch := O.set E5.sketch strm 6 } else E5).count = _
    split <;> rfl
  have ht6 : E6.t = E5.t := by
    show (if trailingOnes hsh ≥ E5.t + 64 ∧ O.val E5.sketch strm < 6 then
        { E5 with sketch := O.set E5.sketch strm 6 } else E5).t = _
    split <;> rfl
  have hhash6 : E6.hash = E5.hash := by
    show (if trailingOnes hsh ≥ E5.t + 64 ∧ O.val E5.sketch strm < 6 then
        { E5 with sketch := O.set E5.sketch strm 6 } else E5).hash = _
    split <;> rfl
  obtain ⟨w7, v7, o7, n7⟩ := promote_step O Wf hL E6.sketch (by rw [hsk6]; exact w6)
    strm hstrm (O.val e.sketch strm) 7
    (if trailingOnes hsh ≥ E5.t + 64 then 6 else (if trailingOnes hsh ≥ E4.t + 32 then 5 else (if trailingOnes hsh ≥ E3.t + 16 then 4 else (if trailingOnes hsh ≥ E2.t + 8 then 3 else (if trailingOnes hsh ≥ E1.t + 4 then 2 else (if trailingOnes hsh ≥ e.t then 1 else 0))))))
    (by omega) (by omega)
    (by simp only [ht6, ht5, ht4, ht3, ht2, t1]; split_ifs <;> omega)
    (by rw [hsk6]; exact v6)
    (trailingOnes hsh ≥ E6.t + 128)
    (by
      intro hc
      simp only [ht6, ht5, ht4, ht3, ht2, t1] at hc ⊢
      split_ifs <;> omega)
  have hsk7 : E7.sketch = (if trailingOnes hsh ≥ E6.t + 128 ∧ O.val E6.sketch strm < 7 then O.set E6.sketch strm 7 else E6.sketch) := by
    show (if trailingOnes hsh ≥ E6.t + 128 ∧ O.val E6.sketch strm < 7 then
        { E6 with sketch := O.set E6.sketch strm 7 } else E6).sketch = _
    split <;> rfl
  have hcnt7 : E7.count = E6.count := by
    show (if trailingOnes hsh ≥ E6.t + 128 ∧ O.val E6.sketch strm < 7 then
        { E6 with sketch := O.set E6.sketch strm 7 } else E6).count = _
    split <;> rfl
  have ht7 : E7.t = E6.t := by
    show (if trailingOnes hsh ≥ E6.t + 128 ∧ O.val E6.sketch strm < 7 then
        { E6 with sketch := O.set E6.sketch strm 7 } else E6).t = _
    split <;> rfl
  have hhash7 : E7.hash = E6.hash := by
    show (if trailingOnes hsh ≥ E6.t + 128 ∧ O.val E6.sketch strm < 7 then
        { E6 with sketch := O.set E6.sketch strm 7 } else E6).hash = _
    split <;> rfl
  subst he'
  refine ⟨by rw [hsk7]; exact w7, by rw [ht7, ht6, ht5, ht4, ht3, ht2, t1], by rw [hhash7, hhash6, hhash5, hhash4, hhash3, hhash2, hh1],
    ?_, ?_, ?_⟩
  · show O.val E7.sketch strm = max (O.val e.sketch strm) (levelFor3 e.t (trailingOnes hsh))
    rw [hsk7, v7]
    simp only [ht6, ht5, ht4, ht3, ht2, t1]
    rw [levelFor3]
  · intro j hj hjne
    have hjne2 : j ≠ strm := hjne
    show O.val E7.sketch j = O.val e.sketch j
    rw [hsk7, o7 j hj hjne2, hsk6, o6 j hj hjne2, hsk5, o5 j hj hjne2, hsk4, o4 j hj hjne2, hsk3, o3 j hj hjne2, hsk2, o2 j hj hjne2]
    exact o1 j hj hjne2
  · intro hinv
    show E7.count = O.count E7.sketch
    rw [hcnt7, hcnt6, hcnt5, hcnt4, hcnt3, hcnt2, hsk7, n7, hsk6, n6, hsk5, n5, hsk4, n4, hsk3, n3, hsk2, n2]
    exact c1 hinv

namespace H2B

/-- Two-bit sketch with 128 substreams in two 128-bit planes
(src/h2b/sketch.rs, `struct M128`); same algebra as `M64` at width 128. -/
structure M128 where
  low : ℕ
  high : ℕ
deriving DecidableEq, Repr

/-- `M128::default()`. -/
def M128.default : M128 := ⟨0, 0⟩

/-- `M128::val`. -/
def M128.val (s : M128) (stream : ℕ) : ℕ :=
  let high_bit := (s.high >>> stream) &&& 1
  let low_bit := (s.low >>> stream) &&& 1
  (high_bit <<< 1) ||| low_bit

/-- `M128::set`. -/
def M128.set (s : M128) (stream value : ℕ) : M128 :=
  let value_high_bit := (value >>> 1) &&& 1
  let value_low_bit := value &&& 1
  { high := (s.high &&& not128 (1 <<< stream)) ||| (value_high_bit <<< stream)
    low := (s.low &&& not128 (1 <<< stream)) ||| (value_low_bit <<< stream) }

/-- `M128::decrement`: the same closed form as `M64`. -/
def M128.decrement (s : M128) : M128 × ℕ :=
  let count := popCount s.high
  let low := s.high &&& not128 s.low
  let high := s.high &&& not128 low
  (⟨low, high⟩, count)

/-- `M128::count`. -/
def M128.count (s : M128) : ℕ := popCount (s.high ||| s.low)

/-- `M128::merge`. -/
def M128.merge (s other : M128) : M128 :=
  ⟨s.low ||| other.low, s.high ||| other.high⟩

/-- `M128::merge_high_into_lo`. -/
def M128.mergeHighIntoLo (s other : M128) : M128 :=
  { s with low := s.low ||| other.high }

/-- Both planes fit in a `u128`. -/
def M128.Wf (s : M128) : Prop := s.low < 2 ^ 128 ∧ s.high < 2 ^ 128

theorem M128.val_char_m128 (s : M128) (i : ℕ) :
    s.val i = (if s.high.testBit i then 2 else 0) + (if s.low.testBit i then 1 else 0) := by
  unfold M128.val
  rw [shiftRight_and_one, shiftRight_and_one]
  rcases s.high.testBit i <;> rcases s.low.testBit i <;> rfl

theorem M128.val_le_three_m128 (s : M128) (i : ℕ) : s.val i ≤ 3 := by
  rw [M128.val_char_m128]
  split <;> split <;> omega

theorem M128.testBit_set_high_m128 (s : M128) (i v j : ℕ) (hj : j < 128) :
    (s.set i v).high.testBit j =
      if j = i then v.testBit 1 else s.high.testBit j := by
  unfold M128.set
  simp only [Nat.testBit_or, Nat.testBit_and, testBit_not128 _ _ hj,
    Nat.testBit_shiftLeft, testBit_one_eq]
  by_cases h : j = i
  · subst h
    simp [Nat.testBit_shiftRight]
  · rcases Nat.lt_or_ge j i with hlt | hge
    · have h1 : ¬ j ≥ i := by omega
      simp [h1, h]
    · have h2 : j - i ≠ 0 := by omega
      simp [hge, h2, h]

theorem M128.testBit_set_low_m128 (s : M128) (i v j : ℕ) (hj : j < 128) :
    (s.set i v).low.testBit j =
      if j = i then v.testBit 0 else s.low.testBit j := by
  unfold M128.set
  simp only [Nat.testBit_or, Nat.testBit_and, testBit_not128 _ _ hj,
    Nat.testBit_shiftLeft, testBit_one_eq]
  by_cases h : j = i
  · subst h
    simp
  · rcases Nat.lt_or_ge j i with hlt | hge
    · have h1 : ¬ j ≥ i := by omega
      simp [h1, h]
    · have h2 : j - i ≠ 0 := by omega
      simp [hge, h2, h]

theorem M128.val_set_self_m128 (s : M128) (i v : ℕ) (hi : i < 128) (hv : v ≤ 3) :
    (s.set i v).val i = v := by
  have h1 := M128.testBit_set_high_m128 s i v i hi
  have h2 := M128.testBit_set_low_m128 s i v i hi
  rw [if_pos rfl] at h1 h2
  rw [M128.val_char_m128, h1, h2]
  interval_cases v <;> decide

theorem M128.val_set_other_m128 (s : M128) (i v j : ℕ) (hj : j < 128) (hne : j ≠ i) :
    (s.set i v).val j = s.val j := by
  have h1 := M128.testBit_set_high_m128 s i v j hj
  have h2 := M128.testBit_set_low_m128 s i v j hj
  rw [if_neg hne] at h1 h2
  rw [M128.val_char_m128, h1, h2, M128.val_char_m128]

theorem M128.val_eq_zero_iff_m128 (s : M128) (i : ℕ) :
    s.val i = 0 ↔ (s.high ||| s.low).testBit i = false := by
  rw [M128.val_char_m128, Nat.testBit_or]
  rcases s.high.testBit i <;> rcases s.low.testBit i <;> simp

theorem M128.wf_set_m128 (s : M128) (i v : ℕ) (hs : s.Wf) (hi : i < 128) :
    (s.set i v).Wf := by
  obtain ⟨hl, hh⟩ := hs
  constructor
  · exact Nat.or_lt_two_pow (and_lt_two_pow_left _ _ _ hl)
      (shiftLeft_bit_lt _ _ _ (by rw [Nat.and_one_is_mod]; omega) hi)
  · exact Nat.or_lt_two_pow (and_lt_two_pow_left _ _ _ hh)
      (shiftLeft_bit_lt _ _ _ (by rw [Nat.and_one_is_mod]; omega) hi)

theorem M128.wf_decrement_m128 (s : M128) (hs : s.Wf) : (s.decrement).1.Wf := by
  obtain ⟨_, hh⟩ := hs
  exact ⟨and_lt_two_pow_left _ _ _ hh, and_lt_two_pow_left _ _ _ hh⟩

theorem M128.decrement_val_m128 (s : M128) (i : ℕ) (hi : i < 128) :
    (s.decrement).1.val i = s.val i - 1 := by
  show (M128.mk (s.high &&& not128 s.low)
      (s.high &&& not128 (s.high &&& not128 s.low))).val i = s.val i - 1
  rw [M128.val_char_m128, M128.val_char_m128]
  simp only [Nat.testBit_and, testBit_not128 _ _ hi]
  rcases s.high.testBit i <;> rcases s.low.testBit i <;> simp

theorem M128.decrement_planes_or_m128 (s : M128) (hs : s.Wf) :
    (s.decrement).1.high ||| (s.decrement).1.low = s.high := by
  obtain ⟨_, hh⟩ := hs
  apply Nat.eq_of_testBit_eq
  intro j
  by_cases hj : j < 128
  · show ((s.high &&& not128 (s.high &&& not128 s.low)) |||
        (s.high &&& not128 s.low)).testBit j = _
    simp only [Nat.testBit_or, Nat.testBit_and, testBit_not128 _ _ hj]
    rcases s.high.testBit j <;> rcases s.low.testBit j <;> simp
  · have hhj : s.high.testBit j = false :=
      Nat.testBit_lt_two_pow (lt_of_lt_of_le hh (Nat.pow_le_pow_right (by omega) (by omega)))
    show ((s.high &&& not128 (s.high &&& not128 s.low)) |||
        (s.high &&& not128 s.low)).testBit j = _
    simp only [Nat.testBit_or, Nat.testBit_and, hhj]
    simp

theorem M128.decrement_count_m128 (s : M128) (hs : s.Wf) :
    (s.decrement).2 = (s.decrement).1.count := by
  show popCount s.high = popCount ((s.decrement).1.high ||| (s.decrement).1.low)
  rw [M128.decrement_planes_or_m128 s hs]

theorem M128.count_set_activate_m128 (s : M128) (i v : ℕ) (hs : s.Wf) (hi : i < 128)
    (h0 : s.val i = 0) (hv : v ≠ 0) (hv3 : v ≤ 3) :
    (s.set i v).count = s.count + 1 := by
  obtain ⟨hl, hh⟩ := hs
  have hwf2 := M128.wf_set_m128 s i v ⟨hl, hh⟩ hi
  obtain ⟨hl2, hh2⟩ := hwf2
  apply popCount_flip_set (s.high ||| s.low) ((s.set i v).high ||| (s.set i v).low) i 128
    (Nat.or_lt_two_pow hh hl) (Nat.or_lt_two_pow hh2 hl2) hi
  · intro j hj
    by_cases hj128 : j < 128
    · simp only [Nat.testBit_or, M128.testBit_set_high_m128 s i v j hj128,
        M128.testBit_set_low_m128 s i v j hj128, if_neg hj]
    · have pow_le : (2 : ℕ) ^ 128 ≤ 2 ^ j := Nat.pow_le_pow_right (by omega) (by omega)
      have b1 : s.high.testBit j = false := Nat.testBit_lt_two_pow (lt_of_lt_of_le hh pow_le)
      have b2 : s.low.testBit j = false := Nat.testBit_lt_two_pow (lt_of_lt_of_le hl pow_le)
      have b3 : (s.set i v).high.testBit j = false :=
        Nat.testBit_lt_two_pow (lt_of_lt_of_le hh2 pow_le)
      have b4 : (s.set i v).low.testBit j = false :=
        Nat.testBit_lt_two_pow (lt_of_lt_of_le hl2 pow_le)
      simp [Nat.testBit_or, b1, b2, b3, b4]
  · exact (M128.val_eq_zero_iff_m128 s i).mp h0
  · have h1 := M128.testBit_set_high_m128 s i v i hi
    have h2 := M128.testBit_set_low_m128 s i v i hi
    rw [if_pos rfl] at h1 h2
    simp only [Nat.testBit_or, h1, h2]
    interval_cases v
    · exact absurd rfl hv
    all_goals decide

theorem M128.count_set_keep_m128 (s : M128) (i v : ℕ) (hs : s.Wf) (hi : i < 128)
    (h0 : s.val i ≠ 0) (hv : v ≠ 0) (hv3 : v ≤ 3) :
    (s.set i v).count = s.count := by
  unfold M128.count
  apply popCount_congr
  intro j
  by_cases hj128 : j < 128
  · by_cases hj : j = i
    · have h1 := M128.testBit_set_high_m128 s i v j hj128
      have h2 := M128.testBit_set_low_m128 s i v j hj128
      rw [if_pos hj] at h1 h2
      have hbit : (s.high.testBit j || s.low.testBit j) = true := by
        rcases hb : (s.high ||| s.low).testBit j
        · subst hj
          exact absurd ((M128.val_eq_zero_iff_m128 s j).mpr hb) h0
        · rw [Nat.testBit_or] at hb
          exact hb
      simp only [Nat.testBit_or, h1, h2]
      rw [hbit]
      interval_cases v
      · exact absurd rfl hv
      all_goals decide
    · have h1 := M128.testBit_set_high_m128 s i v j hj128
      have h2 := M128.testBit_set_low_m128 s i v j hj128
      rw [if_neg hj] at h1 h2
      simp [Nat.testBit_or, h1, h2]
  · obtain ⟨hl, hh⟩ := hs
    obtain ⟨hl2, hh2⟩ := M128.wf_set_m128 s i v ⟨hl, hh⟩ hi
    have pow_le : (2 : ℕ) ^ 128 ≤ 2 ^ j := Nat.pow_le_pow_right (by omega) (by omega)
    have b1 : s.high.testBit j = false := Nat.testBit_lt_two_pow (lt_of_lt_of_le hh pow_le)
    have b2 : s.low.testBit j = false := Nat.testBit_lt_two_pow (lt_of_lt_of_le hl pow_le)
    have b3 : (s.set i v).high.testBit j = false :=
      Nat.testBit_lt_two_pow (lt_of_lt_of_le hh2 pow_le)
    have b4 : (s.set i v).low.testBit j = false :=
      Nat.testBit_lt_two_pow (lt_of_lt_of_le hl2 pow_le)
    simp [Nat.testBit_or, b1, b2, b3, b4]

end H2B

/-- The `Sketch` implementation of the two-bit `M128`
(src/h2b/sketch.rs, `impl Sketch for M128`). -/
def h2bM128Ops : SketchOps H2B.M128 :=
  { STREAMS := 128
    HASH_MASK := 2 ^ 57 - 1
    IDX_SHIFT := 57
    val := H2B.M128.val
    set := H2B.M128.set
    decrement := H2B.M128.decrement
    count := H2B.M128.count
    merge := H2B.M128.merge
    mergeHighIntoLo := H2B.M128.mergeHighIntoLo
    dflt := H2B.M128.default }

theorem h2bM128Laws : SketchLaws H2B.M128 3 h2bM128Ops H2B.M128.Wf :=
  { streams_pos := by norm_num [h2bM128Ops]
    stream_lt := by
      intro h hh
      show h >>> 57 < 128
      rw [Nat.shiftRight_eq_div_pow]
      apply Nat.div_lt_of_lt_mul
      norm_num at hh ⊢
      omega
    wf_default := ⟨by norm_num [h2bM128Ops, H2B.M128.default],
      by norm_num [h2bM128Ops, H2B.M128.default]⟩
    count_default := by decide
    wf_set := fun s i v hw hi _ => H2B.M128.wf_set_m128 s i v hw hi
    wf_decrement := fun s hw => H2B.M128.wf_decrement_m128 s hw
    val_le := fun s i => H2B.M128.val_le_three_m128 s i
    val_set_self := fun s i v _ hi hv => H2B.M128.val_set_self_m128 s i v hi hv
    val_set_other := fun s i v j _ _ hj hne => H2B.M128.val_set_other_m128 s i v j hj hne
    count_set_activate := fun s i v hw hi h0 hv hvL =>
      H2B.M128.count_set_activate_m128 s i v hw hi h0 hv hvL
    count_set_keep := fun s i v hw hi h0 hv hvL =>
      H2B.M128.count_set_keep_m128 s i v hw hi h0 hv hvL
    decrement_count := fun s hw => H2B.M128.decrement_count_m128 s hw
    decrement_val := fun s i _ hi => H2B.M128.decrement_val_m128 s i hi }

namespace H3B

/-- Three-bit sketch with 128 substreams in three 128-bit planes
(src/h3b/sketch.rs, `struct M128`). -/
structure M128 where
  low : ℕ
  middle : ℕ
  high : ℕ
deriving DecidableEq, Repr

/-- `M128::default()`. -/
def M128.default : M128 := ⟨0, 0, 0⟩

/-- `M128::val`. -/
def M128.val (s : M128) (stream : ℕ) : ℕ :=
  let high_bit := (s.high >>> stream) &&& 1
  let middle_bit := (s.middle >>> stream) &&& 1
  let low_bit := (s.low >>> stream) &&& 1
  (high_bit <<< 2) ||| (middle_bit <<< 1) ||| low_bit

/-- `M128::set`. -/
def M128.set (s : M128) (stream value : ℕ) : M128 :=
  let value_high_bit := (value >>> 2) &&& 1
  let value_middle_bit := (value >>> 1) &&& 1
  let value_low_bit := value &&& 1
  { high := (s.high &&& not128 (1 <<< stream)) ||| (value_high_bit <<< stream)
    middle := (s.middle &&& not128 (1 <<< stream)) ||| (value_middle_bit <<< stream)
    low := (s.low &&& not128 (1 <<< stream)) ||| (value_low_bit <<< stream) }

/-- `M128::count`. -/
def M128.count (s : M128) : ℕ := popCount (s.middle ||| s.low ||| s.high)

/-- The trait-default `decrement` at this store (the closed form is
commented out in the source). -/
def M128.decrement (s : M128) : M128 × ℕ :=
  let s2 := decLoop M128.val M128.set 128 s
  (s2, s2.count)

/-- `M128::merge`. -/
def M128.merge (s other : M128) : M128 :=
  ⟨s.low ||| other.low, s.middle ||| other.middle, s.high ||| other.high⟩

/-- `M128::merge_high_into_lo`. -/
def M128.mergeHighIntoLo (s other : M128) : M128 :=
  { s with low := s.low ||| other.middle, middle := s.middle ||| other.high }

/-- All three planes fit in a `u128`. -/
def M128.Wf (s : M128) : Prop :=
  s.high < 2 ^ 128 ∧ s.middle < 2 ^ 128 ∧ s.low < 2 ^ 128

theorem M128.val_char_m128h3 (s : M128) (i : ℕ) :
    s.val i = (if s.high.testBit i then 4 else 0) + (if s.middle.testBit i then 2 else 0) +
      (if s.low.testBit i then 1 else 0) := by
  unfold M128.val
  rw [shiftRight_and_one, shiftRight_and_one, shiftRight_and_one]
  rcases s.high.testBit i <;> rcases s.middle.testBit i <;> rcases s.low.testBit i <;> rfl

theorem M128.val_le_seven_m128h3 (s : M128) (i : ℕ) : s.val i ≤ 7 := by
  rw [M128.val_char_m128h3]
  split <;> split <;> split <;> omega

theorem M128.testBit_set_high_m128h3 (s : M128) (i v j : ℕ) (hj : j < 128) :
    (s.set i v).high.testBit j =
      if j = i then v.testBit 2 else s.high.testBit j := by
  unfold M128.set
  simp only [Nat.testBit_or, Nat.testBit_and, testBit_not128 _ _ hj,
    Nat.testBit_shiftLeft, testBit_one_eq]
  by_cases h : j = i
  · subst h
    simp [Nat.testBit_shiftRight]
  · rcases Nat.lt_or_ge j i with hlt | hge
    · have h1 : ¬ j ≥ i := by omega
      simp [h1, h]
    · have h2 : j - i ≠ 0 := by omega
      simp [hge, h2, h]

theorem M128.testBit_set_middle_m128h3 (s : M128) (i v j : ℕ) (hj : j < 128) :
    (s.set i v).middle.testBit j =
      if j = i then v.testBit 1 else s.middle.testBit j := by
  unfold M128.set
  simp only [Nat.testBit_or, Nat.testBit_and, testBit_not128 _ _ hj,
    Nat.testBit_shiftLeft, testBit_one_eq]
  by_cases h : j = i
  · subst h
    simp [Nat.testBit_shiftRight]
  · rcases Nat.lt_or_ge j i with hlt | hge
    · have h1 : ¬ j ≥ i := by omega
      simp [h1, h]
    · have h2 : j - i ≠ 0 := by omega
      simp [hge, h2, h]

theorem M128.testBit_set_low_m128h3 (s : M128) (i v j : ℕ) (hj : j < 128) :
    (s.set i v).low.testBit j =
      if j = i then v.testBit 0 else s.low.testBit j := by
  unfold M128.set
  simp only [Nat.testBit_or, Nat.testBit_and, testBit_not128 _ _ hj,
    Nat.testBit_shiftLeft, testBit_one_eq]
  by_cases h : j = i
  · subst h
    simp
  · rcases Nat.lt_or_ge j i with hlt | hge
    · have h1 : ¬ j ≥ i := by omega
      simp [h1, h]
    · have h2 : j - i ≠ 0 := by omega
      simp [hge, h2, h]

theorem M128.val_set_self_m128h3 (s : M128) (i v : ℕ) (hi : i < 128) (hv : v ≤ 7) :
    (s.set i v).val i = v := by
  have h1 := M128.testBit_set_high_m128h3 s i v i hi
  have h2 := M128.testBit_set_middle_m128h3 s i v i hi
  have h3 := M128.testBit_set_low_m128h3 s i v i hi
  rw [if_pos rfl] at h1 h2 h3
  rw [M128.val_char_m128h3, h1, h2, h3]
  interval_cases v <;> decide

theorem M128.val_set_other_m128h3 (s : M128) (i v j : ℕ) (hj : j < 128) (hne : j ≠ i) :
    (s.set i v).val j = s.val j := by
  have h1 := M128.testBit_set_high_m128h3 s i v j hj
  have h2 := M128.testBit_set_middle_m128h3 s i v j hj
  have h3 := M128.testBit_set_low_m128h3 s i v j hj
  rw [if_neg hne] at h1 h2 h3
  rw [M128.val_char_m128h3, h1, h2, h3, M128.val_char_m128h3]

theorem M128.val_eq_zero_iff_m128h3 (s : M128) (i : ℕ) :
    s.val i = 0 ↔ (s.middle ||| s.low ||| s.high).testBit i = false := by
  rw [M128.val_char_m128h3, Nat.testBit_or, Nat.testBit_or]
  rcases s.high.testBit i <;> rcases s.middle.testBit i <;> rcases s.low.testBit i <;> simp

theorem M128.wf_set_m128h3 (s : M128) (i v : ℕ) (hs : s.Wf) (hi : i < 128) :
    (s.set i v).Wf := by
  obtain ⟨hh, hm, hl⟩ := hs
  refine ⟨?_, ?_, ?_⟩
  · exact Nat.or_lt_two_pow (H2B.and_lt_two_pow_left _ _ _ hh)
      (H2B.shiftLeft_bit_lt _ _ _ (by rw [Nat.and_one_is_mod]; omega) hi)
  · exact Nat.or_lt_two_pow (H2B.and_lt_two_pow_left _ _ _ hm)
      (H2B.shiftLeft_bit_lt _ _ _ (by rw [Nat.and_one_is_mod]; omega) hi)
  · exact Nat.or_lt_two_pow (H2B.and_lt_two_pow_left _ _ _ hl)
      (H2B.shiftLeft_bit_lt _ _ _ (by rw [Nat.and_one_is_mod]; omega) hi)

theorem M128.wf_decrement_m128h3 (s : M128) (hs : s.Wf) : (s.decrement).1.Wf :=
  (decLoop_spec M128.val M128.set M128.Wf 128 7
    (fun s i v hsw hi _ => M128.wf_set_m128h3 s i v hsw hi)
    (fun s i v _ hi hv => M128.val_set_self_m128h3 s i v hi hv)
    (fun s i v j _ _ hj hne => M128.val_set_other_m128h3 s i v j hj hne)
    M128.val_le_seven_m128h3 128 s hs le_rfl).1

theorem M128.decrement_val_m128h3 (s : M128) (i : ℕ) (hs : s.Wf) (hi : i < 128) :
    (s.decrement).1.val i = s.val i - 1 := by
  have h := (decLoop_spec M128.val M128.set M128.Wf 128 7
    (fun s i v hsw hi _ => M128.wf_set_m128h3 s i v hsw hi)
    (fun s i v _ hi hv => M128.val_set_self_m128h3 s i v hi hv)
    (fun s i v j _ _ hj hne => M128.val_set_other_m128h3 s i v j hj hne)
    M128.val_le_seven_m128h3 128 s hs le_rfl).2 i hi
  rwa [if_pos hi] at h

theorem M128.decrement_count_m128h3 (s : M128) : (s.decrement).2 = (s.decrement).1.count := rfl

theorem M128.count_set_activate_m128h3 (s : M128) (i v : ℕ) (hs : s.Wf) (hi : i < 128)
    (h0 : s.val i = 0) (hv : v ≠ 0) (hv7 : v ≤ 7) :
    (s.set i v).count = s.count + 1 := by
  obtain ⟨hh, hm, hl⟩ := hs
  have hwf2 := M128.wf_set_m128h3 s i v ⟨hh, hm, hl⟩ hi
  obtain ⟨hh2, hm2, hl2⟩ := hwf2
  apply popCount_flip_set (s.middle ||| s.low ||| s.high)
    ((s.set i v).middle ||| (s.set i v).low ||| (s.set i v).high) i 128
    (Nat.or_lt_two_pow (Nat.or_lt_two_pow hm hl) hh)
    (Nat.or_lt_two_pow (Nat.or_lt_two_pow hm2 hl2) hh2) hi
  · intro j hj
    by_cases hj128 : j < 128
    · simp only [Nat.testBit_or, M128.testBit_set_high_m128h3 s i v j hj128,
        M128.testBit_set_middle_m128h3 s i v j hj128, M128.testBit_set_low_m128h3 s i v j hj128, if_neg hj]
    · have pow_le : (2 : ℕ) ^ 128 ≤ 2 ^ j := Nat.pow_le_pow_right (by omega) (by omega)
      have b1 : s.high.testBit j = false := Nat.testBit_lt_two_pow (lt_of_lt_of_le hh pow_le)
      have b2 : s.middle.testBit j = false := Nat.testBit_lt_two_pow (lt_of_lt_of_le hm pow_le)
      have b3 : s.low.testBit j = false := Nat.testBit_lt_two_pow (lt_of_lt_of_le hl pow_le)
      have b4 : (s.set i v).high.testBit j = false :=
        Nat.testBit_lt_two_pow (lt_of_lt_of_le hh2 pow_le)
      have b5 : (s.set i v).middle.testBit j = false :=
        Nat.testBit_lt_two_pow (lt_of_lt_of_le hm2 pow_le)
      have b6 : (s.set i v).low.testBit j = false :=
        Nat.testBit_lt_two_pow (lt_of_lt_of_le hl2 pow_le)
      simp [Nat.testBit_or, b1, b2, b3, b4, b5, b6]
  · exact (M128.val_eq_zero_iff_m128h3 s i).mp h0
  · have h1 := M128.testBit_set_high_m128h3 s i v i hi
    have h2 := M128.testBit_set_middle_m128h3 s i v i hi
    have h3 := M128.testBit_set_low_m128h3 s i v i hi
    rw [if_pos rfl] at h1 h2 h3
    rw [Nat.testBit_or, Nat.testBit_or, h1, h2, h3]
    interval_cases v
    · exact absurd rfl hv
    all_goals decide

theorem M128.count_set_keep_m128h3 (s : M128) (i v : ℕ) (hs : s.Wf) (hi : i < 128)
    (h0 : s.val i ≠ 0) (hv : v ≠ 0) (hv7 : v ≤ 7) :
    (s.set i v).count = s.count := by
  unfold M128.count
  apply popCount_congr
  intro j
  by_cases hj128 : j < 128
  · by_cases hj : j = i
    · have h1 := M128.testBit_set_high_m128h3 s i v j hj128
      have h2 := M128.testBit_set_middle_m128h3 s i v j hj128
      have h3 := M128.testBit_set_low_m128h3 s i v j hj128
      rw [if_pos hj] at h1 h2 h3
      have hbit : (s.middle.testBit j || s.low.testBit j || s.high.testBit j) = true := by
        rcases hbt : (s.middle ||| s.low ||| s.high).testBit j
        · subst hj
          exact absurd ((M128.val_eq_zero_iff_m128h3 s j).mpr hbt) h0
        · rw [Nat.testBit_or, Nat.testBit_or] at hbt
          exact hbt
      simp only [Nat.testBit_or, h1, h2, h3]
      rw [hbit]
      interval_cases v
      · exact absurd rfl hv
      all_goals decide
    · have h1 := M128.testBit_set_high_m128h3 s i v j hj128
      have h2 := M128.testBit_set_middle_m128h3 s i v j hj128
      have h3 := M128.testBit_set_low_m128h3 s i v j hj128
      rw [if_neg hj] at h1 h2 h3
      simp [Nat.testBit_or, h1, h2, h3]
  · obtain ⟨hh, hm, hl⟩ := hs
    obtain ⟨hh2, hm2, hl2⟩ := M128.wf_set_m128h3 s i v ⟨hh, hm, hl⟩ hi
    have pow_le : (2 : ℕ) ^ 128 ≤ 2 ^ j := Nat.pow_le_pow_right (by omega) (by omega)
    have b1 : s.high.testBit j = false := Nat.testBit_lt_two_pow (lt_of_lt_of_le hh pow_le)
    have b2 : s.middle.testBit j = false := Nat.testBit_lt_two_pow (lt_of_lt_of_le hm pow_le)
    have b3 : s.low.testBit j = false := Nat.testBit_lt_two_pow (lt_of_lt_of_le hl pow_le)
    have b4 : (s.set i v).high.testBit j = false :=
      Nat.testBit_lt_two_pow (lt_of_lt_of_le hh2 pow_le)
    have b5 : (s.set i v).middle.testBit j = false :=
      Nat.testBit_lt_two_pow (lt_of_lt_of_le hm2 pow_le)
    have b6 : (s.set i v).low.testBit j = false :=
      Nat.testBit_lt_two_pow (lt_of_lt_of_le hl2 pow_le)
    simp [Nat.testBit_or, b1, b2, b3, b4, b5, b6]

end H3B

/-- The `Sketch` implementation of the three-bit `M128`
(src/h3b/sketch.rs, `impl Sketch for M128`, trait-default `decrement`). -/
def h3bM128Ops : SketchOps H3B.M128 :=
  { STREAMS := 128
    HASH_MASK := 2 ^ 57 - 1
    IDX_SHIFT := 57
    val := H3B.M128.val
    set := H3B.M128.set
    decrement := H3B.M128.decrement
    count := H3B.M128.count
    merge := H3B.M128.merge
    mergeHighIntoLo := H3B.M128.mergeHighIntoLo
    dflt := H3B.M128.default }

theorem h3bM128Laws : SketchLaws H3B.M128 7 h3bM128Ops H3B.M128.Wf :=
  { streams_pos := by norm_num [h3bM128Ops]
    stream_lt := by
      intro h hh
      show h >>> 57 < 128
      rw [Nat.shiftRight_eq_div_pow]
      apply Nat.div_lt_of_lt_mul
      norm_num at hh ⊢
      omega
    wf_default := ⟨by norm_num [h3bM128Ops, H3B.M128.default],
      by norm_num [h3bM128Ops, H3B.M128.default],
      by norm_num [h3bM128Ops, H3B.M128.default]⟩
    count_default := by decide
    wf_set := fun s i v hw hi _ => H3B.M128.wf_set_m128h3 s i v hw hi
    wf_decrement := fun s hw => H3B.M128.wf_decrement_m128h3 s hw
    val_le := fun s i => H3B.M128.val_le_seven_m128h3 s i
    val_set_self := fun s i v _ hi hv => H3B.M128.val_set_self_m128h3 s i v hi hv
    val_set_other := fun s i v j _ _ hj hne => H3B.M128.val_set_other_m128h3 s i v j hj hne
    count_set_activate := fun s i v hw hi h0 hv hvL =>
      H3B.M128.count_set_activate_m128h3 s i v hw hi h0 hv hvL
    count_set_keep := fun s i v hw hi h0 hv hvL =>
      H3B.M128.count_set_keep_m128h3 s i v hw hi h0 hv hvL
    decrement_count := fun s _ => H3B.M128.decrement_count_m128h3 s
    decrement_val := fun s i hw hi => H3B.M128.decrement_val_m128h3 s i hw hi }

theorem satCheck_spec {σ : Type} {L : ℕ} (O : SketchOps σ) (Wf : σ → Prop)
    (hL : SketchLaws σ L O Wf) (e : HyperTwoBits σ) (hwf : Wf e.sketch) :
    Wf (satCheck O e).sketch ∧ (satCheck O e).hash = e.hash ∧
    (e.count = O.count e.sketch →
      (satCheck O e).count = O.count (satCheck O e).sketch) := by
  unfold satCheck
  split_ifs with hthr
  · exact ⟨hL.wf_decrement e.sketch hwf, rfl, fun _ => hL.decrement_count e.sketch hwf⟩
  · exact ⟨hwf, rfl, fun h => h⟩

theorem satCheck_skip {σ : Type} (O : SketchOps σ) (e : HyperTwoBits σ)
    (h : e.count < thresholdInsert O.STREAMS) : satCheck O e = e := by
  unfold satCheck
  rw [if_neg (by omega)]

theorem insertValue2_hash_eq {σ : Type} (O : SketchOps σ) (e : HyperTwoBits σ) (h : ℕ) :
    (insertValue2 O e h).hash = e.hash := by
  simp only [insertValue2]
  split
  · split
    · split <;> rfl
    · split <;> rfl
  · split
    · split <;> rfl
    · split <;> rfl

theorem mergeEst_none_iff {σ : Type} (O : SketchOps σ) (a b : HyperTwoBits σ) :
    mergeEst O a b = none ↔ a.hash 42 ≠ b.hash 42 := by
  unfold mergeEst
  by_cases hp : a.hash 42 ≠ b.hash 42
  · rw [if_pos hp]
    simp [hp]
  · rw [if_neg hp]
    constructor
    · intro hcontra
      exfalso
      revert hcontra
      dsimp only
      split <;> split <;> simp
    · intro hne
      exact absurd hne hp

theorem mergeEst_gap_keeps_self {σ : Type} (O : SketchOps σ) (a b : HyperTwoBits σ)
    (hp : a.hash 42 = b.hash 42) (hgap : a.t > b.t + 8) :
    mergeEst O a b = some a := by
  unfold mergeEst
  rw [if_neg (by simp [hp])]
  dsimp only
  rw [if_neg (by omega : ¬ b.t > a.t)]
  dsimp only
  rw [if_pos (by omega : a.t - b.t > 8)]

theorem mergeEst_gap_keeps_other {σ : Type} (O : SketchOps σ) (a b : HyperTwoBits σ)
    (hp : a.hash 42 = b.hash 42) (hgap : b.t > a.t + 8) :
    mergeEst O a b = some b := by
  unfold mergeEst
  rw [if_neg (by simp [hp])]
  dsimp only
  rw [if_pos (by omega : b.t > a.t)]
  dsimp only
  rw [if_pos (by omega : b.t - a.t > 8)]

theorem mergeEst_close_aged {σ : Type} (O : SketchOps σ) (a b : HyperTwoBits σ)
    (hp : a.hash 42 = b.hash 42) (hle : b.t ≤ a.t) (hgap : a.t - b.t ≤ 8)
    (hthr : a.count ≥ thresholdMerge O.STREAMS) :
    mergeEst O a b = some
      { hash := a.hash
        sketch := if a.t == b.t then O.merge (O.decrement a.sketch).1 b.sketch
          else O.mergeHighIntoLo (O.decrement a.sketch).1 b.sketch
        count := O.count (if a.t == b.t then O.merge (O.decrement a.sketch).1 b.sketch
          else O.mergeHighIntoLo (O.decrement a.sketch).1 b.sketch)
        t := a.t + 4 } := by
  unfold mergeEst
  rw [if_neg (by simp [hp])]
  dsimp only
  rw [if_neg (by omega : ¬ b.t > a.t)]
  dsimp only
  rw [if_neg (by omega : ¬ a.t - b.t > 8), if_pos hthr]

theorem mergeEst_close_unaged {σ : Type} (O : SketchOps σ) (a b : HyperTwoBits σ)
    (hp : a.hash 42 = b.hash 42) (hle : b.t ≤ a.t) (hgap : a.t - b.t ≤ 8)
    (hthr : a.count < thresholdMerge O.STREAMS) :
    mergeEst O a b = some
      { hash := a.hash
        sketch := if a.t == b.t then O.merge a.sketch b.sketch
          else O.mergeHighIntoLo a.sketch b.sketch
        count := O.count (if a.t == b.t then O.merge a.sketch b.sketch
          else O.mergeHighIntoLo a.sketch b.sketch)
        t := a.t } := by
  unfold mergeEst
  rw [if_neg (by simp [hp])]
  dsimp only
  rw [if_neg (by omega : ¬ b.t > a.t)]
  dsimp only
  rw [if_neg (by omega : ¬ a.t - b.t > 8), if_neg (by omega : ¬ a.count ≥ thresholdMerge O.STREAMS)]

theorem mergeEst_inv {σ : Type} (O : SketchOps σ) (a b r : HyperTwoBits σ)
    (hmerge : mergeEst O a b = some r)
    (ha : a.count = O.count a.sketch) (hb : b.count = O.count b.sketch) :
    r.count = O.count r.sketch := by
  unfold mergeEst at hmerge
  by_cases hp : a.hash 42 ≠ b.hash 42
  · rw [if_pos hp] at hmerge
    exact absurd hmerge (by simp)
  · rw [if_neg hp] at hmerge
    dsimp only at hmerge
    by_cases hswap : b.t > a.t
    · rw [if_pos hswap] at hmerge
      dsimp only at hmerge
      by_cases hgap : b.t - a.t > 8
      · rw [if_pos hgap] at hmerge
        obtain rfl := Option.some.inj hmerge
        exact hb
      · rw [if_neg hgap] at hmerge
        obtain rfl := Option.some.inj hmerge
        split <;> rfl
    · rw [if_neg hswap] at hmerge
      dsimp only at hmerge
      by_cases hgap : a.t - b.t > 8
      · rw [if_pos hgap] at hmerge
        obtain rfl := Option.some.inj hmerge
        exact ha
      · rw [if_neg hgap] at hmerge
        obtain rfl := Option.some.inj hmerge
        split <;> rfl

theorem twoBitOr : ∀ a b c d : Bool,
    ((if a then 2 else 0) + (if b then 1 else 0)) |||
      ((if c then 2 else 0) + (if d then 1 else 0)) =
    (if (a || c) then 2 else 0) + (if (b || d) then 1 else 0) := by decide

theorem threeBitOr : ∀ a b c d e f : Bool,
    ((if a then 4 else 0) + (if b then 2 else 0) + (if c then 1 else 0)) |||
      ((if d then 4 else 0) + (if e then 2 else 0) + (if f then 1 else 0)) =
    (if (a || d) then 4 else 0) + (if (b || e) then 2 else 0) +
      (if (c || f) then 1 else 0) := by decide

theorem H2B.HiLoRegister.valBits_or_hl (x y : H2B.HiLoRegister) (b : ℕ) :
    (H2B.HiLoRegister.mk (x.high ||| y.high) (x.low ||| y.low)).valBits b =
      x.valBits b ||| y.valBits b := by
  rw [H2B.HiLoRegister.valBits_char_hl, H2B.HiLoRegister.valBits_char_hl,
    H2B.HiLoRegister.valBits_char_hl]
  simp only [Nat.testBit_or]
  rw [twoBitOr]

theorem H3B.BitRegister.valBits_or_br (x y : H3B.BitRegister) (b : ℕ) :
    (H3B.BitRegister.mk (x.high ||| y.high) (x.middle ||| y.middle)
        (x.low ||| y.low)).valBits b =
      x.valBits b ||| y.valBits b := by
  rw [H3B.BitRegister.valBits_char_br, H3B.BitRegister.valBits_char_br,
    H3B.BitRegister.valBits_char_br]
  simp only [Nat.testBit_or]
  rw [threeBitOr]

/-- C1, counterexample: starting from empty width-64 two-bit stores, set
substream 0 of one store to level 1 and of the other to level 2; `merge`
(plane-wise OR) yields level 3 there, not the maximum 2. -/
theorem claim1_counterexample :
    H2B.M64.val (H2B.M64.merge (H2B.M64.set H2B.M64.default 0 1)
        (H2B.M64.set H2B.M64.default 0 2)) 0 ≠
      max (H2B.M64.val (H2B.M64.set H2B.M64.default 0 1) 0)
        (H2B.M64.val (H2B.M64.set H2B.M64.default 0 2) 0) := by decide

/-- C1, amended: after `merge`, every substream holds the *bitwise OR* of
the two input levels, for every two-bit and three-bit store of the crate
(the OR equals the maximum only when one encoding's bits contain the
other's). -/
theorem claim1_merge_is_bitwise_or :
    (∀ (a b : H2B.M64) (i : ℕ),
      (H2B.M64.merge a b).val i = a.val i ||| b.val i) ∧
    (∀ (a b : H2B.M128) (i : ℕ),
      (H2B.M128.merge a b).val i = a.val i ||| b.val i) ∧
    (∀ (a b : H2B.M128Reg) (i : ℕ), a.registers.length = b.registers.length →
      i < 128 * a.registers.length →
      (H2B.M128Reg.merge a b).val i = a.val i ||| b.val i) ∧
    (∀ (a b : H3B.M64) (i : ℕ),
      (H3B.M64.merge a b).val i = a.val i ||| b.val i) ∧
    (∀ (a b : H3B.M128) (i : ℕ),
      (H3B.M128.merge a b).val i = a.val i ||| b.val i) ∧
    (∀ (a b : H3B.M128Reg) (i : ℕ), a.registers.length = b.registers.length →
      i < 128 * a.registers.length →
      (H3B.M128Reg.merge a b).val i = a.val i ||| b.val i) := by
  refine ⟨?_, ?_, ?_, ?_, ?_, ?_⟩
  · intro a b i
    rw [H2B.M64.val_char_m64, H2B.M64.val_char_m64, H2B.M64.val_char_m64]
    show (if (a.high ||| b.high).testBit i then 2 else 0) +
        (if (a.low ||| b.low).testBit i then 1 else 0) = _
    simp only [Nat.testBit_or]
    rw [twoBitOr]
  · intro a b i
    rw [H2B.M128.val_char_m128, H2B.M128.val_char_m128, H2B.M128.val_char_m128]
    show (if (a.high ||| b.high).testBit i then 2 else 0) +
        (if (a.low ||| b.low).testBit i then 1 else 0) = _
    simp only [Nat.testBit_or]
    rw [twoBitOr]
  · intro a b i hlen hi
    have hr : i / H2B.REG_SIZE < a.registers.length :=
      H2B.M128Reg.reg_lt_reg a.registers.length i _ rfl hi
    have hrz : i / H2B.REG_SIZE <
        (List.zipWith (fun x y =>
            H2B.HiLoRegister.mk (x.high ||| y.high) (x.low ||| y.low))
          a.registers b.registers).length := by
      rw [List.length_zipWith, ← hlen]
      simp only [min_self]
      exact hr
    show ((List.zipWith (fun x y =>
        H2B.HiLoRegister.mk (x.high ||| y.high) (x.low ||| y.low))
        a.registers b.registers).getD (i / H2B.REG_SIZE) H2B.HiLoRegister.zero).valBits
        (i % H2B.REG_SIZE) = _
    rw [List.getD_eq_getElem _ _ hrz, List.getElem_zipWith,
      H2B.HiLoRegister.valBits_or_hl]
    show _ = (a.registers.getD (i / H2B.REG_SIZE) H2B.HiLoRegister.zero).valBits
        (i % H2B.REG_SIZE) |||
      (b.registers.getD (i / H2B.REG_SIZE) H2B.HiLoRegister.zero).valBits
        (i % H2B.REG_SIZE)
    rw [List.getD_eq_getElem _ _ hr, List.getD_eq_getElem _ _ (hlen ▸ hr)]
  · intro a b i
    rw [H3B.M64.val_char_m64h3, H3B.M64.val_char_m64h3, H3B.M64.val_char_m64h3]
    show (if (a.high ||| b.high).testBit i then 4 else 0) +
        (if (a.middle ||| b.middle).testBit i then 2 else 0) +
        (if (a.low ||| b.low).testBit i then 1 else 0) = _
    simp only [Nat.testBit_or]
    rw [threeBitOr]
  · intro a b i
    rw [H3B.M128.val_char_m128h3, H3B.M128.val_char_m128h3, H3B.M128.val_char_m128h3]
    show (if (a.high ||| b.high).testBit i then 4 else 0) +
        (if (a.middle ||| b.middle).testBit i then 2 else 0) +
        (if (a.low ||| b.low).testBit i then 1 else 0) = _
    simp only [Nat.testBit_or]
    rw [threeBitOr]
  · intro a b i hlen hi
    have hr : i / H2B.REG_SIZE < a.registers.length :=
      H2B.M128Reg.reg_lt_reg a.registers.length i _ rfl hi
    have hrz : i / H2B.REG_SIZE <
        (List.zipWith (fun x y => H3B.BitRegister.mk (x.high ||| y.high)
            (x.middle ||| y.middle) (x.low ||| y.low))
          a.registers b.registers).length := by
      rw [List.length_zipWith, ← hlen]
      simp only [min_self]
      exact hr
    show ((List.zipWith (fun x y => H3B.BitRegister.mk (x.high ||| y.high)
        (x.middle ||| y.middle) (x.low ||| y.low))
        a.registers b.registers).getD (i / H2B.REG_SIZE) H3B.BitRegister.zero).valBits
        (i % H2B.REG_SIZE) = _
    rw [List.getD_eq_getElem _ _ hrz, List.getElem_zipWith,
      H3B.BitRegister.valBits_or_br]
    show _ = (a.registers.getD (i / H2B.REG_SIZE) H3B.BitRegister.zero).valBits
        (i % H2B.REG_SIZE) |||
      (b.registers.getD (i / H2B.REG_SIZE) H3B.BitRegister.zero).valBits
        (i % H2B.REG_SIZE)
    rw [List.getD_eq_getElem _ _ hr, List.getD_eq_getElem _ _ (hlen ▸ hr)]

/-- C1, witness: the amended bitwise-OR law evaluated on two concrete
width-256 stores. -/
theorem claim1_witness :
    (⟨[⟨1, 2⟩, ⟨4, 8⟩]⟩ : H2B.M128Reg).registers.length =
      (⟨[⟨3, 0⟩, ⟨0, 5⟩]⟩ : H2B.M128Reg).registers.length ∧
    (7 : ℕ) < 128 * (⟨[⟨1, 2⟩, ⟨4, 8⟩]⟩ : H2B.M128Reg).registers.length ∧
    (H2B.M128Reg.merge ⟨[⟨1, 2⟩, ⟨4, 8⟩]⟩ ⟨[⟨3, 0⟩, ⟨0, 5⟩]⟩).val 7 =
      (⟨[⟨1, 2⟩, ⟨4, 8⟩]⟩ : H2B.M128Reg).val 7 |||
        (⟨[⟨3, 0⟩, ⟨0, 5⟩]⟩ : H2B.M128Reg).val 7 :=
  ⟨by decide, by decide,
    claim1_merge_is_bitwise_or.2.2.1 ⟨[⟨1, 2⟩, ⟨4, 8⟩]⟩ ⟨[⟨3, 0⟩, ⟨0, 5⟩]⟩ 7
      (by decide) (by decide)⟩

/-- C4: `decrement` lowers every substream's level by one (floored at zero)
and returns exactly the `count()` of the aged store, for every store
family and width of both variants. -/
theorem claim4_decrement_spec :
    (∀ s : H2B.M64, s.Wf →
      (∀ i, i < 64 → (s.decrement).1.val i = s.val i - 1) ∧
      (s.decrement).2 = (s.decrement).1.count) ∧
    (∀ s : H2B.M128, s.Wf →
      (∀ i, i < 128 → (s.decrement).1.val i = s.val i - 1) ∧
      (s.decrement).2 = (s.decrement).1.count) ∧
    (∀ (R : ℕ) (s : H2B.M128Reg), s.Wf R →
      (∀ i, i < 128 * R → (s.decrement).1.val i = s.val i - 1) ∧
      (s.decrement).2 = (s.decrement).1.count) ∧
    (∀ s : H3B.M64, s.Wf →
      (∀ i, i < 64 → (s.decrement).1.val i = s.val i - 1) ∧
      (s.decrement).2 = (s.decrement).1.count) ∧
    (∀ s : H3B.M128, s.Wf →
      (∀ i, i < 128 → (s.decrement).1.val i = s.val i - 1) ∧
      (s.decrement).2 = (s.decrement).1.count) ∧
    (∀ (R W : ℕ) (s : H3B.M128Reg), s.Wf R → W ≤ 128 * R →
      (∀ i, i < W → (s.decrementW W).1.val i = s.val i - 1) ∧
      (s.decrementW W).2 = (s.decrementW W).1.count) := by
  refine ⟨?_, ?_, ?_, ?_, ?_, ?_⟩
  · intro s hs
    exact ⟨fun i hi => H2B.M64.decrement_val_m64 s i hi, H2B.M64.decrement_count_m64 s hs⟩
  · intro s hs
    exact ⟨fun i hi => H2B.M128.decrement_val_m128 s i hi, H2B.M128.decrement_count_m128 s hs⟩
  · intro R s hs
    exact ⟨fun i hi => H2B.M128Reg.decrement_val_reg R s i hs hi,
      H2B.M128Reg.decrement_count_reg R s hs⟩
  · intro s hs
    exact ⟨fun i hi => H3B.M64.decrement_val_m64h3 s i hs hi, H3B.M64.decrement_count_m64h3 s⟩
  · intro s hs
    exact ⟨fun i hi => H3B.M128.decrement_val_m128h3 s i hs hi, H3B.M128.decrement_count_m128h3 s⟩
  · intro R W s hs hW
    exact ⟨fun i hi => H3B.M128Reg.decrementW_val_regh3 R W s i hs hW hi,
      H3B.M128Reg.decrementW_count_regh3 W s⟩

/-- C4, witness: the decrement law evaluated on a concrete width-64
two-bit store holding levels 3 and 1, read back at substream 0. -/
theorem claim4_witness :
    (H2B.M64.set (H2B.M64.set H2B.M64.default 0 3) 5 1).Wf ∧
    (0 : ℕ) < 64 ∧
    ((H2B.M64.set (H2B.M64.set H2B.M64.default 0 3) 5 1).decrement).1.val 0 =
      (H2B.M64.set (H2B.M64.set H2B.M64.default 0 3) 5 1).val 0 - 1 ∧
    ((H2B.M64.set (H2B.M64.set H2B.M64.default 0 3) 5 1).decrement).2 =
      ((H2B.M64.set (H2B.M64.set H2B.M64.default 0 3) 5 1).decrement).1.count :=
  ⟨⟨by decide, by decide⟩, by norm_num,
    (claim4_decrement_spec.1 _ ⟨by decide, by decide⟩).1 0 (by norm_num),
    (claim4_decrement_spec.1 _ ⟨by decide, by decide⟩).2⟩

/-- C2: the cached `count` field equals `sketch.count()` on a fresh
estimator and is preserved by every public operation — `insert_hash`,
`insert`, `insert2`, `insert4` (two-bit), `insert_hash`/`insert`
(three-bit) and `merge` — for every store satisfying the sketch laws. -/
theorem claim2_count_invariant {σ : Type} {L : ℕ} (O : SketchOps σ) (Wf : σ → Prop)
    (hL : SketchLaws σ L O Wf) :
    (∀ H : ℕ → ℕ, (newEstimator O H).count = O.count (newEstimator O H).sketch) ∧
    (3 ≤ L → ∀ (e : HyperTwoBits σ) (h : ℕ), Wf e.sketch →
      e.count = O.count e.sketch → h < 2 ^ 64 →
      Wf (insertHash2 O e h).sketch ∧
      (insertHash2 O e h).count = O.count (insertHash2 O e h).sketch) ∧
    (3 ≤ L → ∀ (e : HyperTwoBits σ) (v : ℕ), Wf e.sketch →
      e.count = O.count e.sketch → e.hash v < 2 ^ 64 →
      Wf (insert2b O e v).sketch ∧
      (insert2b O e v).count = O.count (insert2b O e v).sketch) ∧
    (3 ≤ L → ∀ (e : HyperTwoBits σ) (v1 v2 : ℕ), Wf e.sketch →
      e.count = O.count e.sketch → e.hash v1 < 2 ^ 64 → e.hash v2 < 2 ^ 64 →
      Wf (insertTwo O e v1 v2).sketch ∧
      (insertTwo O e v1 v2).count = O.count (insertTwo O e v1 v2).sketch) ∧
    (3 ≤ L → ∀ (e : HyperTwoBits σ) (v1 v2 v3 v4 : ℕ), Wf e.sketch →
      e.count = O.count e.sketch → e.hash v1 < 2 ^ 64 → e.hash v2 < 2 ^ 64 →
      e.hash v3 < 2 ^ 64 → e.hash v4 < 2 ^ 64 →
      Wf (insertFour O e v1 v2 v3 v4).sketch ∧
      (insertFour O e v1 v2 v3 v4).count =
        O.count (insertFour O e v1 v2 v3 v4).sketch) ∧
    (7 ≤ L → ∀ (e : HyperTwoBits σ) (h : ℕ), Wf e.sketch →
      e.count = O.count e.sketch → h < 2 ^ 64 →
      Wf (insertHash3 O e h).sketch ∧
      (insertHash3 O e h).count = O.count (insertHash3 O e h).sketch) ∧
    (7 ≤ L → ∀ (e : HyperTwoBits σ) (v : ℕ), Wf e.sketch →
      e.count = O.count e.sketch → e.hash v < 2 ^ 64 →
      Wf (insert3b O e v).sketch ∧
      (insert3b O e v).count = O.count (insert3b O e v).sketch) ∧
    (∀ (a b r : HyperTwoBits σ), a.count = O.count a.sketch →
      b.count = O.count b.sketch → mergeEst O a b = some r →
      r.count = O.count r.sketch) := by
  refine ⟨?_, ?_, ?_, ?_, ?_, ?_, ?_, ?_⟩
  · intro H
    simp only [newEstimator]
    exact hL.count_default.symm
  · intro hL3 e h hwf hcnt hh
    obtain ⟨w2, t2, hh2, v2, o2, c2⟩ := insertValue2_spec O Wf hL hL3 e h hh hwf
    obtain ⟨w3, h3, c3⟩ := satCheck_spec O Wf hL (insertValue2 O e h) w2
    exact ⟨w3, c3 (c2 hcnt)⟩
  · intro hL3 e v hwf hcnt hh
    obtain ⟨w2, t2, hh2, v2, o2, c2⟩ := insertValue2_spec O Wf hL hL3 e (e.hash v) hh hwf
    obtain ⟨w3, h3, c3⟩ := satCheck_spec O Wf hL (insertValue2 O e (e.hash v)) w2
    exact ⟨w3, c3 (c2 hcnt)⟩
  · intro hL3 e v1 v2 hwf hcnt h1 h2
    obtain ⟨wA, tA, hhA, vA, oA, cA⟩ :=
      insertValue2_spec O Wf hL hL3 e (e.hash v1) h1 hwf
    obtain ⟨wB, tB, hhB, vB, oB, cB⟩ :=
      insertValue2_spec O Wf hL hL3 (insertValue2 O e (e.hash v1)) (e.hash v2) h2 wA
    obtain ⟨wC, hC, cC⟩ := satCheck_spec O Wf hL
      (insertValue2 O (insertValue2 O e (e.hash v1)) (e.hash v2)) wB
    exact ⟨wC, cC (cB (cA hcnt))⟩
  · intro hL3 e v1 v2 v3 v4 hwf hcnt h1 h2 h3 h4
    obtain ⟨wA, tA, hhA, vA, oA, cA⟩ :=
      insertValue2_spec O Wf hL hL3 e (e.hash v1) h1 hwf
    obtain ⟨wB, tB, hhB, vB, oB, cB⟩ :=
      insertValue2_spec O Wf hL hL3 (insertValue2 O e (e.hash v1)) (e.hash v2) h2 wA
    obtain ⟨wC, tC, hhC, vC, oC, cC⟩ :=
      insertValue2_spec O Wf hL hL3
        (insertValue2 O (insertValue2 O e (e.hash v1)) (e.hash v2)) (e.hash v3) h3 wB
    obtain ⟨wD, tD, hhD, vD, oD, cD⟩ :=
      insertValue2_spec O Wf hL hL3
        (insertValue2 O (insertValue2 O (insertValue2 O e (e.hash v1)) (e.hash v2))
          (e.hash v3)) (e.hash v4) h4 wC
    obtain ⟨wE, hE, cE⟩ := satCheck_spec O Wf hL
      (insertValue2 O (insertValue2 O (insertValue2 O (insertValue2 O e (e.hash v1))
        (e.hash v2)) (e.hash v3)) (e.hash v4)) wD
    exact ⟨wE, cE (cD (cC (cB (cA hcnt))))⟩
  · intro hL7 e h hwf hcnt hh
    obtain ⟨w2, t2, hh2, v2, o2, c2⟩ := insertValue3_spec O Wf hL hL7 e h hh hwf
    obtain ⟨w3, h3, c3⟩ := satCheck_spec O Wf hL (insertValue3 O e h) w2
    exact ⟨w3, c3 (c2 hcnt)⟩
  · intro hL7 e v hwf hcnt hh
    obtain ⟨w2, t2, hh2, v2, o2, c2⟩ := insertValue3_spec O Wf hL hL7 e (e.hash v) hh hwf
    obtain ⟨w3, h3, c3⟩ := satCheck_spec O Wf hL (insertValue3 O e (e.hash v)) w2
    exact ⟨w3, c3 (c2 hcnt)⟩
  · exact fun a b r ha hb hm => mergeEst_inv O a b r hm ha hb

/-- C2, witness: the invariant-preservation law for `insert_hash`
evaluated on the fresh width-64 two-bit estimator with a constant hash. -/
theorem claim2_witness :
    (3 ≤ 3) ∧
    H2B.M64.Wf (newEstimator h2bM64Ops (fun _ => 5)).sketch ∧
    (newEstimator h2bM64Ops (fun _ => 5)).count =
      h2bM64Ops.count (newEstimator h2bM64Ops (fun _ => 5)).sketch ∧
    (5 : ℕ) < 2 ^ 64 ∧
    (H2B.M64.Wf (insertHash2 h2bM64Ops (newEstimator h2bM64Ops (fun _ => 5)) 5).sketch ∧
    (insertHash2 h2bM64Ops (newEstimator h2bM64Ops (fun _ => 5)) 5).count =
      h2bM64Ops.count
        (insertHash2 h2bM64Ops (newEstimator h2bM64Ops (fun _ => 5)) 5).sketch) :=
  ⟨by norm_num, ⟨by decide, by decide⟩, by decide, by norm_num,
    (claim2_count_invariant h2bM64Ops H2B.M64.Wf h2bM64Laws).2.1 (by norm_num)
      (newEstimator h2bM64Ops (fun _ => 5)) 5 ⟨by decide, by decide⟩ (by decide)
      (by norm_num)⟩

/-- C7: when the probe digests agree and the generations differ by more
than 8, `merge` leaves the result exactly equal to the operand with the
larger generation — hash strategy, sketch, count and generation all
unchanged — and the other operand contributes nothing. -/
theorem claim7_merge_generation_gap {σ : Type} (O : SketchOps σ)
    (a b : HyperTwoBits σ) (hp : a.hash 42 = b.hash 42) :
    (a.t > b.t + 8 → mergeEst O a b = some a) ∧
    (b.t > a.t + 8 → mergeEst O a b = some b) :=
  ⟨fun h => mergeEst_gap_keeps_self O a b hp h,
   fun h => mergeEst_gap_keeps_other O a b hp h⟩

/-- C7, witness: merging generation-10 and generation-1 width-64
estimators returns the generation-10 operand untouched. -/
theorem claim7_witness :
    (⟨fun _ => 0, H2B.M64.default, 0, 10⟩ : HyperTwoBits H2B.M64).hash 42 =
      (⟨fun _ => 0, H2B.M64.default, 0, 1⟩ : HyperTwoBits H2B.M64).hash 42 ∧
    (⟨fun _ => 0, H2B.M64.default, 0, 10⟩ : HyperTwoBits H2B.M64).t >
      (⟨fun _ => 0, H2B.M64.default, 0, 1⟩ : HyperTwoBits H2B.M64).t + 8 ∧
    mergeEst h2bM64Ops ⟨fun _ => 0, H2B.M64.default, 0, 10⟩
        ⟨fun _ => 0, H2B.M64.default, 0, 1⟩ =
      some ⟨fun _ => 0, H2B.M64.default, 0, 10⟩ :=
  ⟨rfl, by norm_num,
    (claim7_merge_generation_gap h2bM64Ops ⟨fun _ => 0, H2B.M64.default, 0, 10⟩
      ⟨fun _ => 0, H2B.M64.default, 0, 1⟩ rfl).1 (by norm_num)⟩

/-- C8: `merge` fails (the `assert_eq!` panic, modelled as `none`) exactly
when the two hash strategies disagree on the probe value 42; in the
functional embedding the failure produces no partial state, and when the
digests agree the merge always returns a result. -/
theorem claim8_merge_panic_iff {σ : Type} (O : SketchOps σ) (a b : HyperTwoBits σ) :
    (mergeEst O a b = none ↔ a.hash 42 ≠ b.hash 42) ∧
    (a.hash 42 = b.hash 42 → ∃ r, mergeEst O a b = some r) := by
  refine ⟨mergeEst_none_iff O a b, fun hp => ?_⟩
  cases hm : mergeEst O a b with
  | none => exact absurd ((mergeEst_none_iff O a b).mp hm) (by simp [hp])
  | some r => exact ⟨r, rfl⟩

/-- C8, witness: with equal constant hash strategies the merge of two
fresh width-64 estimators succeeds, and it is not `none`. -/
theorem claim8_witness :
    (⟨fun _ => 7, H2B.M64.default, 0, 1⟩ : HyperTwoBits H2B.M64).hash 42 =
      (⟨fun _ => 7, H2B.M64.default, 0, 1⟩ : HyperTwoBits H2B.M64).hash 42 ∧
    (∃ r, mergeEst h2bM64Ops ⟨fun _ => 7, H2B.M64.default, 0, 1⟩
      ⟨fun _ => 7, H2B.M64.default, 0, 1⟩ = some r) :=
  ⟨rfl, (claim8_merge_panic_iff h2bM64Ops ⟨fun _ => 7, H2B.M64.default, 0, 1⟩
    ⟨fun _ => 7, H2B.M64.default, 0, 1⟩).2 rfl⟩

set_option maxRecDepth 4000 in
/-- C3, counterexample: on a width-64 two-bit estimator whose cached count
sits one below the saturation threshold, the promotion of `insert_hash`
does raise the routed substream to `max(old, L*) = 1`, but the saturation
check that closes the very same call then ages the sketch and the routed
substream ends at level 0, not at `max(old, L*)`. -/
theorem claim3_counterexample :
    h2bM64Ops.val
      (insertHash2 h2bM64Ops
        (⟨fun _ => 0, ⟨2 ^ 63 - 2, 0⟩, 62, 1⟩ : HyperTwoBits H2B.M64) 1).sketch
      (1 >>> h2bM64Ops.IDX_SHIFT) ≠
    max (h2bM64Ops.val
        (⟨fun _ => 0, ⟨2 ^ 63 - 2, 0⟩, 62, 1⟩ : HyperTwoBits H2B.M64).sketch
        (1 >>> h2bM64Ops.IDX_SHIFT))
      (levelFor2 (⟨fun _ => 0, ⟨2 ^ 63 - 2, 0⟩, 62, 1⟩ : HyperTwoBits H2B.M64).t
        (trailingOnes (1 &&& h2bM64Ops.HASH_MASK))) := by decide

/-- C3, amended: whenever the closing saturation check does not fire (the
post-promotion count stays below the threshold), `insert_hash` raises the
routed substream to exactly `max(old level, L*)` — `L*` the largest level
whose threshold (`t, t+4, t+8`, resp. `t, t+4, t+8, t+16, t+32, t+64,
t+128`) is at most the trailing-ones run of the masked residual — and
leaves every other substream unchanged; when the saturation check fires it
additionally ages every substream, so the claim as stated fails there. -/
theorem claim3_insert_level_max {σ : Type} {L : ℕ} (O : SketchOps σ) (Wf : σ → Prop)
    (hL : SketchLaws σ L O Wf) :
    (3 ≤ L → ∀ (e : HyperTwoBits σ) (h : ℕ), Wf e.sketch → h < 2 ^ 64 →
      (insertValue2 O e h).count < thresholdInsert O.STREAMS →
      O.val (insertHash2 O e h).sketch (h >>> O.IDX_SHIFT) =
        max (O.val e.sketch (h >>> O.IDX_SHIFT))
          (levelFor2 e.t (trailingOnes (h &&& O.HASH_MASK))) ∧
      ∀ j, j < O.STREAMS → j ≠ h >>> O.IDX_SHIFT →
        O.val (insertHash2 O e h).sketch j = O.val e.sketch j) ∧
    (7 ≤ L → ∀ (e : HyperTwoBits σ) (h : ℕ), Wf e.sketch → h < 2 ^ 64 →
      (insertValue3 O e h).count < thresholdInsert O.STREAMS →
      O.val (insertHash3 O e h).sketch (h >>> O.IDX_SHIFT) =
        max (O.val e.sketch (h >>> O.IDX_SHIFT))
          (levelFor3 e.t (trailingOnes (h &&& O.HASH_MASK))) ∧
      ∀ j, j < O.STREAMS → j ≠ h >>> O.IDX_SHIFT →
        O.val (insertHash3 O e h).sketch j = O.val e.sketch j) := by
  refine ⟨?_, ?_⟩
  · intro hL3 e h hwf hh hcnt
    have heq : insertHash2 O e h = insertValue2 O e h := satCheck_skip O _ hcnt
    obtain ⟨w2, t2, hh2, v2, o2, c2⟩ := insertValue2_spec O Wf hL hL3 e h hh hwf
    rw [heq]
    exact ⟨v2, o2⟩
  · intro hL7 e h hwf hh hcnt
    have heq : insertHash3 O e h = insertValue3 O e h := satCheck_skip O _ hcnt
    obtain ⟨w3, t3, hh3, v3, o3, c3⟩ := insertValue3_spec O Wf hL hL7 e h hh hwf
    rw [heq]
    exact ⟨v3, o3⟩

/-- C3, witness: the amended promotion law evaluated on a fresh width-64
two-bit estimator with hash 1. -/
theorem claim3_witness :
    (3 ≤ 3) ∧
    H2B.M64.Wf (newEstimator h2bM64Ops (fun _ => 0)).sketch ∧
    (1 : ℕ) < 2 ^ 64 ∧
    (insertValue2 h2bM64Ops (newEstimator h2bM64Ops (fun _ => 0)) 1).count <
      thresholdInsert h2bM64Ops.STREAMS ∧
    h2bM64Ops.val
        (insertHash2 h2bM64Ops (newEstimator h2bM64Ops (fun _ => 0)) 1).sketch
        (1 >>> h2bM64Ops.IDX_SHIFT) =
      max (h2bM64Ops.val (newEstimator h2bM64Ops (fun _ => 0)).sketch
          (1 >>> h2bM64Ops.IDX_SHIFT))
        (levelFor2 (newEstimator h2bM64Ops (fun _ => 0)).t
          (trailingOnes (1 &&& h2bM64Ops.HASH_MASK))) :=
  ⟨by norm_num, ⟨by decide, by decide⟩, by norm_num, by decide,
    ((claim3_insert_level_max h2bM64Ops H2B.M64.Wf h2bM64Laws).1 (by norm_num)
      (newEstimator h2bM64Ops (fun _ => 0)) 1 ⟨by decide, by decide⟩ (by norm_num)
      (by decide)).1⟩

set_option maxRecDepth 4000 in
/-- C5, counterexample: a width-256 two-bit estimator with cached count
252 reaches the insert threshold `⌊0.988·256⌋ = 252`, so the claim
predicts pre-merge aging (generation 5 → 9); but `merge` uses the
different constant `⌊0.99·256⌋ = 253`, so no aging happens and the merged
generation stays 5. -/
theorem claim5_counterexample :
    thresholdInsert ((h2bRegOps 256 56).STREAMS) ≤
      (⟨fun _ => 0, ⟨[⟨0, 2 ^ 128 - 1⟩, ⟨0, 2 ^ 124 - 1⟩]⟩, 252, 5⟩ :
        HyperTwoBits H2B.M128Reg).count ∧
    (mergeEst (h2bRegOps 256 56)
        ⟨fun _ => 0, ⟨[⟨0, 2 ^ 128 - 1⟩, ⟨0, 2 ^ 124 - 1⟩]⟩, 252, 5⟩
        ⟨fun _ => 0, ⟨[⟨0, 2 ^ 128 - 1⟩, ⟨0, 2 ^ 124 - 1⟩]⟩, 252, 5⟩).map
      (fun r => r.t) = some 5 := by
  refine ⟨by decide, by decide⟩

/-- C5, amended: after the generation-gap check, `merge` ages the
higher-generation operand — decrement, adopt the returned count, add 4 to
the generation — if and only if its cached count is at least
`⌊0.99·width⌋` (`thresholdMerge`), which is NOT the insert-path threshold
`⌊0.988·width⌋` (`thresholdInsert`): at width 256 the two differ. -/
theorem claim5_merge_aging_threshold {σ : Type} (O : SketchOps σ)
    (a b : HyperTwoBits σ) (hp : a.hash 42 = b.hash 42) (hle : b.t ≤ a.t)
    (hgap : a.t - b.t ≤ 8) :
    ((mergeEst O a b).map (fun r => r.t) =
      some (if a.count ≥ thresholdMerge O.STREAMS then a.t + 4 else a.t)) ∧
    thresholdMerge 256 ≠ thresholdInsert 256 := by
  refine ⟨?_, by decide⟩
  by_cases hthr : a.count ≥ thresholdMerge O.STREAMS
  · rw [mergeEst_close_aged O a b hp hle hgap hthr]
    simp [hthr]
  · rw [mergeEst_close_unaged O a b hp hle hgap (by omega)]
    simp [hthr]

/-- C5, witness: the aging rule evaluated on two generation-5 width-64
estimators with count 0 (below both thresholds: generation stays 5). -/
theorem claim5_witness :
    (⟨fun _ => 0, H2B.M64.default, 0, 5⟩ : HyperTwoBits H2B.M64).hash 42 =
      (⟨fun _ => 0, H2B.M64.default, 0, 5⟩ : HyperTwoBits H2B.M64).hash 42 ∧
    (⟨fun _ => 0, H2B.M64.default, 0, 5⟩ : HyperTwoBits H2B.M64).t ≤
      (⟨fun _ => 0, H2B.M64.default, 0, 5⟩ : HyperTwoBits H2B.M64).t ∧
    (⟨fun _ => 0, H2B.M64.default, 0, 5⟩ : HyperTwoBits H2B.M64).t -
      (⟨fun _ => 0, H2B.M64.default, 0, 5⟩ : HyperTwoBits H2B.M64).t ≤ 8 ∧
    (mergeEst h2bM64Ops ⟨fun _ => 0, H2B.M64.default, 0, 5⟩
        ⟨fun _ => 0, H2B.M64.default, 0, 5⟩).map (fun r => r.t) =
      some (if (⟨fun _ => 0, H2B.M64.default, 0, 5⟩ : HyperTwoBits H2B.M64).count ≥
          thresholdMerge h2bM64Ops.STREAMS
        then (⟨fun _ => 0, H2B.M64.default, 0, 5⟩ : HyperTwoBits H2B.M64).t + 4
        else (⟨fun _ => 0, H2B.M64.default, 0, 5⟩ : HyperTwoBits H2B.M64).t) :=
  ⟨rfl, by norm_num, by norm_num,
    (claim5_merge_aging_threshold h2bM64Ops ⟨fun _ => 0, H2B.M64.default, 0, 5⟩
      ⟨fun _ => 0, H2B.M64.default, 0, 5⟩ rfl (by norm_num) (by norm_num)).1⟩

/-- C6: when the deferred saturation check cannot fire at any intermediate
point of the sequential run, `insert2` equals two sequential `insert`
calls and `insert4` equals four, field for field. -/
theorem claim6_batch_insert_equiv {σ : Type} (O : SketchOps σ)
    (e : HyperTwoBits σ) (v1 v2 v3 v4 : ℕ) :
    ((insertValue2 O e (e.hash v1)).count < thresholdInsert O.STREAMS →
      insertTwo O e v1 v2 = insert2b O (insert2b O e v1) v2) ∧
    ((insertValue2 O e (e.hash v1)).count < thresholdInsert O.STREAMS →
      (insertValue2 O (insertValue2 O e (e.hash v1)) (e.hash v2)).count <
        thresholdInsert O.STREAMS →
      (insertValue2 O (insertValue2 O (insertValue2 O e (e.hash v1)) (e.hash v2))
        (e.hash v3)).count < thresholdInsert O.STREAMS →
      insertFour O e v1 v2 v3 v4 =
        insert2b O (insert2b O (insert2b O (insert2b O e v1) v2) v3) v4) := by
  constructor
  · intro h1
    have s1 : insert2b O e v1 = insertValue2 O e (e.hash v1) := satCheck_skip O _ h1
    have s1h : (insert2b O e v1).hash = e.hash := by rw [s1, insertValue2_hash_eq]
    show satCheck O (insertValue2 O (insertValue2 O e (e.hash v1)) (e.hash v2)) =
      satCheck O (insertValue2 O (insert2b O e v1) ((insert2b O e v1).hash v2))
    rw [s1h, s1]
  · intro h1 h2 h3
    have s1 : insert2b O e v1 = insertValue2 O e (e.hash v1) := satCheck_skip O _ h1
    have s1h : (insert2b O e v1).hash = e.hash := by rw [s1, insertValue2_hash_eq]
    have s2 : insert2b O (insert2b O e v1) v2 =
        insertValue2 O (insertValue2 O e (e.hash v1)) (e.hash v2) := by
      show satCheck O (insertValue2 O (insert2b O e v1) ((insert2b O e v1).hash v2)) = _
      rw [s1h, s1]
      exact satCheck_skip O _ h2
    have s2h : (insert2b O (insert2b O e v1) v2).hash = e.hash := by
      rw [s2, insertValue2_hash_eq, insertValue2_hash_eq]
    have s3 : insert2b O (insert2b O (insert2b O e v1) v2) v3 =
        insertValue2 O (insertValue2 O (insertValue2 O e (e.hash v1)) (e.hash v2))
          (e.hash v3) := by
      show satCheck O (insertValue2 O (insert2b O (insert2b O e v1) v2)
        ((insert2b O (insert2b O e v1) v2).hash v3)) = _
      rw [s2h, s2]
      exact satCheck_skip O _ h3
    have s3h : (insert2b O (insert2b O (insert2b O e v1) v2) v3).hash = e.hash := by
      rw [s3, insertValue2_hash_eq, insertValue2_hash_eq, insertValue2_hash_eq]
    show satCheck O (insertValue2 O (insertValue2 O (insertValue2 O
        (insertValue2 O e (e.hash v1)) (e.hash v2)) (e.hash v3)) (e.hash v4)) =
      satCheck O (insertValue2 O (insert2b O (insert2b O (insert2b O e v1) v2) v3)
        ((insert2b O (insert2b O (insert2b O e v1) v2) v3).hash v4))
    rw [s3h, s3]

/-- C6, witness: batching two inserts on a fresh width-64 estimator with a
constant hash agrees with two sequential inserts. -/
theorem claim6_witness :
    (insertValue2 h2bM64Ops (newEstimator h2bM64Ops (fun _ => 3))
        ((newEstimator h2bM64Ops (fun _ => 3)).hash 0)).count <
      thresholdInsert h2bM64Ops.STREAMS ∧
    insertTwo h2bM64Ops (newEstimator h2bM64Ops (fun _ => 3)) 0 1 =
      insert2b h2bM64Ops (insert2b h2bM64Ops (newEstimator h2bM64Ops (fun _ => 3)) 0) 1 :=
  ⟨by decide,
    (claim6_batch_insert_equiv h2bM64Ops (newEstimator h2bM64Ops (fun _ => 3))
      0 1 0 0).1 (by decide)⟩

theorem insertValue2_count_or {σ : Type} (O : SketchOps σ) (e : HyperTwoBits σ) (h : ℕ) :
    ((insertValue2 O e h).count = e.count ∨ (insertValue2 O e h).count = e.count + 1) ∧
    (insertValue2 O e h).t = e.t := by
  refine ⟨?_, ?_⟩
  · simp only [insertValue2]
    split
    · split
      · split <;> simp
      · split <;> simp
    · split
      · split <;> simp
      · split <;> simp
  · simp only [insertValue2]
    split
    · split
      · split <;> rfl
      · split <;> rfl
    · split
      · split <;> rfl
      · split <;> rfl

theorem countEstimate_ne_one {σ : Type} (O : SketchOps σ) (e : HyperTwoBits σ)
    (hS : O.STREAMS = 512) (ht : e.t = 1) (hc : e.count = 0 ∨ e.count = 1) :
    countEstimate O e ≠ 1 := by
  unfold countEstimate
  rw [hS, ht]
  rcases hc with hc | hc <;> rw [hc]
  · norm_num [Real.log_one]
  · have harg : (1 : ℝ) / (1 - ((1 : ℕ) : ℝ) / ((512 : ℕ) : ℝ)) = 512 / 511 := by
      push_cast
      norm_num
    rw [harg]
    have h2 : (2 : ℝ) ^ (1 : ℕ) * ((512 : ℕ) : ℝ) = 1024 := by
      push_cast
      norm_num
    rw [h2]
    have hup : Real.log ((512 : ℝ) / 511) ≤ 1 / 511 := by
      have hx := Real.log_le_sub_one_of_pos (show (0 : ℝ) < 512 / 511 by norm_num)
      have he : (512 : ℝ) / 511 - 1 = 1 / 511 := by norm_num
      linarith
    have hlo : (1 : ℝ) / 512 ≤ Real.log ((512 : ℝ) / 511) := by
      have hx := Real.log_le_sub_one_of_pos (show (0 : ℝ) < 511 / 512 by norm_num)
      have hinv : Real.log ((511 : ℝ) / 512) = -Real.log ((512 : ℝ) / 511) := by
        rw [show (511 : ℝ) / 512 = ((512 : ℝ) / 511)⁻¹ by norm_num, Real.log_inv]
      rw [hinv] at hx
      have he : (511 : ℝ) / 512 - 1 = -(1 / 512) := by norm_num
      linarith
    have hfloor : ⌊(1024 : ℝ) * Real.log ((512 : ℝ) / 511)⌋ = 2 := by
      apply Int.floor_eq_iff.mpr
      constructor
      · push_cast
        linarith
      · push_cast
        linarith
    rw [hfloor]
    norm_num

/-- C9: the crate doc-test asserts `count() == 1` after the first insert
into a fresh width-512 two-bit estimator, but the estimate
`(2^t · 512 · ln(1/(1 - count/512))) as u64` at generation 1 yields 0 when
the active count is 0 and `⌊1024·ln(512/511)⌋ = 2` when it is 1 — it can
never yield 1 after one insert, for any hash strategy and any digest, so
the documented behaviour contradicts the `count()` code. -/
theorem claim9_doc_test_impossible (H : ℕ → ℕ) (h : ℕ) :
    countEstimate (h2bRegOps 512 55)
      (insertHash2 (h2bRegOps 512 55) (newEstimator (h2bRegOps 512 55) H) h) ≠ 1 := by
  obtain ⟨hc, ht⟩ :=
    insertValue2_count_or (h2bRegOps 512 55) (newEstimator (h2bRegOps 512 55) H) h
  have hc' : (insertValue2 (h2bRegOps 512 55) (newEstimator (h2bRegOps 512 55) H) h).count
        = 0 ∨
      (insertValue2 (h2bRegOps 512 55) (newEstimator (h2bRegOps 512 55) H) h).count = 1 :=
    hc
  have ht' : (insertValue2 (h2bRegOps 512 55) (newEstimator (h2bRegOps 512 55) H) h).t = 1 :=
    ht
  have hlt : (insertValue2 (h2bRegOps 512 55) (newEstimator (h2bRegOps 512 55) H) h).count <
      thresholdInsert (h2bRegOps 512 55).STREAMS := by
    rcases hc' with hx | hx <;> rw [hx] <;> norm_num [thresholdInsert, h2bRegOps]
  have hskip : insertHash2 (h2bRegOps 512 55) (newEstimator (h2bRegOps 512 55) H) h =
      insertValue2 (h2bRegOps 512 55) (newEstimator (h2bRegOps 512 55) H) h :=
    satCheck_skip _ _ hlt
  rw [hskip]
  exact countEstimate_ne_one _ _ rfl ht' hc'

/-- The extra 32 zero registers `M8192 = M128Reg<64>` carries beyond the
32 that `STREAMS = 4096` can ever address. -/
def pad32 (s : H2B.M128Reg) : H2B.M128Reg :=
  ⟨s.registers ++ List.replicate 32 H2B.HiLoRegister.zero⟩

/-- The `Sketch` implementation of `M8192` (src/h2b/sketch.rs lines
459-496): the constants of `M4096` — `STREAMS = 4096`, `IDX_SHIFT = 52`,
52-bit `HASH_MASK` — over the doubled 64-register storage. -/
def h2bM8192Ops : SketchOps H2B.M128Reg :=
  { h2bRegOps 4096 52 with dflt := H2B.M128Reg.defaultR 64 }

theorem getD_replicate_zero (k m : ℕ) :
    (List.replicate m H2B.HiLoRegister.zero).getD k H2B.HiLoRegister.zero =
      H2B.HiLoRegister.zero := by
  rcases lt_or_ge k m with hk | hk
  · rw [List.getD_eq_getElem _ _ (by simpa using hk), List.getElem_replicate]
  · rw [List.getD_eq_default _ _ (by simpa using hk)]

theorem pad32_getD (s : H2B.M128Reg) (n : ℕ) (hlen : s.registers.length = 32) :
    (pad32 s).registers.getD n H2B.HiLoRegister.zero =
      s.registers.getD n H2B.HiLoRegister.zero := by
  show (s.registers ++ List.replicate 32 H2B.HiLoRegister.zero).getD n
      H2B.HiLoRegister.zero = _
  rcases lt_or_ge n 32 with hn | hn
  · exact List.getD_append _ _ _ _ (by rw [hlen]; exact hn)
  · rw [List.getD_append_right _ _ _ _ (by rw [hlen]; exact hn), getD_replicate_zero,
      List.getD_eq_default _ _ (by rw [hlen]; exact hn)]

theorem pad32_val (s : H2B.M128Reg) (i : ℕ) (hlen : s.registers.length = 32) :
    H2B.M128Reg.val (pad32 s) i = H2B.M128Reg.val s i := by
  show ((pad32 s).registers.getD (i / H2B.REG_SIZE) H2B.HiLoRegister.zero).valBits
      (i % H2B.REG_SIZE) =
    (s.registers.getD (i / H2B.REG_SIZE) H2B.HiLoRegister.zero).valBits (i % H2B.REG_SIZE)
  rw [pad32_getD s _ hlen]

theorem pad32_val_hi (s : H2B.M128Reg) (i : ℕ) (hlen : s.registers.length = 32)
    (hi : 4096 ≤ i) : H2B.M128Reg.val (pad32 s) i = 0 := by
  rw [pad32_val s i hlen]
  show (s.registers.getD (i / H2B.REG_SIZE) H2B.HiLoRegister.zero).valBits
      (i % H2B.REG_SIZE) = 0
  have hge : s.registers.length ≤ i / H2B.REG_SIZE := by
    rw [hlen]
    simp only [H2B.REG_SIZE]
    omega
  rw [List.getD_eq_default _ _ hge, H2B.HiLoRegister.valBits_char_hl]
  simp [H2B.HiLoRegister.zero]

theorem pad32_set (s : H2B.M128Reg) (i v : ℕ) (hlen : s.registers.length = 32)
    (hi : i < 4096) :
    H2B.M128Reg.set (pad32 s) i v = pad32 (H2B.M128Reg.set s i v) := by
  have hr : i / H2B.REG_SIZE < 32 := by
    simp only [H2B.REG_SIZE]
    omega
  show (⟨(s.registers ++ List.replicate 32 H2B.HiLoRegister.zero).set (i / H2B.REG_SIZE)
      (((s.registers ++ List.replicate 32 H2B.HiLoRegister.zero).getD (i / H2B.REG_SIZE)
          H2B.HiLoRegister.zero).setBits (i % H2B.REG_SIZE) v)⟩ : H2B.M128Reg) =
    (⟨(s.registers.set (i / H2B.REG_SIZE)
        ((s.registers.getD (i / H2B.REG_SIZE) H2B.HiLoRegister.zero).setBits
          (i % H2B.REG_SIZE) v)) ++ List.replicate 32 H2B.HiLoRegister.zero⟩ : H2B.M128Reg)
  rw [List.getD_append _ _ _ _ (by rw [hlen]; exact hr),
    List.set_append_left _ _ (by rw [hlen]; exact hr)]

theorem pad32_dec (s : H2B.M128Reg) :
    H2B.M128Reg.decrement (pad32 s) =
      (pad32 (H2B.M128Reg.decrement s).1, (H2B.M128Reg.decrement s).2) := by
  unfold H2B.M128Reg.decrement pad32
  dsimp only
  rw [List.map_append, List.map_append, List.map_replicate, List.map_replicate,
    List.sum_append]
  rw [show H2B.HiLoRegister.dec H2B.HiLoRegister.zero = H2B.HiLoRegister.zero from by decide,
    show popCount H2B.HiLoRegister.zero.high = 0 from rfl]
  simp

theorem pad32_count (s : H2B.M128Reg) :
    H2B.M128Reg.count (pad32 s) = H2B.M128Reg.count s := by
  unfold H2B.M128Reg.count pad32
  dsimp only
  rw [List.map_append, List.sum_append, List.map_replicate]
  rw [show popCount (H2B.HiLoRegister.zero.high ||| H2B.HiLoRegister.zero.low) = 0 from rfl]
  simp

theorem set_len32 (s : H2B.M128Reg) (i v : ℕ) (hlen : s.registers.length = 32) :
    (H2B.M128Reg.set s i v).registers.length = 32 := by
  show (s.registers.set _ _).length = 32
  rw [List.length_set]
  exact hlen

theorem insertValue2_pad (e : HyperTwoBits H2B.M128Reg) (h : ℕ)
    (hlen : e.sketch.registers.length = 32) (hh : h < 2 ^ 64) :
    insertValue2 (h2bRegOps 4096 52) { e with sketch := pad32 e.sketch } h =
      { insertValue2 (h2bRegOps 4096 52) e h with
        sketch := pad32 (insertValue2 (h2bRegOps 4096 52) e h).sketch } := by
  have hstrm : h >>> 52 < 4096 := by
    rw [Nat.shiftRight_eq_div_pow]
    apply Nat.div_lt_of_lt_mul
    norm_num at hh ⊢
    omega
  have hl1 : ∀ v, (H2B.M128Reg.set e.sketch (h >>> 52) v).registers.length = 32 :=
    fun v => set_len32 e.sketch _ v hlen
  have hl2 : ∀ v w, (H2B.M128Reg.set (H2B.M128Reg.set e.sketch (h >>> 52) v)
      (h >>> 52) w).registers.length = 32 :=
    fun v w => set_len32 _ _ w (hl1 v)
  simp only [insertValue2, h2bRegOps]
  rw [pad32_val e.sketch (h >>> 52) hlen]
  by_cases c1 : trailingOnes (h &&& (2 ^ 52 - 1)) ≥ e.t ∧
      H2B.M128Reg.val e.sketch (h >>> 52) < 1
  · rw [if_pos c1, if_pos c1]
    dsimp only
    rw [pad32_set e.sketch (h >>> 52) 1 hlen hstrm,
      pad32_val (H2B.M128Reg.set e.sketch (h >>> 52) 1) (h >>> 52) (hl1 1)]
    by_cases c2 : trailingOnes (h &&& (2 ^ 52 - 1)) ≥ e.t + 4 ∧
        H2B.M128Reg.val (H2B.M128Reg.set e.sketch (h >>> 52) 1) (h >>> 52) < 2
    · rw [if_pos c2, if_pos c2]
      dsimp only
      rw [pad32_set (H2B.M128Reg.set e.sketch (h >>> 52) 1) (h >>> 52) 2 (hl1 1) hstrm,
        pad32_val (H2B.M128Reg.set (H2B.M128Reg.set e.sketch (h >>> 52) 1) (h >>> 52) 2)
          (h >>> 52) (hl2 1 2)]
      by_cases c3 : trailingOnes (h &&& (2 ^ 52 - 1)) ≥ e.t + 8 ∧
          H2B.M128Reg.val (H2B.M128Reg.set (H2B.M128Reg.set e.sketch (h >>> 52) 1)
            (h >>> 52) 2) (h >>> 52) < 3
      · rw [if_pos c3, if_pos c3]
        dsimp only
        rw [pad32_set (H2B.M128Reg.set (H2B.M128Reg.set e.sketch (h >>> 52) 1)
          (h >>> 52) 2) (h >>> 52) 3 (hl2 1 2) hstrm]
      · rw [if_neg c3, if_neg c3]
    · rw [if_neg c2, if_neg c2]
      dsimp only
      rw [pad32_val (H2B.M128Reg.set e.sketch (h >>> 52) 1) (h >>> 52) (hl1 1)]
      by_cases c3 : trailingOnes (h &&& (2 ^ 52 - 1)) ≥ e.t + 8 ∧
          H2B.M128Reg.val (H2B.M128Reg.set e.sketch (h >>> 52) 1) (h >>> 52) < 3
      · rw [if_pos c3, if_pos c3]
        dsimp only
        rw [pad32_set (H2B.M128Reg.set e.sketch (h >>> 52) 1) (h >>> 52) 3 (hl1 1) hstrm]
      · rw [if_neg c3, if_neg c3]
  · rw [if_neg c1, if_neg c1]
    dsimp only
    rw [pad32_val e.sketch (h >>> 52) hlen]
    by_cases c2 : trailingOnes (h &&& (2 ^ 52 - 1)) ≥ e.t + 4 ∧
        H2B.M128Reg.val e.sketch (h >>> 52) < 2
    · rw [if_pos c2, if_pos c2]
      dsimp only
      rw [pad32_set e.sketch (h >>> 52) 2 hlen hstrm,
        pad32_val (H2B.M128Reg.set e.sketch (h >>> 52) 2) (h >>> 52) (hl1 2)]
      by_cases c3 : trailingOnes (h &&& (2 ^ 52 - 1)) ≥ e.t + 8 ∧
          H2B.M128Reg.val (H2B.M128Reg.set e.sketch (h >>> 52) 2) (h >>> 52) < 3
      · rw [if_pos c3, if_pos c3]
        dsimp only
        rw [pad32_set (H2B.M128Reg.set e.sketch (h >>> 52) 2) (h >>> 52) 3 (hl1 2) hstrm]
      · rw [if_neg c3, if_neg c3]
    · rw [if_neg c2, if_neg c2]
      dsimp only
      rw [pad32_val e.sketch (h >>> 52) hlen]
      by_cases c3 : trailingOnes (h &&& (2 ^ 52 - 1)) ≥ e.t + 8 ∧
          H2B.M128Reg.val e.sketch (h >>> 52) < 3
      · rw [if_pos c3, if_pos c3]
        dsimp only
        rw [pad32_set e.sketch (h >>> 52) 3 hlen hstrm]
      · rw [if_neg c3, if_neg c3]

theorem satCheck_pad32 (x : HyperTwoBits H2B.M128Reg) :
    satCheck (h2bRegOps 4096 52) { x with sketch := pad32 x.sketch } =
      { satCheck (h2bRegOps 4096 52) x with
        sketch := pad32 (satCheck (h2bRegOps 4096 52) x).sketch } := by
  simp only [satCheck, h2bRegOps]
  by_cases hc : x.count ≥ thresholdInsert 4096
  · rw [if_pos hc, if_pos hc]
    dsimp only
    rw [pad32_dec x.sketch]
  · rw [if_neg hc, if_neg hc]

theorem insertHash2_pad (e : HyperTwoBits H2B.M128Reg) (h : ℕ)
    (hlen : e.sketch.registers.length = 32) (hh : h < 2 ^ 64) :
    insertHash2 (h2bRegOps 4096 52) { e with sketch := pad32 e.sketch } h =
      { insertHash2 (h2bRegOps 4096 52) e h with
        sketch := pad32 (insertHash2 (h2bRegOps 4096 52) e h).sketch } := by
  unfold insertHash2
  rw [insertValue2_pad e h hlen hh]
  exact satCheck_pad32 (insertValue2 (h2bRegOps 4096 52) e h)

theorem insertHash2_m8192_eq (e : HyperTwoBits H2B.M128Reg) (h : ℕ) :
    insertHash2 h2bM8192Ops e h = insertHash2 (h2bRegOps 4096 52) e h := rfl

theorem countEstimate_m8192_eq (e : HyperTwoBits H2B.M128Reg) :
    countEstimate h2bM8192Ops e = countEstimate (h2bRegOps 4096 52) e := rfl

/-- The extra 32 zero registers the three-bit `M8192 = M128Reg<64>`
carries beyond the 32 that `STREAMS = 4096` can ever address. -/
def pad32h3 (s : H3B.M128Reg) : H3B.M128Reg :=
  ⟨s.registers ++ List.replicate 32 H3B.BitRegister.zero⟩

/-- The `Sketch` implementation of the three-bit `M8192`
(src/h3b/sketch.rs lines 503-540): the constants of `M4096` —
`STREAMS = 4096`, `IDX_SHIFT = 52`, 52-bit `HASH_MASK` — over the doubled
64-register storage, with the trait-default decrement loop over
`0..4096`. -/
def h3bM8192Ops : SketchOps H3B.M128Reg :=
  { h3bRegOps 4096 52 with dflt := H3B.M128Reg.defaultR 64 }

theorem getD_replicate_zero3 (k m : ℕ) :
    (List.replicate m H3B.BitRegister.zero).getD k H3B.BitRegister.zero =
      H3B.BitRegister.zero := by
  rcases lt_or_ge k m with hk | hk
  · rw [List.getD_eq_getElem _ _ (by simpa using hk), List.getElem_replicate]
  · rw [List.getD_eq_default _ _ (by simpa using hk)]

theorem pad32h3_getD (s : H3B.M128Reg) (n : ℕ) (hlen : s.registers.length = 32) :
    (pad32h3 s).registers.getD n H3B.BitRegister.zero =
      s.registers.getD n H3B.BitRegister.zero := by
  show (s.registers ++ List.replicate 32 H3B.BitRegister.zero).getD n
      H3B.BitRegister.zero = _
  rcases lt_or_ge n 32 with hn | hn
  · exact List.getD_append _ _ _ _ (by rw [hlen]; exact hn)
  · rw [List.getD_append_right _ _ _ _ (by rw [hlen]; exact hn), getD_replicate_zero3,
      List.getD_eq_default _ _ (by rw [hlen]; exact hn)]

theorem pad32h3_val (s : H3B.M128Reg) (i : ℕ) (hlen : s.registers.length = 32) :
    H3B.M128Reg.val (pad32h3 s) i = H3B.M128Reg.val s i := by
  show ((pad32h3 s).registers.getD (i / H2B.REG_SIZE) H3B.BitRegister.zero).valBits
      (i % H2B.REG_SIZE) =
    (s.registers.getD (i / H2B.REG_SIZE) H3B.BitRegister.zero).valBits (i % H2B.REG_SIZE)
  rw [pad32h3_getD s _ hlen]

theorem pad32h3_val_hi (s : H3B.M128Reg) (i : ℕ) (hlen : s.registers.length = 32)
    (hi : 4096 ≤ i) : H3B.M128Reg.val (pad32h3 s) i = 0 := by
  rw [pad32h3_val s i hlen]
  show (s.registers.getD (i / H2B.REG_SIZE) H3B.BitRegister.zero).valBits
      (i % H2B.REG_SIZE) = 0
  have hge : s.registers.length ≤ i / H2B.REG_SIZE := by
    rw [hlen]
    simp only [H2B.REG_SIZE]
    omega
  rw [List.getD_eq_default _ _ hge, H3B.BitRegister.valBits_char_br]
  simp [H3B.BitRegister.zero]

theorem pad32h3_set (s : H3B.M128Reg) (i v : ℕ) (hlen : s.registers.length = 32)
    (hi : i < 4096) :
    H3B.M128Reg.set (pad32h3 s) i v = pad32h3 (H3B.M128Reg.set s i v) := by
  have hr : i / H2B.REG_SIZE < 32 := by
    simp only [H2B.REG_SIZE]
    omega
  show (⟨(s.registers ++ List.replicate 32 H3B.BitRegister.zero).set (i / H2B.REG_SIZE)
      (((s.registers ++ List.replicate 32 H3B.BitRegister.zero).getD (i / H2B.REG_SIZE)
          H3B.BitRegister.zero).setBits (i % H2B.REG_SIZE) v)⟩ : H3B.M128Reg) =
    (⟨(s.registers.set (i / H2B.REG_SIZE)
        ((s.registers.getD (i / H2B.REG_SIZE) H3B.BitRegister.zero).setBits
          (i % H2B.REG_SIZE) v)) ++ List.replicate 32 H3B.BitRegister.zero⟩ : H3B.M128Reg)
  rw [List.getD_append _ _ _ _ (by rw [hlen]; exact hr),
    List.set_append_left _ _ (by rw [hlen]; exact hr)]

theorem set_len32h3 (s : H3B.M128Reg) (i v : ℕ) (hlen : s.registers.length = 32) :
    (H3B.M128Reg.set s i v).registers.length = 32 := by
  show (s.registers.set _ _).length = 32
  rw [List.length_set]
  exact hlen

theorem pad32h3_count (s : H3B.M128Reg) :
    H3B.M128Reg.count (pad32h3 s) = H3B.M128Reg.count s := by
  unfold H3B.M128Reg.count pad32h3
  dsimp only
  rw [List.map_append, List.sum_append, List.map_replicate]
  rw [show popCount (H3B.BitRegister.zero.middle ||| H3B.BitRegister.zero.low |||
    H3B.BitRegister.zero.high) = 0 from rfl]
  simp

theorem decLoop_pad : ∀ n : ℕ, n ≤ 4096 → ∀ s : H3B.M128Reg, s.registers.length = 32 →
    H3B.decLoop H3B.M128Reg.val H3B.M128Reg.set n (pad32h3 s) =
      pad32h3 (H3B.decLoop H3B.M128Reg.val H3B.M128Reg.set n s) ∧
    (H3B.decLoop H3B.M128Reg.val H3B.M128Reg.set n s).registers.length = 32 := by
  intro n
  induction n with
  | zero => exact fun _ s hlen => ⟨rfl, hlen⟩
  | succ n ih =>
    intro hn s hlen
    obtain ⟨hpad, hlen'⟩ := ih (by omega) s hlen
    have hval := pad32h3_val (H3B.decLoop H3B.M128Reg.val H3B.M128Reg.set n s) n hlen'
    constructor
    · show (if H3B.M128Reg.val (H3B.decLoop H3B.M128Reg.val H3B.M128Reg.set n (pad32h3 s)) n > 0
          then H3B.M128Reg.set (H3B.decLoop H3B.M128Reg.val H3B.M128Reg.set n (pad32h3 s)) n
            (H3B.M128Reg.val (H3B.decLoop H3B.M128Reg.val H3B.M128Reg.set n (pad32h3 s)) n - 1)
          else H3B.decLoop H3B.M128Reg.val H3B.M128Reg.set n (pad32h3 s)) =
        pad32h3 (if H3B.M128Reg.val (H3B.decLoop H3B.M128Reg.val H3B.M128Reg.set n s) n > 0
          then H3B.M128Reg.set (H3B.decLoop H3B.M128Reg.val H3B.M128Reg.set n s) n
            (H3B.M128Reg.val (H3B.decLoop H3B.M128Reg.val H3B.M128Reg.set n s) n - 1)
          else H3B.decLoop H3B.M128Reg.val H3B.M128Reg.set n s)
      rw [hpad, hval]
      split_ifs with hv
      · exact pad32h3_set _ n _ hlen' (by omega)
      · rfl
    · show (if H3B.M128Reg.val (H3B.decLoop H3B.M128Reg.val H3B.M128Reg.set n s) n > 0
          then H3B.M128Reg.set (H3B.decLoop H3B.M128Reg.val H3B.M128Reg.set n s) n
            (H3B.M128Reg.val (H3B.decLoop H3B.M128Reg.val H3B.M128Reg.set n s) n - 1)
          else H3B.decLoop H3B.M128Reg.val H3B.M128Reg.set n s).registers.length = 32
      split_ifs with hv
      · exact set_len32h3 _ n _ hlen'
      · exact hlen'

theorem pad32h3_decW (s : H3B.M128Reg) (hlen : s.registers.length = 32) :
    H3B.M128Reg.decrementW 4096 (pad32h3 s) =
      (pad32h3 (H3B.M128Reg.decrementW 4096 s).1, (H3B.M128Reg.decrementW 4096 s).2) := by
  obtain ⟨hpad, hlen'⟩ := decLoop_pad 4096 (le_refl 4096) s hlen
  unfold H3B.M128Reg.decrementW
  dsimp only
  rw [hpad, pad32h3_count]

theorem pad_step {σ : Type} (O : SketchOps σ) (p : σ → σ) (x y : HyperTwoBits σ)
    (strm w k v : ℕ)
    (hxy : x = { y with sketch := p y.sketch })
    (hval : O.val (p y.sketch) strm = O.val y.sketch strm)
    (hset : O.set (p y.sketch) strm v = p (O.set y.sketch strm v)) :
    (if w ≥ x.t + k ∧ O.val x.sketch strm < v
      then { x with sketch := O.set x.sketch strm v } else x) =
    { (if w ≥ y.t + k ∧ O.val y.sketch strm < v
        then { y with sketch := O.set y.sketch strm v } else y) with
      sketch := p (if w ≥ y.t + k ∧ O.val y.sketch strm < v
        then { y with sketch := O.set y.sketch strm v } else y).sketch } := by
  subst hxy
  dsimp only
  rw [hval]
  split_ifs with hc
  · dsimp only
    rw [hset]
  · rfl

theorem pad_step1 {σ : Type} (O : SketchOps σ) (p : σ → σ) (x y : HyperTwoBits σ)
    (strm w : ℕ)
    (hxy : x = { y with sketch := p y.sketch })
    (hval : O.val (p y.sketch) strm = O.val y.sketch strm)
    (hset : O.set (p y.sketch) strm 1 = p (O.set y.sketch strm 1)) :
    (if w ≥ x.t ∧ O.val x.sketch strm < 1
      then { x with count := x.count + 1, sketch := O.set x.sketch strm 1 } else x) =
    { (if w ≥ y.t ∧ O.val y.sketch strm < 1
        then { y with count := y.count + 1, sketch := O.set y.sketch strm 1 } else y) with
      sketch := p (if w ≥ y.t ∧ O.val y.sketch strm < 1
        then { y with count := y.count + 1, sketch := O.set y.sketch strm 1 } else y).sketch } := by
  subst hxy
  dsimp only
  rw [hval]
  split_ifs with hc
  · dsimp only
    rw [hset]
  · rfl

theorem insertValue3_pad (e : HyperTwoBits H3B.M128Reg) (h : ℕ)
    (hlen : e.sketch.registers.length = 32) (hh : h < 2 ^ 64) :
    insertValue3 (h3bRegOps 4096 52) { e with sketch := pad32h3 e.sketch } h =
      { insertValue3 (h3bRegOps 4096 52) e h with
        sketch := pad32h3 (insertValue3 (h3bRegOps 4096 52) e h).sketch } ∧
    (insertValue3 (h3bRegOps 4096 52) e h).sketch.registers.length = 32 := by
  obtain ⟨R, hR⟩ : ∃ R, insertValue3 (h3bRegOps 4096 52) e h = R := ⟨_, rfl⟩
  obtain ⟨Lp, hLp⟩ : ∃ Lp, insertValue3 (h3bRegOps 4096 52)
      { e with sketch := pad32h3 e.sketch } h = Lp := ⟨_, rfl⟩
  rw [hR, hLp]
  delta insertValue3 at hR hLp
  lift_lets at hR hLp
  extract_lets strm hsh E1 E2 E3 E4 E5 E6 E7 at hR
  extract_lets strm2 hsh2 F1 F2 F3 F4 F5 F6 F7 at hLp
  have hs2 : strm2 < 4096 := by
    show h >>> 52 < 4096
    rw [Nat.shiftRight_eq_div_pow]
    apply Nat.div_lt_of_lt_mul
    norm_num at hh ⊢
    omega
  have hlen1 : E1.sketch.registers.length = 32 := by
    show (if trailingOnes hsh ≥ e.t ∧ (h3bRegOps 4096 52).val e.sketch strm < 1 then
        { e with count := e.count + 1, sketch := (h3bRegOps 4096 52).set e.sketch strm 1 }
      else e).sketch.registers.length = 32
    split
    · exact set_len32h3 e.sketch strm 1 hlen
    · exact hlen
  have hlen2 : E2.sketch.registers.length = 32 := by
    show (if trailingOnes hsh ≥ E1.t + 4 ∧ (h3bRegOps 4096 52).val E1.sketch strm < 2 then
        { E1 with sketch := (h3bRegOps 4096 52).set E1.sketch strm 2 }
      else E1).sketch.registers.length = 32
    split
    · exact set_len32h3 E1.sketch strm 2 hlen1
    · exact hlen1
  have hlen3 : E3.sketch.registers.length = 32 := by
    show (if trailingOnes hsh ≥ E2.t + 8 ∧ (h3bRegOps 4096 52).val E2.sketch strm < 3 then
        { E2 with sketch := (h3bRegOps 4096 52).set E2.sketch strm 3 }
      else E2).sketch.registers.length = 32
    split
    · exact set_len32h3 E2.sketch strm 3 hlen2
    · exact hlen2
  have hlen4 : E4.sketch.registers.length = 32 := by
    show (if trailingOnes hsh ≥ E3.t + 16 ∧ (h3bRegOps 4096 52).val E3.sketch strm < 4 then
        { E3 with sketch := (h3bRegOps 4096 52).set E3.sketch strm 4 }
      else E3).sketch.registers.length = 32
    split
    · exact set_len32h3 E3.sketch strm 4 hlen3
    · exact hlen3
  have hlen5 : E5.sketch.registers.length = 32 := by
    show (if trailingOnes hsh ≥ E4.t + 32 ∧ (h3bRegOps 4096 52).val E4.sketch strm < 5 then
        { E4 with sketch := (h3bRegOps 4096 52).set E4.sketch strm 5 }
      else E4).sketch.registers.length = 32
    split
    · exact set_len32h3 E4.sketch strm 5 hlen4
    · exact hlen4
  have hlen6 : E6.sketch.registers.length = 32 := by
    show (if trailingOnes hsh ≥ E5.t + 64 ∧ (h3bRegOps 4096 52).val E5.sketch strm < 6 then
        { E5 with sketch := (h3bRegOps 4096 52).set E5.sketch strm 6 }
      else E5).sketch.registers.length = 32
    split
    · exact set_len32h3 E5.sketch strm 6 hlen5
    · exact hlen5
  have hlen7 : E7.sketch.registers.length = 32 := by
    show (if trailingOnes hsh ≥ E6.t + 128 ∧ (h3bRegOps 4096 52).val E6.sketch strm < 7 then
        { E6 with sketch := (h3bRegOps 4096 52).set E6.sketch strm 7 }
      else E6).sketch.registers.length = 32
    split
    · exact set_len32h3 E6.sketch strm 7 hlen6
    · exact hlen6
  have hpad1 : F1 = { E1 with sketch := pad32h3 E1.sketch } :=
    pad_step1 (h3bRegOps 4096 52) pad32h3 { e with sketch := pad32h3 e.sketch } e strm2
      (trailingOnes hsh2) rfl (pad32h3_val e.sketch strm2 hlen)
      (pad32h3_set e.sketch strm2 1 hlen hs2)
  have hpad2 : F2 = { E2 with sketch := pad32h3 E2.sketch } :=
    pad_step (h3bRegOps 4096 52) pad32h3 F1 E1 strm2 (trailingOnes hsh2) 4 2 hpad1
      (pad32h3_val E1.sketch strm2 hlen1) (pad32h3_set E1.sketch strm2 2 hlen1 hs2)
  have hpad3 : F3 = { E3 with sketch := pad32h3 E3.sketch } :=
    pad_step (h3bRegOps 4096 52) pad32h3 F2 E2 strm2 (trailingOnes hsh2) 8 3 hpad2
      (pad32h3_val E2.sketch strm2 hlen2) (pad32h3_set E2.sketch strm2 3 hlen2 hs2)
  have hpad4 : F4 = { E4 with sketch := pad32h3 E4.sketch } :=
    pad_step (h3bRegOps 4096 52) pad32h3 F3 E3 strm2 (trailingOnes hsh2) 16 4 hpad3
      (pad32h3_val E3.sketch strm2 hlen3) (pad32h3_set E3.sketch strm2 4 hlen3 hs2)
  have hpad5 : F5 = { E5 with sketch := pad32h3 E5.sketch } :=
    pad_step (h3bRegOps 4096 52) pad32h3 F4 E4 strm2 (trailingOnes hsh2) 32 5 hpad4
      (pad32h3_val E4.sketch strm2 hlen4) (pad32h3_set E4.sketch strm2 5 hlen4 hs2)
  have hpad6 : F6 = { E6 with sketch := pad32h3 E6.sketch } :=
    pad_step (h3bRegOps 4096 52) pad32h3 F5 E5 strm2 (trailingOnes hsh2) 64 6 hpad5
      (pad32h3_val E5.sketch strm2 hlen5) (pad32h3_set E5.sketch strm2 6 hlen5 hs2)
  have hpad7 : F7 = { E7 with sketch := pad32h3 E7.sketch } :=
    pad_step (h3bRegOps 4096 52) pad32h3 F6 E6 strm2 (trailingOnes hsh2) 128 7 hpad6
      (pad32h3_val E6.sketch strm2 hlen6) (pad32h3_set E6.sketch strm2 7 hlen6 hs2)
  rw [hLp] at hpad7
  rw [hR] at hpad7 hlen7
  exact ⟨hpad7, hlen7⟩

theorem satCheck_pad3 (x : HyperTwoBits H3B.M128Reg)
    (hlen : x.sketch.registers.length = 32) :
    satCheck (h3bRegOps 4096 52) { x with sketch := pad32h3 x.sketch } =
      { satCheck (h3bRegOps 4096 52) x with
        sketch := pad32h3 (satCheck (h3bRegOps 4096 52) x).sketch } := by
  simp only [satCheck, h3bRegOps]
  by_cases hc : x.count ≥ thresholdInsert 4096
  · rw [if_pos hc, if_pos hc]
    dsimp only
    rw [pad32h3_decW x.sketch hlen]
  · rw [if_neg hc, if_neg hc]

theorem insertHash3_pad (e : HyperTwoBits H3B.M128Reg) (h : ℕ)
    (hlen : e.sketch.registers.length = 32) (hh : h < 2 ^ 64) :
    insertHash3 (h3bRegOps 4096 52) { e with sketch := pad32h3 e.sketch } h =
      { insertHash3 (h3bRegOps 4096 52) e h with
        sketch := pad32h3 (insertHash3 (h3bRegOps 4096 52) e h).sketch } := by
  obtain ⟨hpad, hlen'⟩ := insertValue3_pad e h hlen hh
  unfold insertHash3
  rw [hpad]
  exact satCheck_pad3 (insertValue3 (h3bRegOps 4096 52) e h) hlen'

theorem insertHash3_m8192_eq (e : HyperTwoBits H3B.M128Reg) (h : ℕ) :
    insertHash3 h3bM8192Ops e h = insertHash3 (h3bRegOps 4096 52) e h := rfl

theorem countEstimate_m8192h3_eq (e : HyperTwoBits H3B.M128Reg) :
    countEstimate h3bM8192Ops e = countEstimate (h3bRegOps 4096 52) e := rfl

/-- C10: both `M8192` store types (two-bit and three-bit) store 64 blocks
of 128 slots but declare `STREAMS = 4096` and `IDX_SHIFT = 52`: every
64-bit hash routes below 4096, their default stores are the width-4096
defaults plus 32 zero registers, slots at index 4096 and above read
level 0 on any padded store, each `insert_hash` on a padded state is
exactly the width-4096 `insert_hash` followed by the same padding, and
`count()` uses the same width-4096 formula. -/
theorem claim10_m8192_half_width :
    (∀ h : ℕ, h < 2 ^ 64 → h >>> h2bM8192Ops.IDX_SHIFT < h2bM8192Ops.STREAMS) ∧
    h2bM8192Ops.dflt.registers.length = 64 ∧
    h2bM8192Ops.STREAMS = 4096 ∧
    h2bM8192Ops.IDX_SHIFT = 52 ∧
    h2bM8192Ops.dflt = pad32 ((h2bRegOps 4096 52).dflt) ∧
    (∀ (s : H2B.M128Reg) (i : ℕ), s.registers.length = 32 → 4096 ≤ i →
      h2bM8192Ops.val (pad32 s) i = 0) ∧
    (∀ (e : HyperTwoBits H2B.M128Reg) (h : ℕ), e.sketch.registers.length = 32 →
      h < 2 ^ 64 →
      insertHash2 h2bM8192Ops { e with sketch := pad32 e.sketch } h =
        { insertHash2 (h2bRegOps 4096 52) e h with
          sketch := pad32 (insertHash2 (h2bRegOps 4096 52) e h).sketch }) ∧
    (∀ e : HyperTwoBits H2B.M128Reg,
      countEstimate h2bM8192Ops e = countEstimate (h2bRegOps 4096 52) e) ∧
    (∀ h : ℕ, h < 2 ^ 64 → h >>> h3bM8192Ops.IDX_SHIFT < h3bM8192Ops.STREAMS) ∧
    h3bM8192Ops.dflt.registers.length = 64 ∧
    h3bM8192Ops.STREAMS = 4096 ∧
    h3bM8192Ops.IDX_SHIFT = 52 ∧
    h3bM8192Ops.dflt = pad32h3 ((h3bRegOps 4096 52).dflt) ∧
    (∀ (s : H3B.M128Reg) (i : ℕ), s.registers.length = 32 → 4096 ≤ i →
      h3bM8192Ops.val (pad32h3 s) i = 0) ∧
    (∀ (e : HyperTwoBits H3B.M128Reg) (h : ℕ), e.sketch.registers.length = 32 →
      h < 2 ^ 64 →
      insertHash3 h3bM8192Ops { e with sketch := pad32h3 e.sketch } h =
        { insertHash3 (h3bRegOps 4096 52) e h with
          sketch := pad32h3 (insertHash3 (h3bRegOps 4096 52) e h).sketch }) ∧
    (∀ e : HyperTwoBits H3B.M128Reg,
      countEstimate h3bM8192Ops e = countEstimate (h3bRegOps 4096 52) e) := by
  refine ⟨?_, by decide, rfl, rfl, by decide, ?_, ?_, ?_, ?_, by decide, rfl, rfl,
    by decide, ?_, ?_, ?_⟩
  · intro h hh
    show h >>> 52 < 4096
    rw [Nat.shiftRight_eq_div_pow]
    apply Nat.div_lt_of_lt_mul
    norm_num at hh ⊢
    omega
  · intro s i hlen hi
    exact pad32_val_hi s i hlen hi
  · intro e h hlen hh
    rw [insertHash2_m8192_eq]
    exact insertHash2_pad e h hlen hh
  · exact countEstimate_m8192_eq
  · intro h hh
    show h >>> 52 < 4096
    rw [Nat.shiftRight_eq_div_pow]
    apply Nat.div_lt_of_lt_mul
    norm_num at hh ⊢
    omega
  · intro s i hlen hi
    exact pad32h3_val_hi s i hlen hi
  · intro e h hlen hh
    rw [insertHash3_m8192_eq]
    exact insertHash3_pad e h hlen hh
  · exact countEstimate_m8192h3_eq

/-- C10, witness: the routing bound and both padding simulations (two-bit
and three-bit) evaluated on the fresh estimators and the digest 5. -/
theorem claim10_witness :
    ((2 : ℕ) ^ 63 < 2 ^ 64 ∧
      (2 : ℕ) ^ 63 >>> h2bM8192Ops.IDX_SHIFT < h2bM8192Ops.STREAMS) ∧
    ((newEstimator (h2bRegOps 4096 52) (fun _ => 0)).sketch.registers.length = 32 ∧
      (5 : ℕ) < 2 ^ 64 ∧
      insertHash2 h2bM8192Ops
          { newEstimator (h2bRegOps 4096 52) (fun _ => 0) with
            sketch := pad32 (newEstimator (h2bRegOps 4096 52) (fun _ => 0)).sketch } 5 =
        { insertHash2 (h2bRegOps 4096 52)
            (newEstimator (h2bRegOps 4096 52) (fun _ => 0)) 5 with
          sketch := pad32 (insertHash2 (h2bRegOps 4096 52)
            (newEstimator (h2bRegOps 4096 52) (fun _ => 0)) 5).sketch }) ∧
    ((newEstimator (h3bRegOps 4096 52) (fun _ => 0)).sketch.registers.length = 32 ∧
      (5 : ℕ) < 2 ^ 64 ∧
      insertHash3 h3bM8192Ops
          { newEstimator (h3bRegOps 4096 52) (fun _ => 0) with
            sketch := pad32h3 (newEstimator (h3bRegOps 4096 52) (fun _ => 0)).sketch } 5 =
        { insertHash3 (h3bRegOps 4096 52)
            (newEstimator (h3bRegOps 4096 52) (fun _ => 0)) 5 with
          sketch := pad32h3 (insertHash3 (h3bRegOps 4096 52)
            (newEstimator (h3bRegOps 4096 52) (fun _ => 0)) 5).sketch }) := by
  obtain ⟨r2, -, -, -, -, -, ins2, -, -, -, -, -, -, -, ins3, -⟩ :=
    claim10_m8192_half_width
  exact ⟨⟨by norm_num, r2 (2 ^ 63) (by norm_num)⟩,
    ⟨by decide, by norm_num,
      ins2 (newEstimator (h2bRegOps 4096 52) (fun _ => 0)) 5 (by decide) (by norm_num)⟩,
    ⟨by decide, by norm_num,
      ins3 (newEstimator (h3bRegOps 4096 52) (fun _ => 0)) 5 (by decide) (by norm_num)⟩⟩
